import Mathlib

/-!
# tvipt command line (`src/tvipt/cli.cpp`, `src/tvipt/config.h`, `src/tvipt/term.h`)

A shallow embedding of the command-line interpreter of the tvipt firmware.

* C strings are lists of byte values (`List Nat`), without their terminating NUL.
* A pointer into the command buffer (`char *tok`) is an offset in `_command`; the text it
  points to is `c_str (_command.drop tok)`.
* The static variables of `cli.cpp` are the fields of `State`.
* Everything `cli.cpp` calls outside itself is recorded, in call order, as an `Event` of
  `State.trace`; what the absent collaborators answer is read from an `Env`, each answer
  being a function of the trace so far.
* A function that has no defined return on some input (it spins forever, resets the
  device, or the loop budget `fuel` is used up) yields `none`.
-/

namespace Tvipt

/-- The bytes of a string literal of the source. -/
def cstr (s : String) : List Nat := s.toList.map Char.toNat

/-! ## Command executor return values -/

/-- The enum `command_status` of `cli.cpp`. -/
inductive command_status
  | CMD_UNKNOWN
  | CMD_OK
  | CMD_ERR
  | CMD_IO
  deriving DecidableEq, Repr

open command_status

/-! ## term.h -/

def TERM_BREAK : Nat := 0
def TERM_XOFF : Nat := 0x13
def TERM_XON : Nat := 0x11
def TERM_ESCAPE : Nat := 0x1B
def TERM_ENABLE_ALT_CHAR : Nat := 74
def TERM_DISABLE_ALT_CHAR : Nat := 75

/-- The enum `readln_echo` of `term.h`. -/
inductive readln_echo
  | READLN_ECHO
  | READLN_NO_ECHO
  | READLN_MASKED
  deriving DecidableEq, Repr

/-- The fields of `struct wifi_network` that `print_wifi_network` reads. -/
structure wifi_network where
  ssid : List Nat
  rssi : Int
  encryption_description : List Nat
  deriving DecidableEq, Repr

/-- The fields of `struct wifi_info` that `cmd_info` reads. -/
structure wifi_info where
  status_description : List Nat
  ssid : List Nat
  pass : List Nat
  address : Nat
  netmask : Nat
  gateway : Nat
  time : Int
  firmware_version : List Nat
  deriving DecidableEq, Repr

/-! ## Calls that leave `cli.cpp` -/

/-- One call made by `cli.cpp` to code outside it, with its arguments and, where the
caller uses it, the value returned. `store i v` records an assignment `_command[i] = v`
made by `cli_loop`. The C library's `strtok_r`, `atoi` and `strtol` are computed, not
recorded: the NULs `strtok_r` stores show in `_command` only. -/
inductive Event
  | millis (result : Nat)
  | delay (ms : Nat)
  | wifi_has_loop_callback (result : Bool)
  | wifi_connect (ssid pass : List Nat)
  | wifi_is_connected (result : Bool)
  | wifi_get_info
  | wifi_scan (result : Int)
  | tvipt_proto_connect (host : List Nat) (port : Nat) (result : Bool)
  | tcp_connect (host : List Nat) (port : Nat) (result : Bool)
  | keyboard_test (result : Bool)
  | weather (zip : List Nat)
  | NVIC_SystemReset
  | term_available (result : Bool)
  | term_read (result : Int)
  | term_serial_read (result : Int)
  | term_readln (max : Nat) (echo : readln_echo) (line : List Nat)
  | term_write (val : List Nat)
  | term_write_char (c : Nat)
  | term_write_buf (buf : List Nat) (size : Nat)
  | term_writeln (val : List Nat)
  | term_writeln_masked (val : List Nat)
  | term_print (val : Int) (base : Nat)
  | term_print_addr (addr : Nat)
  | term_flush
  | dbg_serial_write (c : Nat)
  | store (index value : Nat)
  deriving DecidableEq, Repr

/-- What the code outside `cli.cpp` answers; every answer may depend on all calls made so
far. `ECHO` is a macro that the available headers do not define. `dbg_target_garbage` is
the content of the storage of the local `dbg_target` of `cmd_echo` before any assignment. -/
structure Env where
  ECHO : Bool
  millis : List Event → Nat
  wifi_has_loop_callback : List Event → Bool
  wifi_is_connected : List Event → Bool
  wifi_get_info : List Event → wifi_info
  wifi_scan : List Event → List wifi_network × Int
  tvipt_proto_connect : List Event → List Nat → Nat → Bool
  tcp_connect : List Event → List Nat → Nat → Bool
  keyboard_test : List Event → Bool
  term_readln : List Event → List Nat → Nat → readln_echo → Option (List Nat × List Nat)
  dbg_target_garbage : List Event → Bool

/-! ## config.h -/

/-- The macros of `config.h` that `cli.cpp` reads; `none` stands for `NULL`. -/
structure Config where
  DEFAULT_WIFI_SSID : Option (List Nat)
  DEFAULT_WIFI_PASSWORD : Option (List Nat)
  DEFAULT_WIFI_JOIN_TIMEOUT : Nat
  DEFAULT_HOST : Option (List Nat)
  DEFAULT_PORT : Nat
  deriving DecidableEq, Repr

/-- The values `config.h` ships with. -/
def config_h : Config :=
  { DEFAULT_WIFI_SSID := none
    DEFAULT_WIFI_PASSWORD := none
    DEFAULT_WIFI_JOIN_TIMEOUT := 5000
    DEFAULT_HOST := none
    DEFAULT_PORT := 3333 }

/-- The initializer list `SECRET_KEY` of `config.h`. -/
def SECRET_KEY : List Nat :=
  [ 0x11, 0x00, 0x11, 0x00, 0x11, 0x00, 0x11, 0x00, 0x11, 0x00, 0x11, 0x00, 0x11, 0x00,
    0x11, 0x00, 0x11, 0x00, 0x11, 0x00, 0x11, 0x00, 0x11, 0x00, 0x11, 0x00, 0x11, 0x00,
    0x11, 0x00, 0x11, 0x00, 0x11, 0x00, 0x11, 0x00, 0x11, 0x00, 0x11, 0x00 ]

/-! ## Internal data of `cli.cpp` -/

/-- The static variables of `cli.cpp` (`_uptime`, `_last_millis`, `_handling_io`,
`_command`, `_command_index`), the bytes waiting at the terminal (`term_in`, oldest
first) and the calls made so far (`trace`). -/
structure State where
  _uptime : Nat
  _last_millis : Nat
  _handling_io : Bool
  _command : List Nat
  _command_index : Nat
  term_in : List Nat
  trace : List Event
  deriving DecidableEq, Repr

/-- Record one call. -/
def emit (st : State) (e : Event) : State :=
  { st with trace := st.trace ++ [e] }

/-! ### The terminal driver (declared in `term.h`) -/

/-- Modelled from the spec: `term.cpp` is not among the sources. `term_available` reports
whether a byte is waiting at the terminal. -/
def term_available (st : State) : Bool × State :=
  let r := !st.term_in.isEmpty
  (r, emit st (Event.term_available r))

/-- Modelled from the spec: `term.cpp` is not among the sources. `term_read` takes the
oldest waiting byte; when nothing is available it reports so with `-1`, the value
`cmd_echo` tests for. -/
def term_read (st : State) : Int × State :=
  match st.term_in with
  | [] => (-1, emit st (Event.term_read (-1)))
  | c :: rest => ((c : Int), { st with term_in := rest, trace := st.trace ++ [Event.term_read c] })

def term_write (st : State) (val : List Nat) : State := emit st (Event.term_write val)

def term_write_char (st : State) (c : Nat) : State := emit st (Event.term_write_char c)

def term_writeln (st : State) (val : List Nat) : State := emit st (Event.term_writeln val)

def term_print (st : State) (val : Int) (base : Nat) : State := emit st (Event.term_print val base)

def term_flush (st : State) : State := emit st Event.term_flush

/-! ## CLI utilities -/

/-- The function `clear_command`: `memset(&_command, 0, sizeof(_command))` and
`_command_index = 0`. -/
def clear_command (st : State) : State :=
  { st with _command := List.replicate 60 0, _command_index := 0 }

/-- The function `print_prompt`. -/
def print_prompt (st : State) : State := term_write st (cstr "> ")

/-- The C library's `isspace` in the "C" locale. -/
def isspace (c : Nat) : Bool := c = 32 || (9 ≤ c && c ≤ 13)

/-- The C library's `isdigit`. -/
def isdigit (c : Nat) : Bool := 48 ≤ c && c ≤ 57

/-- The value of the longest prefix of decimal digits, and what follows it. -/
def scan_digits : List Nat → Nat → Nat × List Nat
  | [], acc => (acc, [])
  | c :: cs, acc => if isdigit c then scan_digits cs (acc * 10 + (c - 48)) else (acc, c :: cs)

/-- The C library's `strtol(str, &endptr, 10)` for a 32-bit `long`: white space, an
optional sign, decimal digits; the value saturates at `LONG_MIN` and `LONG_MAX`. Returns
the value and the text at `endptr`, which is `str` itself when no digit was converted. -/
def strtol (str : List Nat) : Int × List Nat :=
  let s := str.dropWhile isspace
  let neg := s.head? = some 45
  let body := if s.head? = some 45 ∨ s.head? = some 43 then s.tail else s
  if (body.head?.map isdigit) = some true then
    let r := scan_digits body 0
    ((if neg then max (-(r.1 : Int)) (-2147483648) else min (r.1 : Int) 2147483647), r.2)
  else (0, str)

/-- The C library's `atoi`: `(int) strtol(str, NULL, 10)`, with `int` and `long` both
32 bits wide. -/
def atoi (str : List Nat) : Int := (strtol str).1

/-- The conversion `(uint16_t) x`. -/
def to_uint16 (x : Int) : Nat := (x % 65536).toNat

/-- The conversion `(uint8_t) x`. -/
def to_uint8 (x : Int) : Nat := (x % 256).toNat

/-- The function `parse_uint8`: `some value` when it stores `value` and returns 1,
`none` when it returns 0. -/
def parse_uint8 (str : List Nat) : Option Nat :=
  let r := strtol str
  if str ≠ [] ∧ r.2 = [] then some (to_uint8 r.1) else none

/-- The function `parse_uint16`: `some value` when it stores `value` and returns 1,
`none` when it returns 0. -/
def parse_uint16 (str : List Nat) : Option Nat :=
  let r := strtol str
  if str ≠ [] ∧ r.2 = [] then some (to_uint16 r.1) else none

/-- The text of a buffer read as a C string: the bytes before the first NUL. -/
def c_str (buf : List Nat) : List Nat := buf.takeWhile (fun b => b ≠ 0)

/-- The C library's `strtok_r(s, delim, &save)` on the memory `buf`, the scan starting at
offset `pos` (the address `s`, or the save pointer when `s` is `NULL`). The delimiters the
text at `pos` begins with are skipped; when the text ends there the result is `NULL`
(`none`) and nothing is stored. Otherwise the token runs up to the next delimiter, over
which a NUL is stored, or up to the end of the text. Returns the token, the offset the
save pointer is left at, and the memory. A save pointer left `NULL` is given as the offset
at which the text ends: the next call finds no token there either. -/
def strtok_r (buf : List Nat) (pos : Nat) (delim : List Nat) :
    Option (List Nat) × Nat × List Nat :=
  let s := c_str (buf.drop pos)
  let lead := s.takeWhile (fun c => decide (c ∈ delim))
  let s1 := s.dropWhile (fun c => decide (c ∈ delim))
  if s1 = [] then (none, pos + s.length, buf)
  else
    let token := s1.takeWhile (fun c => !decide (c ∈ delim))
    let stop := pos + lead.length + token.length
    if token.length < s1.length then (some token, stop + 1, buf.set stop 0)
    else (some token, stop, buf)

/-! ## Error strings -/

def _e_missing_ssid : List Nat := cstr "missing ssid"
def _e_invalid_command : List Nat := cstr "invalid command: "
def _e_missing_host : List Nat := cstr "missing host"
def _e_missing_port : List Nat := cstr "missing port"
def _e_invalid_target : List Nat := cstr "invalid target"
def _e_invalid_charset : List Nat := cstr "invalid charset: "
def _e_missing_zip : List Nat := cstr "missing zip"

/-! ## Run boot commands -/

/-- The loop `while (!wifi_is_connected() && millis() < timeout) delay(1);` of
`cli_boot`, on the trace. -/
def boot_wait (env : Env) (timeout : Nat) : Nat → List Event → Option (List Event)
  | 0, _ => none
  | fuel + 1, tr =>
    let c := env.wifi_is_connected tr
    let tr1 := tr ++ [Event.wifi_is_connected c]
    if c then some tr1
    else
      let m := env.millis tr1 % 4294967296
      let tr2 := tr1 ++ [Event.millis m]
      if m < timeout then boot_wait env timeout fuel (tr2 ++ [Event.delay 1])
      else some tr2

/-- The part of `cli_boot` between the test of `DEFAULT_WIFI_SSID` and
`DEFAULT_WIFI_PASSWORD` and its wait loop: the report, `wifi_connect`, and the computation
of `timeout`. Returns the state at the loop's entry and `timeout`. -/
def boot_join (cfg : Config) (env : Env) (ssid pass : List Nat) (st : State) : State × Nat :=
  let st := term_write st (cstr "wifi: auto join ssid=[")
  let st := term_write st ssid
  let st := term_write st (cstr "] timeout=")
  let st := term_print st cfg.DEFAULT_WIFI_JOIN_TIMEOUT 10
  let st := term_writeln st (cstr "ms")
  let st := emit st (Event.wifi_connect ssid pass)
  let now := env.millis st.trace % 4294967296
  (emit st (Event.millis now), (now + cfg.DEFAULT_WIFI_JOIN_TIMEOUT) % 4294967296)

/-- The part of `cli_boot` after its wait loop, up to the assignment of `connected`. -/
def boot_connect (cfg : Config) (env : Env) (st : State) : Bool × State :=
  match cfg.DEFAULT_HOST with
  | some host =>
    if cfg.DEFAULT_PORT > 0 then
      let st := term_write st (cstr "tvipt proto: auto connect host=")
      let st := term_write st host
      let st := term_write st (cstr " port=")
      let st := term_print st cfg.DEFAULT_PORT 10
      let st := term_writeln st []
      let port := cfg.DEFAULT_PORT % 65536
      let connected := env.tvipt_proto_connect st.trace host port
      (connected, emit st (Event.tvipt_proto_connect host port connected))
    else (false, st)
  | none => (false, st)

/-- The function `cli_boot`. -/
def cli_boot (cfg : Config) (env : Env) (fuel : Nat) (st : State) : Option (Bool × State) :=
  let joined : Option (Bool × State) :=
    match cfg.DEFAULT_WIFI_SSID, cfg.DEFAULT_WIFI_PASSWORD with
    | some ssid, some pass =>
      let j := boot_join cfg env ssid pass st
      match boot_wait env j.2 fuel j.1.trace with
      | none => none
      | some tr => some (boot_connect cfg env { j.1 with trace := tr })
    | _, _ => some (false, st)
  match joined with
  | none => none
  | some (connected, st) =>
    if !connected then some (false, print_prompt st) else some (true, st)

/-- The calls `boot_join` makes. -/
def boot_join_calls (cfg : Config) (env : Env) (ssid pass : List Nat) (st : State) : List Event :=
  [Event.term_write (cstr "wifi: auto join ssid=["), Event.term_write ssid,
   Event.term_write (cstr "] timeout="), Event.term_print cfg.DEFAULT_WIFI_JOIN_TIMEOUT 10,
   Event.term_writeln (cstr "ms"), Event.wifi_connect ssid pass,
   Event.millis (env.millis (st.trace ++
     [Event.term_write (cstr "wifi: auto join ssid=["), Event.term_write ssid,
      Event.term_write (cstr "] timeout="), Event.term_print cfg.DEFAULT_WIFI_JOIN_TIMEOUT 10,
      Event.term_writeln (cstr "ms"), Event.wifi_connect ssid pass]) % 4294967296)]

/-- The calls made when `cli_boot` reads `millis()` to compute `timeout`: those made before
it was entered, its report and `wifi_connect`. -/
def boot_join_start (cfg : Config) (ssid pass : List Nat) (st : State) : List Event :=
  st.trace ++
    [Event.term_write (cstr "wifi: auto join ssid=["), Event.term_write ssid,
     Event.term_write (cstr "] timeout="), Event.term_print cfg.DEFAULT_WIFI_JOIN_TIMEOUT 10,
     Event.term_writeln (cstr "ms"), Event.wifi_connect ssid pass]

/-- The clock runs during a wait of `T` milliseconds that begins when the calls `tr` have
been made: whatever calls `w` follow, each `delay(1)` among them has let at least one
millisecond pass and the clock has not gone back, and `millis()` has not wrapped around
as long as no more than `T` calls of `delay(1)` have been made. -/
def clock_runs (env : Env) (tr : List Event) (T : Nat) : Prop :=
  ∀ w, env.millis tr + w.count (Event.delay 1) ≤ env.millis (tr ++ w) ∧
    (w.count (Event.delay 1) ≤ T → env.millis (tr ++ w) < 4294967296)

/-- Two states agree on the static variables of `cli.cpp` other than the content of
`_command`, in which `strtok_r` stores NULs. -/
def same_statics (st st' : State) : Prop :=
  st'._uptime = st._uptime ∧ st'._last_millis = st._last_millis ∧
  st'._handling_io = st._handling_io ∧ st'._command_index = st._command_index

/-- The calls to `tvipt_proto_connect` among recorded calls. -/
def is_proto_connect : Event → Bool
  | Event.tvipt_proto_connect _ _ _ => true
  | _ => false

/-- The calls made by the wait loop of `cli_boot`. -/
def is_wait_call : Event → Bool
  | Event.wifi_is_connected _ => true
  | Event.millis _ => true
  | Event.delay _ => true
  | _ => false

/-- The call `term_write("> ")` made by `print_prompt`. -/
def prompt : Event := Event.term_write (cstr "> ")

/-- The function `cmd_boot`. -/
def cmd_boot (cfg : Config) (env : Env) (fuel : Nat) (_tok : Nat) (st : State) :
    Option (command_status × State) :=
  match cli_boot cfg env fuel st with
  | none => none
  | some (r, st) => some (if r then CMD_IO else CMD_OK, st)

/-! ## Connect to a tvipt server -/

/-- The function `cmd_connect`. The parameter `tok` is the offset in `_command` of the
save pointer that `process_command` passes on. -/
def cmd_connect (env : Env) (tok : Nat) (st : State) : Option (command_status × State) :=
  let t1 := strtok_r st._command tok (cstr " ")
  let st := { st with _command := t1.2.2 }
  match t1.1 with
  | none => some (CMD_ERR, term_writeln st _e_missing_host)
  | some host =>
    let t2 := strtok_r st._command t1.2.1 (cstr " ")
    let st := { st with _command := t2.2.2 }
    match t2.1 with
    | none => some (CMD_ERR, term_writeln st _e_missing_port)
    | some arg =>
      let port := to_uint16 (atoi arg)
      let r := env.tvipt_proto_connect st.trace host port
      let st := emit st (Event.tvipt_proto_connect host port r)
      if r then some ( CMD_IO, st)
      else some (CMD_ERR, term_writeln st (cstr "connection failed"))

/-! ## TCP connect -/

/-- The function `cmd_tcp_connect`. -/
def cmd_tcp_connect (env : Env) (tok : Nat) (st : State) : Option (command_status × State) :=
  let t1 := strtok_r st._command tok (cstr " ")
  let st := { st with _command := t1.2.2 }
  match t1.1 with
  | none => some (CMD_ERR, term_writeln st _e_missing_host)
  | some host =>
    let t2 := strtok_r st._command t1.2.1 (cstr " ")
    let st := { st with _command := t2.2.2 }
    match t2.1 with
    | none => some (CMD_ERR, term_writeln st _e_missing_port)
    | some arg =>
      let port := to_uint16 (atoi arg)
      let r := env.tcp_connect st.trace host port
      let st := emit st (Event.tcp_connect host port r)
      if r then some ( CMD_IO, st)
      else some (CMD_ERR, term_writeln st (cstr "connection failed"))

/-! ## Chars -/

def FIRST_PRINTABLE : Nat := 0x20
def LAST_PRINTABLE : Nat := 0x7E

/-- The loop `while (term_serial.read() != TERM_XON) {}` of `cmd_chars`: it ends at the
first XON waiting at the terminal and never ends when there is none. -/
def wait_xon : List Nat → List Event → Option (List Nat × List Event)
  | [], _ => none
  | b :: rest, tr =>
    if b = TERM_XON then some (rest, tr ++ [Event.term_serial_read b])
    else wait_xon rest (tr ++ [Event.term_serial_read b])

/-- The body of the `for (int col = 0; col < 8; col++)` loop of `cmd_chars`, for the
`n` columns from `col` on. -/
def chars_row (print_alt_chars : Bool) (c : Nat) : Nat → Nat → State → Option State
  | 0, _, st => some st
  | n + 1, col, st =>
    let r := term_read st
    let flow : Option State :=
      if r.1 = (TERM_XOFF : Int) then
        match wait_xon r.2.term_in r.2.trace with
        | none => none
        | some (rest, tr) => some { r.2 with term_in := rest, trace := tr }
      else some r.2
    match flow with
    | none => none
    | some st =>
      let ch := (c + col * 12) % 256
      if ch > LAST_PRINTABLE then some st
      else
        let st := term_write st (cstr "0x")
        let st := term_print st ch 16
        let st := term_write st (cstr " ")
        let st := if print_alt_chars then
          term_write_char (term_write_char st TERM_ESCAPE) TERM_ENABLE_ALT_CHAR else st
        let st := term_write_char st ch
        let st := if print_alt_chars then
          term_write_char (term_write_char st TERM_ESCAPE) TERM_DISABLE_ALT_CHAR else st
        let st := term_write st (cstr "    ")
        chars_row print_alt_chars c n (col + 1) st

/-- The loop `while (c <= FIRST_PRINTABLE + 11)` of `cmd_chars`; `n` bounds the number
of rounds. -/
def chars_rows (print_alt_chars : Bool) : Nat → Nat → State → Option State
  | 0, _, _ => none
  | n + 1, c, st =>
    if c ≤ FIRST_PRINTABLE + 11 then
      match chars_row print_alt_chars c 8 0 st with
      | none => none
      | some st => chars_rows print_alt_chars n ((c + 1) % 256) (term_writeln st [])
    else some st

/-- The function `cmd_chars`. The byte `c` takes at most 256 values, which bounds the
rounds of the outer loop. -/
def cmd_chars (tok : Nat) (st : State) : Option (command_status × State) :=
  let t := strtok_r st._command tok (cstr " ")
  let st := { st with _command := t.2.2 }
  match t.1 with
  | some arg =>
    if arg = cstr "alt" then
      (chars_rows true 256 FIRST_PRINTABLE st).map (fun st => (CMD_OK, st))
    else some (CMD_ERR, term_writeln (term_write st _e_invalid_charset) arg)
  | none => (chars_rows false 256 FIRST_PRINTABLE st).map (fun st => (CMD_OK, st))

/-! ## Echo -/

/-- The loop `while (true)` of `cmd_echo`; `fuel` bounds the number of rounds. -/
def echo_loop (dbg_target : Bool) : Nat → State → Option (command_status × State)
  | 0, _ => none
  | fuel + 1, st =>
    let r := term_read st
    if r.1 = (TERM_BREAK : Int) then some (CMD_OK, r.2)
    else if r.1 ≠ -1 then
      if dbg_target then echo_loop dbg_target fuel (emit r.2 (Event.dbg_serial_write (to_uint8 r.1)))
      else echo_loop dbg_target fuel (term_write_char r.2 r.1.toNat)
    else echo_loop dbg_target fuel r.2

/-- The function `cmd_echo`. The local `dbg_target` is declared without an initializer
and assigned only when the argument is `dbg`. -/
def cmd_echo (env : Env) (fuel : Nat) (tok : Nat) (st : State) :
    Option (command_status × State) :=
  let dbg_target := env.dbg_target_garbage st.trace
  let t := strtok_r st._command tok (cstr " ")
  let st := { st with _command := t.2.2 }
  match t.1 with
  | some arg =>
    if arg = cstr "dbg" then
      echo_loop true fuel (term_writeln st (cstr "send break to quit"))
    else some (CMD_ERR, term_writeln (term_write st _e_invalid_target) arg)
  | none => echo_loop dbg_target fuel (term_writeln st (cstr "send break to quit"))

/-! ## Info -/

def SECOND_MILLIS : Int := 1000
def MINUTE_MILLIS : Int := 60 * SECOND_MILLIS
def HOUR_MILLIS : Int := 60 * MINUTE_MILLIS
def DAY_MILLIS : Int := 24 * HOUR_MILLIS

/-- A product of two `int`s, kept to 32 bits in two's complement. -/
def wrap_int32 (x : Int) : Int := (x + 2147483648) % 4294967296 - 2147483648

/-- The conversion to `uint64_t`. -/
def to_uint64 (x : Int) : Nat := (x % 18446744073709551616).toNat

/-- The function `print_time`. -/
def print_time (st : State) (elapsed_ms : Nat) : State :=
  let days := to_uint16 ((elapsed_ms : Int) / DAY_MILLIS)
  let st := term_print st days 10
  let st := term_write st (cstr " days, ")
  let elapsed_ms := to_uint64 ((elapsed_ms : Int) - to_uint64 (wrap_int32 (days * DAY_MILLIS)))
  let hours := to_uint8 ((elapsed_ms : Int) / HOUR_MILLIS)
  let st := term_print st hours 10
  let st := term_write st (cstr " hours, ")
  let elapsed_ms := to_uint64 ((elapsed_ms : Int) - to_uint64 (wrap_int32 (hours * HOUR_MILLIS)))
  let minutes := to_uint8 ((elapsed_ms : Int) / MINUTE_MILLIS)
  let st := term_print st minutes 10
  let st := term_write st (cstr " minutes, ")
  let elapsed_ms := to_uint64 ((elapsed_ms : Int) - to_uint64 (wrap_int32 (minutes * MINUTE_MILLIS)))
  let seconds := to_uint8 ((elapsed_ms : Int) / SECOND_MILLIS)
  let st := term_print st seconds 10
  let st := term_write st (cstr " seconds, ")
  let elapsed_ms := to_uint64 ((elapsed_ms : Int) - to_uint64 (wrap_int32 (seconds * SECOND_MILLIS)))
  let st := term_print st (wrap_int32 elapsed_ms) 10
  term_write st (cstr " milliseconds")

/-- The function `cmd_info`. -/
def cmd_info (env : Env) (_tok : Nat) (st : State) : Option (command_status × State) :=
  let st := term_write st (cstr "uptime: ")
  let st := print_time st st._uptime
  let st := term_writeln st []
  let w_info := env.wifi_get_info st.trace
  let st := emit st Event.wifi_get_info
  let st := term_write st (cstr "wifi status: ")
  let st := term_writeln st w_info.status_description
  let st := term_write st (cstr "wifi ssid: ")
  let st := term_writeln st w_info.ssid
  let st := term_write st (cstr "wifi pass: ")
  let st := emit st (Event.term_writeln_masked w_info.pass)
  let st := term_write st (cstr "wifi address: ")
  let st := emit st (Event.term_print_addr w_info.address)
  let st := term_writeln st []
  let st := term_write st (cstr "wifi netmask: ")
  let st := emit st (Event.term_print_addr w_info.netmask)
  let st := term_writeln st []
  let st := term_write st (cstr "wifi gateway: ")
  let st := emit st (Event.term_print_addr w_info.gateway)
  let st := term_writeln st []
  let st := term_write st (cstr "wifi time: ")
  let st := term_print st w_info.time 10
  let st := term_writeln st []
  let st := term_write st (cstr "wifi firmware: ")
  let st := term_writeln st w_info.firmware_version
  some (CMD_OK, st)

/-! ## Keyboard test -/

/-- The function `cmd_keyboard_test`. -/
def cmd_keyboard_test (env : Env) (_tok : Nat) (st : State) :
    Option (command_status × State) :=
  let r := env.keyboard_test st.trace
  let st := emit st (Event.keyboard_test r)
  if r then some ( CMD_IO, st) else some (CMD_ERR, term_writeln st (cstr "keyboard test failed"))

/-! ## Reset -/

/-- The function `cmd_reset`: after `term_writeln("starting over!")`, `term_flush()` and
reading away the waiting input it calls `NVIC_SystemReset()`, which does not return. -/
def cmd_reset (_tok : Nat) (_st : State) : Option (command_status × State) := none

/-! ## Wifi join -/

/-- The call `term_readln(buf, max, echo)`: the line read, at most `max` bytes, taken
from the waiting input; `none` when the call does not return. -/
def term_readln (env : Env) (max : Nat) (echo : readln_echo) (st : State) :
    Option (List Nat × State) :=
  match env.term_readln st.trace st.term_in max echo with
  | none => none
  | some (line, rest) =>
    some (line.take max,
      { st with term_in := rest, trace := st.trace ++ [Event.term_readln max echo (line.take max)] })

/-- The function `cmd_wifi_join`. -/
def cmd_wifi_join (env : Env) (_tok : Nat) (st : State) : Option (command_status × State) :=
  let st := term_write st (cstr "ssid: ")
  match term_readln env 99 readln_echo.READLN_ECHO st with
  | none => none
  | some (ssid, st) =>
    if ssid.length = 0 then some (CMD_ERR, term_writeln st _e_missing_ssid)
    else
      let st := term_writeln st []
      let st := term_write st (cstr "password: ")
      match term_readln env 99 readln_echo.READLN_MASKED st with
      | none => none
      | some (pass, st) =>
        let st := term_writeln st []
        some (CMD_OK, emit st (Event.wifi_connect (c_str ssid) (c_str pass)))

/-! ## Wifi scan -/

/-- The function `print_wifi_network`. -/
def print_wifi_network (st : State) (net : wifi_network) : State :=
  let st := term_write st (cstr "\"")
  let st := term_write st net.ssid
  let st := term_write st (cstr "\" ")
  let st := term_print st net.rssi 10
  let st := term_write st (cstr " dBm, ")
  term_writeln st net.encryption_description

/-- The function `cmd_wifi_scan`; `wifi_scan` calls `print_wifi_network` for the
networks it finds and returns their number or `-1`. -/
def cmd_wifi_scan (env : Env) (_tok : Nat) (st : State) : Option (command_status × State) :=
  let r := env.wifi_scan st.trace
  let st := r.1.foldl print_wifi_network st
  let st := emit st (Event.wifi_scan r.2)
  if r.2 = -1 then some (CMD_ERR, term_writeln st (cstr "scan error"))
  else some (CMD_OK, term_writeln (term_print st r.2 10) (cstr " networks"))

/-! ## Weather -/

/-- The function `cmd_weather`; `weather` is entered with the zip code read. -/
def cmd_weather (env : Env) (_tok : Nat) (st : State) : Option (command_status × State) :=
  let st := term_write st (cstr "zip: ")
  match term_readln env 5 readln_echo.READLN_ECHO st with
  | none => none
  | some (zip, st) =>
    if zip.length = 0 then some (CMD_ERR, term_writeln st _e_missing_zip)
    else
      let st := term_writeln st []
      some (CMD_OK, emit st (Event.weather (c_str zip)))

/-! ## Help -/

/-- The members `syntax` and `help` of the rows of `_commands`, in table order. -/
def _commands_texts : List (List Nat × List Nat) :=
  [ (cstr "b",             cstr "re-run boot commands without resetting"),
    (cstr "c host port",   cstr "connect to tvipt server at host"),
    (cstr "chars [alt]",   cstr "print the (alternate) printable characters"),
    (cstr "echo [dbg]",    cstr "echo chars typed to terminal (or debugger)"),
    (cstr "h",             cstr "print this help"),
    (cstr "i",             cstr "print system info"),
    (cstr "j",             cstr "join a WPA wireless network"),
    (cstr "keys",          cstr "keyboard input test"),
    (cstr "reset",         cstr "uptime goes to 0"),
    (cstr "scan",          cstr "scan for wireless networks"),
    (cstr "tcp host port", cstr "open TCP connection"),
    (cstr "w",             cstr "show the weather") ]

/-- The function `cmd_help`. -/
def cmd_help (_tok : Nat) (st : State) : Option (command_status × State) :=
  let max_syntax_width : Nat :=
    _commands_texts.foldl (fun m row => (max m row.1.length) % 256) 0
  let st := _commands_texts.foldl (fun st row =>
    let st := emit st (Event.term_write_buf row.1 row.1.length)
    let st := (List.range (max_syntax_width - row.1.length)).foldl
      (fun st _ => term_write_char st 32) st
    let st := term_write st (cstr "    ")
    term_writeln st row.2) st
  some (CMD_OK, st)

/-! ## Commands -/

/-- The struct `command`; `syntax_text` is the member the source names `syntax`. The
member `func` also receives the configuration, the collaborators and the loop budget; its
argument `char *tok` is an offset in `_command`. -/
structure command where
  name : List Nat
  syntax_text : List Nat
  help : List Nat
  func : Config → Env → Nat → Nat → State → Option (command_status × State)

/-- The table `_commands`. -/
def _commands : List command :=
  [ ⟨cstr "b", cstr "b", cstr "re-run boot commands without resetting",
      fun cfg env fuel tok st => cmd_boot cfg env fuel tok st⟩,
    ⟨cstr "c", cstr "c host port", cstr "connect to tvipt server at host",
      fun _ env _ tok st => cmd_connect env tok st⟩,
    ⟨cstr "chars", cstr "chars [alt]", cstr "print the (alternate) printable characters",
      fun _ _ _ tok st => cmd_chars tok st⟩,
    ⟨cstr "echo", cstr "echo [dbg]", cstr "echo chars typed to terminal (or debugger)",
      fun _ env fuel tok st => cmd_echo env fuel tok st⟩,
    ⟨cstr "h", cstr "h", cstr "print this help",
      fun _ _ _ tok st => cmd_help tok st⟩,
    ⟨cstr "i", cstr "i", cstr "print system info",
      fun _ env _ tok st => cmd_info env tok st⟩,
    ⟨cstr "j", cstr "j", cstr "join a WPA wireless network",
      fun _ env _ tok st => cmd_wifi_join env tok st⟩,
    ⟨cstr "keys", cstr "keys", cstr "keyboard input test",
      fun _ env _ tok st => cmd_keyboard_test env tok st⟩,
    ⟨cstr "reset", cstr "reset", cstr "uptime goes to 0",
      fun _ _ _ tok st => cmd_reset tok st⟩,
    ⟨cstr "scan", cstr "scan", cstr "scan for wireless networks",
      fun _ env _ tok st => cmd_wifi_scan env tok st⟩,
    ⟨cstr "tcp", cstr "tcp host port", cstr "open TCP connection",
      fun _ env _ tok st => cmd_tcp_connect env tok st⟩,
    ⟨cstr "w", cstr "w", cstr "show the weather",
      fun _ env _ tok st => cmd_weather env tok st⟩ ]

/-! ## Command dispatch -/

/-- The loop of `process_command` over `_commands`: the status of the first command whose
name is `command_name`, `CMD_UNKNOWN` when there is none. -/
def dispatch (cfg : Config) (env : Env) (fuel : Nat) (command_name : List Nat) (tok : Nat)
    (st : State) :
    List command → Option (command_status × State)
  | [] => some (CMD_UNKNOWN, st)
  | c :: cs =>
    if command_name = c.name then c.func cfg env fuel tok st
    else dispatch cfg env fuel command_name tok st cs

/-- The function `process_command`. `strtok_r(_command, " ", &tok)` stores a NUL over the
blank that ends the first token, so that `_command` then reads as its leading blanks
followed by that token. With a line of blanks only, `command_name` is `NULL` and `strcmp`
is entered with it: no defined result. -/
def process_command (cfg : Config) (env : Env) (fuel : Nat) (st : State) :
    Option (command_status × State) :=
  let t := strtok_r st._command 0 (cstr " ")
  let st := { st with _command := t.2.2 }
  let ran : Option (command_status × State) :=
    if (c_str st._command).length = 0 then some (CMD_OK, st)
    else
      match t.1 with
      | none => none
      | some command_name =>
        match dispatch cfg env fuel command_name t.2.1 st _commands with
        | none => none
        | some (status, st) =>
          if status = CMD_UNKNOWN then
            some (CMD_ERR, term_writeln (term_write st _e_invalid_command) (c_str st._command))
          else some (status, st)
  match ran with
  | none => none
  | some (CMD_OK, st) => some (CMD_OK, term_flush (term_writeln st (cstr "= ok")))
  | some (CMD_ERR, st) => some (CMD_ERR, term_flush (term_writeln st (cstr "= err")))
  | some (status, st) => some (status, st)

/-! ## Public functions -/

/-- The function `cli_init`. -/
def cli_init (st : State) : State := clear_command st

/-- The assignment `_command[i] = v`. A store at or past index 60 falls outside
`_command`; it is recorded, and what it overwrites is not part of the state. -/
def store_command (st : State) (i v : Nat) : State :=
  { st with _command := st._command.set i v, trace := st.trace ++ [Event.store i v] }

/-- The body of the loop `while (term_available())` of `cli_loop`: one byte is read and
handled, up to the `continue` or the end of the body. -/
def input_step (cfg : Config) (env : Env) (fuel : Nat) (st : State) : Option State :=
  let r := term_read st
  let c := to_uint8 r.1
  let st := r.2
  if c = 0x08 then
    if st._command_index > 0 then
      let st := if env.ECHO then
        term_write_char (term_write (term_write_char st 0x08) (cstr " ")) 0x08 else st
      let st := store_command st st._command_index 0
      some { st with _command_index := st._command_index - 1 }
    else some st
  else
    let st := if env.ECHO then term_write_char st c else st
    if c ≠ 13 ∧ c ≠ 10 ∧ st._command_index < 60 then
      let st := store_command st st._command_index c
      some { st with _command_index := (st._command_index + 1) % 256 }
    else
      let ran : Option (Bool × State) :=
        if c = 13 ∨ c = 10 then
          let st := term_writeln st []
          let st := store_command st st._command_index 0
          match process_command cfg env fuel st with
          | none => none
          | some (status, st) => some (decide (status ≠ CMD_IO), st)
        else some (true, term_writeln (term_writeln st (cstr "command too long")) (cstr "= err"))
      match ran with
      | none => none
      | some (prompt, st) =>
        let st := clear_command st
        some (if prompt then print_prompt st else st)

/-- The loop `while (term_available())` of `cli_loop`; `fuel` bounds the number of
rounds. -/
def input_loop (cfg : Config) (env : Env) : Nat → State → Option State
  | 0, st => if (term_available st).1 then none else some (term_available st).2
  | fuel + 1, st =>
    if (term_available st).1 then
      match input_step cfg env fuel (term_available st).2 with
      | none => none
      | some st => input_loop cfg env fuel st
    else some (term_available st).2

/-- The first three statements of `cli_loop` ("increase uptime"): `millis()` is read
twice, `_uptime` grows by the 32-bit difference to `_last_millis`, and `_last_millis`
takes the first reading. -/
def uptime_update (env : Env) (st : State) : State :=
  let now := env.millis st.trace % 4294967296
  let st := emit st (Event.millis now)
  let m := env.millis st.trace % 4294967296
  let st := emit st (Event.millis m)
  { st with
    _uptime := (st._uptime + (m + 4294967296 - st._last_millis % 4294967296) % 4294967296)
      % 18446744073709551616
    _last_millis := now }

/-- The function `cli_loop`. -/
def cli_loop (cfg : Config) (env : Env) (fuel : Nat) (st : State) : Option State :=
  let st := uptime_update env st
  let cb := env.wifi_has_loop_callback st.trace
  let st := emit st (Event.wifi_has_loop_callback cb)
  if cb then some { st with _handling_io := true }
  else
    let st := if st._handling_io then print_prompt { st with _handling_io := false } else st
    input_loop cfg env fuel st

/-- The decimal numeral of `n` as a C string: its decimal digits, most significant first,
in ASCII; `0` is written with one digit. -/
def decimal_numeral (n : Nat) : List Nat :=
  if n = 0 then [48] else (Nat.digits 10 n).reverse.map (fun d => d + 48)

/-! ## Concrete inputs -/

/-- The state `cli_init` leaves a freshly started device in, with `input` waiting at the
terminal. -/
def init_state (input : List Nat) : State :=
  cli_init
    { _uptime := 0, _last_millis := 0, _handling_io := false, _command := [],
      _command_index := 0, term_in := input, trace := [] }

/-- The state in which the line `line` has been typed after `cli_init` and is about to be
handed to `process_command`. -/
def state_with_command (line : List Nat) : State :=
  { init_state [] with
    _command := line ++ List.replicate (60 - line.length) 0
    _command_index := line.length }

/-- A set of collaborators for concrete runs: the clock advances by one millisecond with
every call made, the network is joined from the `join_after`-th call on, a session is
running iff `session`, every connection attempt answers `connects`, and the storage of
`dbg_target` holds `garbage`. -/
def sample_env (session connects garbage : Bool) (join_after : Nat) : Env :=
  { ECHO := true
    millis := fun tr => 1000 + tr.length
    wifi_has_loop_callback := fun _ => session
    wifi_is_connected := fun tr => decide (join_after ≤ tr.length)
    wifi_get_info := fun _ => ⟨[], [], [], 0, 0, 0, 0, []⟩
    wifi_scan := fun _ => ([], 0)
    tvipt_proto_connect := fun _ _ _ => connects
    tcp_connect := fun _ _ _ => connects
    keyboard_test := fun _ => false
    term_readln := fun _ input _ _ => some ([], input)
    dbg_target_garbage := fun _ => garbage }

/-- Collaborators under which a session runs for a while: `wifi_has_loop_callback()`
answers true as long as fewer than `n` calls have been made in all, and false afterwards. -/
def session_env (n : Nat) : Env :=
  { sample_env false false false 0 with
    wifi_has_loop_callback := fun tr => decide (tr.length < n) }

/-- The state after the first tick of a device started under `session_env 3`. -/
def tick1_state : State :=
  { _uptime := 1001, _last_millis := 1000, _handling_io := true,
    _command := List.replicate 60 0, _command_index := 0, term_in := [],
    trace := [Event.millis 1000, Event.millis 1001, Event.wifi_has_loop_callback true] }

/-- The state after the second tick under `session_env 3`, a carriage return having been
typed in between. -/
def tick2_state : State :=
  { _uptime := 1005, _last_millis := 1003, _handling_io := false,
    _command := List.replicate 60 0, _command_index := 0, term_in := [],
    trace := [Event.millis 1000, Event.millis 1001, Event.wifi_has_loop_callback true,
      Event.millis 1003, Event.millis 1004, Event.wifi_has_loop_callback false,
      Event.term_write (cstr "> "), Event.term_available true, Event.term_read 13,
      Event.term_write_char 13, Event.term_writeln [], Event.store 0 0,
      Event.term_writeln (cstr "= ok"), Event.term_flush, Event.term_write (cstr "> "),
      Event.term_available false] }

/-- Collaborators like `sample_env`, connections succeeding, with a clock that advances by
one millisecond with every `delay(1)`. -/
def clock_env (join_after : Nat) : Env :=
  { sample_env false true false join_after with
    millis := fun tr => 1000 + tr.count (Event.delay 1) }

/-- Collaborators with the clock of `clock_env`, a network that is never joined and
connections that fail. -/
def no_network_env : Env :=
  { sample_env false false false 0 with
    millis := fun tr => 1000 + tr.count (Event.delay 1)
    wifi_is_connected := fun _ => false }

/-- Collaborators whose clock stands still, with a network that is never joined. -/
def stuck_env : Env :=
  { sample_env false false false 0 with
    millis := fun _ => 0
    wifi_is_connected := fun _ => false }

/-- A configuration whose SSID is the text of the prompt; no host is configured. -/
def prompt_config : Config :=
  { DEFAULT_WIFI_SSID := some (cstr "> ")
    DEFAULT_WIFI_PASSWORD := some (cstr "pw")
    DEFAULT_WIFI_JOIN_TIMEOUT := 5000
    DEFAULT_HOST := none
    DEFAULT_PORT := 3333 }

/-- A configuration with auto-join and auto-connect switched on. -/
def sample_config : Config :=
  { DEFAULT_WIFI_SSID := some (cstr "net")
    DEFAULT_WIFI_PASSWORD := some (cstr "pw")
    DEFAULT_WIFI_JOIN_TIMEOUT := 5000
    DEFAULT_HOST := some (cstr "10.0.0.5")
    DEFAULT_PORT := 3333 }

/-! ## Frame codec of the tvipt protocol (spec section 4.2 and 6) -/

/-- Modelled from the spec: the tvipt protocol module (`tvipt_proto.h` and its
implementation) is not among the sources. The cipher state of one direction: key
reference, nonce and running counter. -/
structure CipherState where
  key : List Nat
  nonce : List Nat
  counter : Nat
  deriving DecidableEq, Repr

/-- Modelled from the spec: the tvipt protocol module is not among the sources. What the
frame codec is configured with: the cipher engine's `keystream(key, nonce, counter, length)`
and the maximum frame size. -/
structure Codec where
  keystream : List Nat → List Nat → Nat → Nat → List Nat
  max_frame : Nat

/-- Modelled from the spec: the tvipt protocol module is not among the sources.
`apply(data, keystream_slice) = data XOR keystream_slice`. -/
def apply (data keystream_slice : List Nat) : List Nat :=
  List.zipWith (fun d k => d ^^^ k) data keystream_slice

/-- Modelled from the spec: the tvipt protocol module is not among the sources. `encode`
writes the 16-bit big-endian length prefix `len(plaintext)`, then `plaintext XOR
keystream(key, tx_nonce, tx_counter, len(plaintext))`, and advances `tx_counter` by
`len(plaintext)`. -/
def encode (codec : Codec) (tx : CipherState) (plaintext : List Nat) : List Nat × CipherState :=
  ([plaintext.length / 256 % 256, plaintext.length % 256]
      ++ apply plaintext (codec.keystream tx.key tx.nonce tx.counter plaintext.length),
    { tx with counter := tx.counter + plaintext.length })

/-- Modelled from the spec: the tvipt protocol module is not among the sources. The
receiving side of the codec: its cipher state and the staging buffer. -/
structure RxState where
  cipher : CipherState
  staging : List Nat
  deriving DecidableEq, Repr

/-- Modelled from the spec: the tvipt protocol module is not among the sources. The
codec's failure: a declared length above the configured maximum. -/
inductive ProtocolError
  | frame_too_large
  deriving DecidableEq, Repr

/-- Modelled from the spec: the tvipt protocol module is not among the sources. The loop
of `feed` over the staging buffer: while a full length prefix is present, read the
declared length `L`; fail when `L` exceeds the maximum; stop while fewer than `L` more
bytes are present; otherwise decrypt `L` bytes, advance `rx_counter` by `L`, emit the
payload and go on with the next prefix. `fuel` bounds the number of frames. -/
def feed_loop (codec : Codec) :
    Nat → CipherState → List Nat → Except ProtocolError (List (List Nat) × RxState)
  | 0, rx, buf => .ok ([], ⟨rx, buf⟩)
  | fuel + 1, rx, buf =>
    match buf with
    | hi :: lo :: rest =>
      if hi * 256 + lo > codec.max_frame then .error ProtocolError.frame_too_large
      else if rest.length < hi * 256 + lo then .ok ([], ⟨rx, buf⟩)
      else
        match feed_loop codec fuel { rx with counter := rx.counter + (hi * 256 + lo) }
            (rest.drop (hi * 256 + lo)) with
        | .error e => .error e
        | .ok (payloads, s) =>
          .ok (apply (rest.take (hi * 256 + lo))
                (codec.keystream rx.key rx.nonce rx.counter (hi * 256 + lo)) :: payloads, s)
    | _ => .ok ([], ⟨rx, buf⟩)

/-- Modelled from the spec: the tvipt protocol module is not among the sources. `feed`
appends the received bytes to the staging buffer and decodes the complete frames; every
frame takes at least the two bytes of its prefix, so the buffer's length bounds the
number of frames. -/
def feed (codec : Codec) (rx : RxState) (received : List Nat) :
    Except ProtocolError (List (List Nat) × RxState) :=
  feed_loop codec (rx.staging ++ received).length rx.cipher (rx.staging ++ received)

/-- Modelled from the spec: the tvipt protocol module is not among the sources. The
chunks of a stream fed in order, one `feed` call each; the payloads decoded by all calls
in order. -/
def feed_all (codec : Codec) :
    RxState → List (List Nat) → Except ProtocolError (List (List Nat) × RxState)
  | rx, [] => .ok ([], rx)
  | rx, chunk :: chunks =>
    match feed codec rx chunk with
    | .error e => .error e
    | .ok (payloads, rx1) =>
      match feed_all codec rx1 chunks with
      | .error e => .error e
      | .ok (more, rx2) => .ok (payloads ++ more, rx2)

/-- A codec configuration for concrete runs: the keystream byte at offset `i` of a request
is `(sum of key + sum of nonce + counter + i) mod 256`, and frames carry at most 1024
bytes. -/
def sample_codec : Codec :=
  { keystream := fun key nonce counter n =>
      (List.range n).map (fun i => (key.sum + nonce.sum + counter + i) % 256)
    max_frame := 1024 }

/-- A cipher state for concrete runs. -/
def sample_cipher : CipherState :=
  { key := List.replicate 32 0x11, nonce := [0, 0, 0, 0, 0, 0, 0, 1], counter := 7 }

/-! ## Line editing, as the specification words it -/

/-- The line that typing `bytes` leaves, starting from the line `text`: a byte other than
0x08 is appended; 0x08 deletes the most recently buffered character and changes nothing
on an empty line. -/
def edit_line : List Nat → List Nat → List Nat
  | text, [] => text
  | text, b :: bs => if b = 8 then edit_line text.dropLast bs else edit_line (text ++ [b]) bs

/-- While `bytes` are typed, starting from the line `text`, the number of buffered
characters never exceeds `bound`. -/
def line_within (bound : Nat) : List Nat → List Nat → Bool
  | text, [] => decide (text.length ≤ bound)
  | text, b :: bs =>
    decide (text.length ≤ bound) &&
      line_within bound (if b = 8 then text.dropLast else text ++ [b]) bs

/-- The command buffer holds the line `text`: `_command` has its 60 bytes, `_command_index`
is the length of `text`, and the bytes before that index are `text`. -/
def buffered (st : State) (text : List Nat) : Prop :=
  st._command.length = 60 ∧ st._command_index = text.length ∧
  st._command.take text.length = text

/-- What `cli_loop` does with the outcome of `process_command`: `clear_command()`, the
prompt unless the command is handling IO, and on with the loop over the waiting input. -/
def resume_input (cfg : Config) (env : Env) (fuel : Nat) :
    Option (command_status × State) → Option State
  | none => none
  | some (status, st) =>
    input_loop cfg env fuel
      (if status ≠ CMD_IO then print_prompt (clear_command st) else clear_command st)

/-! ## The table of `cmd_chars`, as the specification words it -/

/-- Successive calls of `cli_loop`, one for each chunk: before a call the bytes of its
chunk arrive at the terminal, behind those still waiting there. -/
def ticks (cfg : Config) (env : Env) (fuel : Nat) : List (List Nat) → State → Option State
  | [], st => some st
  | chunk :: chunks, st =>
    match cli_loop cfg env fuel { st with term_in := st.term_in ++ chunk } with
    | none => none
    | some st => ticks cfg env fuel chunks st

/-- The codes in row `r` of the table: column `k` holds `0x20 + r + 12 * k`, and a cell is
there when its code is at most `LAST_PRINTABLE`. -/
def chars_table_row (r : Nat) : List Nat :=
  ((List.range 8).map (fun k => 0x20 + r + 12 * k)).filter (fun ch => decide (ch ≤ LAST_PRINTABLE))

/-- The twelve rows of the table. -/
def chars_table : List (List Nat) := (List.range 12).map chars_table_row

/-- The calls that print the cell of the code `ch`: `0x`, the code in hexadecimal, a blank,
the character (between the escape sequences that switch the alternate character set on
and off when `alt`), and four blanks. -/
def chars_cell (alt : Bool) (ch : Nat) : List Event :=
  [Event.term_write (cstr "0x"), Event.term_print ch 16, Event.term_write (cstr " ")] ++
    (if alt then [Event.term_write_char TERM_ESCAPE, Event.term_write_char TERM_ENABLE_ALT_CHAR]
      else []) ++
    [Event.term_write_char ch] ++
    (if alt then [Event.term_write_char TERM_ESCAPE, Event.term_write_char TERM_DISABLE_ALT_CHAR]
      else []) ++
    [Event.term_write (cstr "    ")]

/-- The calls that print the whole table: row after row, each row's cells and then
`term_writeln("")`. -/
def chars_table_prints (alt : Bool) : List Event :=
  chars_table.flatMap (fun row => row.flatMap (chars_cell alt) ++ [Event.term_writeln []])

/-- The number of characters one call writes to the terminal; `term_print` writes the
numeral of its argument in the given base, without padding. -/
def printed_chars : Event → Nat
  | Event.term_write val => val.length
  | Event.term_write_char _ => 1
  | Event.term_print val base => (Nat.toDigits base val.toNat).length
  | _ => 0

/-- The calls that write to the terminal. -/
def is_print : Event → Bool
  | Event.term_write _ => true
  | Event.term_write_char _ => true
  | Event.term_write_buf _ _ => true
  | Event.term_writeln _ => true
  | Event.term_writeln_masked _ => true
  | Event.term_print _ _ => true
  | Event.term_print_addr _ => true
  | _ => false

/-- The waiting input after `while (term_serial.read() != TERM_XON) {}`: everything up to
and including the first XON is read away; `none` when no XON is waiting. -/
def drop_to_xon : List Nat → Option (List Nat)
  | [] => none
  | b :: rest => if b = TERM_XON then some rest else drop_to_xon rest

/-- The waiting input after the flow-control handling that precedes one cell:
`term_read()` takes one waiting byte, and when that byte is XOFF the input is read away
up to the next XON. -/
def cell_input : List Nat → Option (List Nat)
  | [] => some []
  | b :: rest => if b = TERM_XOFF then drop_to_xon rest else some rest

/-- The waiting input after the flow-control handling of `n` cells in a row; `none` when
one of them finds an XOFF that no XON follows. -/
def cells_input : Nat → List Nat → Option (List Nat)
  | 0, input => some input
  | n + 1, input => (cell_input input).bind (cells_input n)

/-- The flow-control handling at the head of the loop body of `cmd_chars`:
`if (term_read() == TERM_XOFF) { while (term_serial.read() != TERM_XON) {} }`. -/
def chars_flow (st : State) : Option State :=
  if (term_read st).1 = (TERM_XOFF : Int) then
    match wait_xon (term_read st).2.term_in (term_read st).2.trace with
    | none => none
    | some (rest, tr) => some { (term_read st).2 with term_in := rest, trace := tr }
  else some (term_read st).2

/-- The calls that print, made by the `n` columns from `col` on of the row that starts
with the code `c`, in the order of the loop. -/
def row_prints (alt : Bool) (c : Nat) : Nat → Nat → List Event
  | 0, _ => []
  | n + 1, col =>
    if (c + col * 12) % 256 > LAST_PRINTABLE then []
    else chars_cell alt ((c + col * 12) % 256) ++ row_prints alt c n (col + 1)

/-- The calls that print, made by at most `n` rounds of the outer loop of `cmd_chars` from
the code `c` on, in the order of the loops. -/
def table_prints (alt : Bool) : Nat → Nat → List Event
  | 0, _ => []
  | n + 1, c =>
    if c ≤ FIRST_PRINTABLE + 11 then
      row_prints alt c 8 0 ++ Event.term_writeln [] :: table_prints alt n ((c + 1) % 256)
    else []

/-! ## Claims on `cli_loop`, `cli_boot` and the configuration -/

theorem _commands_texts_eq : _commands.map (fun c => (c.syntax_text, c.help)) = _commands_texts :=
  rfl

/-- C1. In a tick of `cli_loop` at which `wifi_has_loop_callback()` answers true, the only
calls made are the two `millis()` readings and the callback query: no byte is read from the
terminal, `_command` and `_command_index` keep their values, no command function runs and
nothing is printed; the uptime counter is advanced and `_handling_io` is set. -/
theorem cli_loop_handling_io (cfg : Config) (env : Env) (fuel : Nat) (st : State)
    (hcb : env.wifi_has_loop_callback
      (st.trace ++ [Event.millis (env.millis st.trace % 4294967296),
        Event.millis (env.millis
          (st.trace ++ [Event.millis (env.millis st.trace % 4294967296)]) % 4294967296)])
      = true) :
    ∃ st', cli_loop cfg env fuel st = some st' ∧
      st'.term_in = st.term_in ∧
      st'._command = st._command ∧
      st'._command_index = st._command_index ∧
      st'._handling_io = true ∧
      st'._last_millis = env.millis st.trace % 4294967296 ∧
      st'._uptime = (st._uptime +
        (env.millis (st.trace ++ [Event.millis (env.millis st.trace % 4294967296)]) % 4294967296
          + 4294967296 - st._last_millis % 4294967296) % 4294967296) % 18446744073709551616 ∧
      st'.trace = st.trace ++
        [Event.millis (env.millis st.trace % 4294967296),
         Event.millis (env.millis
           (st.trace ++ [Event.millis (env.millis st.trace % 4294967296)]) % 4294967296),
         Event.wifi_has_loop_callback true] := by
  simp [cli_loop, uptime_update, emit, hcb]

theorem cli_loop_handling_io_witness :
    (sample_env true true false 0).wifi_has_loop_callback
      ((init_state [99, 13]).trace ++
        [Event.millis ((sample_env true true false 0).millis (init_state [99, 13]).trace
            % 4294967296),
         Event.millis ((sample_env true true false 0).millis
           ((init_state [99, 13]).trace ++
             [Event.millis ((sample_env true true false 0).millis (init_state [99, 13]).trace
               % 4294967296)]) % 4294967296)]) = true ∧
    ∃ st', cli_loop config_h (sample_env true true false 0) 0 (init_state [99, 13]) = some st' ∧
      st'.term_in = [99, 13] ∧ st'._command_index = 0 ∧ st'._handling_io = true ∧
      st'.trace = [Event.millis 1000, Event.millis 1001, Event.wifi_has_loop_callback true] := by
  refine ⟨rfl, ?_⟩
  obtain ⟨st', h, h1, _, h3, h4, _, _, h7⟩ :=
    cli_loop_handling_io config_h (sample_env true true false 0) 0 (init_state [99, 13]) rfl
  exact ⟨st', h, h1.trans rfl, h3.trans rfl, h4, h7.trans rfl⟩

/-- C5. With the configuration `config.h` ships, `cli_boot` makes one call only, the
`term_write("> ")` of `print_prompt`, and returns false: it calls neither `wifi_connect`
nor `tvipt_proto_connect`, whatever the collaborators would answer. -/
theorem cli_boot_shipped_config (env : Env) (fuel : Nat) (st : State) :
    cli_boot config_h env fuel st =
      some (false, { st with trace := st.trace ++ [Event.term_write (cstr "> ")] }) := by
  simp [cli_boot, config_h, print_prompt, term_write, emit]

/-- C6 (as the code has it). The initializer list `SECRET_KEY` of `config.h` has 40
bytes, not the 32 its comment asks for. -/
theorem SECRET_KEY_length : SECRET_KEY.length = 40 := by
  decide

/-! ### `cli_boot` -/

theorem boot_wait_calls (env : Env) (timeout : Nat) :
    ∀ (fuel : Nat) (tr tr' : List Event), boot_wait env timeout fuel tr = some tr' →
      ∃ w, tr' = tr ++ w ∧ ∀ e ∈ w, is_wait_call e = true := by
  intro fuel
  induction fuel with
  | zero => intro tr tr' h; simp [boot_wait] at h
  | succ n ih =>
    intro tr tr' h
    simp only [boot_wait] at h
    split at h
    · refine ⟨[Event.wifi_is_connected (env.wifi_is_connected tr)], ?_, ?_⟩
      · simpa using h.symm
      · simp [is_wait_call]
    · split at h
      · obtain ⟨w, hw, hall⟩ := ih _ _ h
        refine ⟨[Event.wifi_is_connected (env.wifi_is_connected tr),
          Event.millis (env.millis (tr ++ [Event.wifi_is_connected (env.wifi_is_connected tr)])
            % 4294967296), Event.delay 1] ++ w, ?_, ?_⟩
        · simpa using hw
        · intro e he
          simp only [List.mem_append, List.mem_cons, List.mem_singleton, List.not_mem_nil,
            or_false] at he
          rcases he with (rfl | rfl | rfl) | he
          · rfl
          · rfl
          · rfl
          · exact hall e he
      · refine ⟨[Event.wifi_is_connected (env.wifi_is_connected tr),
          Event.millis (env.millis (tr ++ [Event.wifi_is_connected (env.wifi_is_connected tr)])
            % 4294967296)], ?_, ?_⟩
        · simpa using h.symm
        · simp [is_wait_call]

theorem boot_connect_calls (cfg : Config) (env : Env) (st : State) :
    ∃ c, (boot_connect cfg env st).2.trace = st.trace ++ c ∧
      c.countP is_proto_connect ≤ 1 ∧
      ((boot_connect cfg env st).1 = true ↔
        ∃ host port, Event.tvipt_proto_connect host port true ∈ c) ∧
      (cfg.DEFAULT_HOST ≠ some (cstr "> ") → c.count prompt = 0) := by
  unfold boot_connect
  cases hh : cfg.DEFAULT_HOST with
  | none => exact ⟨[], by simp, by simp, by simp, by simp⟩
  | some host =>
    by_cases hp : cfg.DEFAULT_PORT > 0
    · simp only [hp, if_true]
      refine ⟨[Event.term_write (cstr "tvipt proto: auto connect host="),
        Event.term_write host, Event.term_write (cstr " port="),
        Event.term_print cfg.DEFAULT_PORT 10, Event.term_writeln [],
        Event.tvipt_proto_connect host (cfg.DEFAULT_PORT % 65536)
          (env.tvipt_proto_connect (term_writeln (term_print (term_write (term_write
            (term_write st (cstr "tvipt proto: auto connect host=")) host) (cstr " port="))
            cfg.DEFAULT_PORT 10) []).trace host (cfg.DEFAULT_PORT % 65536))], ?_, ?_, ?_, ?_⟩
      · simp [term_write, term_writeln, term_print, emit]
      · simp [List.countP_cons, is_proto_connect]
      · simp [term_write, term_writeln, term_print, emit]
      · intro hne
        have h1 : host ≠ cstr "> " := fun h => hne (by rw [h])
        have h2 : cstr "tvipt proto: auto connect host=" ≠ cstr "> " := by decide
        have h3 : cstr " port=" ≠ cstr "> " := by decide
        simp [prompt, List.count_cons, h1, h2, h3]
    · simp only [hp, if_false]
      exact ⟨[], by simp, by simp, by simp, by simp⟩

theorem boot_join_state (cfg : Config) (env : Env) (ssid pass : List Nat) (st : State) :
    (boot_join cfg env ssid pass st).1 =
      { st with trace := st.trace ++ boot_join_calls cfg env ssid pass st } := by
  simp [boot_join, boot_join_calls, term_write, term_writeln, term_print, emit]

theorem boot_join_calls_props (cfg : Config) (env : Env) (ssid pass : List Nat) (st : State) :
    (boot_join_calls cfg env ssid pass st).countP is_proto_connect = 0 ∧
    (∀ host port, Event.tvipt_proto_connect host port true ∉ boot_join_calls cfg env ssid pass st) ∧
    (ssid ≠ cstr "> " → (boot_join_calls cfg env ssid pass st).count prompt = 0) := by
  refine ⟨?_, ?_, ?_⟩
  · simp [boot_join_calls, List.countP_cons, is_proto_connect]
  · simp [boot_join_calls]
  · intro h1
    have h2 : cstr "wifi: auto join ssid=[" ≠ cstr "> " := by decide
    have h3 : cstr "] timeout=" ≠ cstr "> " := by decide
    simp [boot_join_calls, prompt, List.count_cons, h1, h2, h3]

theorem wait_calls_props (w : List Event) (hw : ∀ e ∈ w, is_wait_call e = true) :
    w.countP is_proto_connect = 0 ∧
    (∀ host port, Event.tvipt_proto_connect host port true ∉ w) ∧
    w.count prompt = 0 := by
  refine ⟨?_, ?_, ?_⟩
  · rw [List.countP_eq_zero]
    intro e he
    have := hw e he
    cases e <;> simp_all [is_wait_call, is_proto_connect]
  · intro host port hmem
    have := hw _ hmem
    simp [is_wait_call] at this
  · rw [List.count_eq_zero]
    intro hmem
    have := hw _ hmem
    simp [is_wait_call, prompt] at this

theorem cli_boot_calls (cfg : Config) (env : Env) (st : State) :
    ∀ fuel r st', cli_boot cfg env fuel st = some (r, st') →
      ∃ body, st'.trace = st.trace ++ body ++ (if r then [] else [prompt]) ∧
        body.countP is_proto_connect ≤ 1 ∧
        (r = true ↔ ∃ host port, Event.tvipt_proto_connect host port true ∈ body) ∧
        (cfg.DEFAULT_WIFI_SSID ≠ some (cstr "> ") → cfg.DEFAULT_HOST ≠ some (cstr "> ") →
          body.count prompt = 0) := by
  intro fuel r st' h
  unfold cli_boot at h
  cases hs : cfg.DEFAULT_WIFI_SSID with
  | none =>
    simp [hs, print_prompt, term_write, emit] at h
    obtain ⟨rfl, rfl⟩ := h
    exact ⟨[], by simp [prompt], by simp, by simp, by simp⟩
  | some ssid =>
    cases hp : cfg.DEFAULT_WIFI_PASSWORD with
    | none =>
      simp [hs, hp, print_prompt, term_write, emit] at h
      obtain ⟨rfl, rfl⟩ := h
      exact ⟨[], by simp [prompt], by simp, by simp, by simp⟩
    | some pass =>
      simp only [hs, hp] at h
      cases hw : boot_wait env (boot_join cfg env ssid pass st).2 fuel
          (boot_join cfg env ssid pass st).1.trace with
      | none => simp [hw] at h
      | some tr =>
        simp only [hw] at h
        obtain ⟨w, hwt, hwall⟩ := boot_wait_calls env _ _ _ _ hw
        obtain ⟨w1, w2, w3⟩ := wait_calls_props w hwall
        obtain ⟨j1, j2, j3⟩ := boot_join_calls_props cfg env ssid pass st
        obtain ⟨c, hc, c1, c2, c3⟩ :=
          boot_connect_calls cfg env { (boot_join cfg env ssid pass st).1 with trace := tr }
        have htr : tr = st.trace ++ (boot_join_calls cfg env ssid pass st ++ w) := by
          rw [hwt, boot_join_state]; simp
        replace hc : (boot_connect cfg env
            { (boot_join cfg env ssid pass st).1 with trace := tr }).2.trace = tr ++ c := hc
        refine ⟨boot_join_calls cfg env ssid pass st ++ w ++ c, ?_, ?_, ?_, ?_⟩
        · cases hb : (boot_connect cfg env { (boot_join cfg env ssid pass st).1 with trace := tr }).1
          · simp only [hb] at h
            simp at h
            obtain ⟨rfl, rfl⟩ := h
            simp only [print_prompt, term_write, emit]
            rw [hc, htr]
            simp [prompt]
          · simp only [hb] at h
            simp at h
            obtain ⟨rfl, rfl⟩ := h
            rw [hc, htr]
            simp
        · simp only [List.countP_append, j1, w1]
          omega
        · have hr : r = (boot_connect cfg env
              { (boot_join cfg env ssid pass st).1 with trace := tr }).1 := by
            cases hb : (boot_connect cfg env
              { (boot_join cfg env ssid pass st).1 with trace := tr }).1
            · simp only [hb] at h
              simp at h
              exact h.1
            · simp only [hb] at h
              simp at h
              exact h.1
          rw [hr, c2]
          constructor
          · rintro ⟨host, port, hm⟩
            exact ⟨host, port, by simp [hm]⟩
          · rintro ⟨host, port, hm⟩
            simp only [List.mem_append] at hm
            rcases hm with (hm | hm) | hm
            · exact absurd hm (j2 host port)
            · exact absurd hm (w2 host port)
            · exact ⟨host, port, hm⟩
        · intro hne1 hne2
          have hs' : ssid ≠ cstr "> " := fun hh => hne1 (by rw [hh])
          simp only [List.count_append, j3 hs', w3, c3 hne2]

theorem boot_wait_mono (env : Env) (timeout : Nat) :
    ∀ (fuel k : Nat) (tr tr' : List Event), boot_wait env timeout fuel tr = some tr' →
      boot_wait env timeout (fuel + k) tr = some tr' := by
  intro fuel
  induction fuel with
  | zero => intro k tr tr' h; simp [boot_wait] at h
  | succ n ih =>
    intro k tr tr' h
    rw [show n + 1 + k = (n + k) + 1 by omega]
    simp only [boot_wait] at h ⊢
    by_cases hc : env.wifi_is_connected tr = true
    · simp only [hc, if_true] at h ⊢
      exact h
    · have hc' : env.wifi_is_connected tr = false := by simpa using hc
      simp only [hc', Bool.false_eq_true, if_false] at h ⊢
      by_cases hm : env.millis (tr ++ [Event.wifi_is_connected false]) % 4294967296 < timeout
      · simp only [hm, if_true] at h ⊢
        exact ih k _ _ h
      · simp only [hm, if_false] at h ⊢
        exact h

theorem cli_boot_mono (cfg : Config) (env : Env) (st : State) (fuel k : Nat)
    (x : Bool × State) (h : cli_boot cfg env fuel st = some x) :
    cli_boot cfg env (fuel + k) st = some x := by
  unfold cli_boot at h ⊢
  cases hs : cfg.DEFAULT_WIFI_SSID with
  | none => simpa [hs] using h
  | some ssid =>
    cases hp : cfg.DEFAULT_WIFI_PASSWORD with
    | none => simpa [hs, hp] using h
    | some pass =>
      simp only [hs, hp] at h ⊢
      cases hw : boot_wait env (boot_join cfg env ssid pass st).2 fuel
          (boot_join cfg env ssid pass st).1.trace with
      | none => simp [hw] at h
      | some tr =>
        rw [boot_wait_mono env _ fuel k _ tr hw]
        rw [hw] at h
        exact h

theorem boot_join_clock (cfg : Config) (env : Env) (ssid pass : List Nat) (st : State) :
    (boot_join cfg env ssid pass st).1.trace =
      boot_join_start cfg ssid pass st ++
        [Event.millis (env.millis (boot_join_start cfg ssid pass st) % 4294967296)] ∧
    (boot_join cfg env ssid pass st).2 =
      (env.millis (boot_join_start cfg ssid pass st) % 4294967296 +
        cfg.DEFAULT_WIFI_JOIN_TIMEOUT) % 4294967296 := by
  simp [boot_join, boot_join_start, term_write, term_writeln, term_print, emit]

/-- With a clock that runs, the wait loop of `cli_boot` ends within `T + 1` rounds: by
then `T` calls of `delay(1)` have been made and `millis()` has reached `timeout`. -/
theorem boot_wait_returns (env : Env) (tr0 : List Event) (T : Nat)
    (hclock : clock_runs env tr0 T) :
    ∀ (d : Nat) (w : List Event), w.count (Event.delay 1) + d = T →
      ∀ fuel, d < fuel →
        ∃ tr', boot_wait env ((env.millis tr0 % 4294967296 + T) % 4294967296) fuel
          (tr0 ++ w) = some tr' := by
  have hnow : env.millis tr0 < 4294967296 := by
    have := (hclock []).2 (by simp)
    simpa using this
  have hT : env.millis tr0 + T < 4294967296 := by
    have h := hclock (List.replicate T (Event.delay 1))
    rw [List.count_replicate_self] at h
    have := h.2 (le_refl _)
    omega
  have htimeout : (env.millis tr0 % 4294967296 + T) % 4294967296 = env.millis tr0 + T := by
    rw [Nat.mod_eq_of_lt hnow, Nat.mod_eq_of_lt hT]
  rw [htimeout]
  have hreach : ∀ (w : List Event) (c : Bool), w.count (Event.delay 1) = T →
      ¬ env.millis (tr0 ++ w ++ [Event.wifi_is_connected c]) % 4294967296 <
        env.millis tr0 + T := by
    intro w c hw
    have h := hclock (w ++ [Event.wifi_is_connected c])
    have hc : (w ++ [Event.wifi_is_connected c]).count (Event.delay 1) = T := by
      simp [List.count_append, List.count_cons, hw]
    rw [hc, ← List.append_assoc] at h
    have := h.2 (le_refl _)
    rw [Nat.mod_eq_of_lt this]
    omega
  intro d
  induction d with
  | zero =>
    intro w hw fuel hf
    obtain ⟨f, rfl⟩ : ∃ f, fuel = f + 1 := ⟨fuel - 1, by omega⟩
    simp only [boot_wait]
    by_cases hc : env.wifi_is_connected (tr0 ++ w) = true
    · simp only [hc, if_true]
      exact ⟨_, rfl⟩
    · have hc' : env.wifi_is_connected (tr0 ++ w) = false := by simpa using hc
      simp only [hc', Bool.false_eq_true, if_false, hreach w false (by omega)]
      exact ⟨_, rfl⟩
  | succ d ih =>
    intro w hw fuel hf
    obtain ⟨f, rfl⟩ : ∃ f, fuel = f + 1 := ⟨fuel - 1, by omega⟩
    simp only [boot_wait]
    by_cases hc : env.wifi_is_connected (tr0 ++ w) = true
    · simp only [hc, if_true]
      exact ⟨_, rfl⟩
    · have hc' : env.wifi_is_connected (tr0 ++ w) = false := by simpa using hc
      simp only [hc', Bool.false_eq_true, if_false]
      by_cases hm : env.millis (tr0 ++ w ++ [Event.wifi_is_connected false]) % 4294967296 <
          env.millis tr0 + T
      · simp only [hm, if_true]
        have := ih (w ++ [Event.wifi_is_connected false,
          Event.millis (env.millis (tr0 ++ w ++ [Event.wifi_is_connected false]) % 4294967296),
          Event.delay 1]) (by simp [List.count_append, List.count_cons]; omega) f (by omega)
        simpa using this
      · simp only [hm, if_false]
        exact ⟨_, rfl⟩

/-- C4 (as the code has it). With the text of the prompt configured as the SSID, `cli_boot`
writes that text twice, once in its report and once as the prompt. And with a clock that
stands still and a network that is never joined, the wait loop polls forever: `cli_boot`
does not return, whatever the number of rounds allowed. -/
theorem cli_boot_prompt_text_twice :
    cli_boot prompt_config (sample_env false false false 0) 1 (init_state []) =
      some (false, { init_state [] with
        trace := [Event.term_write (cstr "wifi: auto join ssid=["), Event.term_write (cstr "> "),
          Event.term_write (cstr "] timeout="), Event.term_print 5000 10,
          Event.term_writeln (cstr "ms"), Event.wifi_connect (cstr "> ") (cstr "pw"),
          Event.millis 1006, Event.wifi_is_connected true, Event.term_write (cstr "> ")] }) ∧
    [Event.term_write (cstr "wifi: auto join ssid=["), Event.term_write (cstr "> "),
      Event.term_write (cstr "] timeout="), Event.term_print 5000 10,
      Event.term_writeln (cstr "ms"), Event.wifi_connect (cstr "> ") (cstr "pw"),
      Event.millis 1006, Event.wifi_is_connected true, Event.term_write (cstr "> ")].count
        prompt = 2 ∧
    (∀ fuel, cli_boot sample_config stuck_env fuel (init_state []) = none) := by
  refine ⟨by decide, by decide, ?_⟩
  have hw : ∀ (fuel : Nat) (tr : List Event), boot_wait stuck_env 5000 fuel tr = none := by
    intro fuel
    induction fuel with
    | zero => intro tr; rfl
    | succ n ih =>
      intro tr
      simp only [boot_wait]
      have h1 : stuck_env.wifi_is_connected tr = false := rfl
      have h2 : ∀ t, stuck_env.millis t = 0 := fun _ => rfl
      simp only [h1, h2, Bool.false_eq_true, if_false]
      simpa using ih _
  intro fuel
  have hj : (boot_join sample_config stuck_env (cstr "net") (cstr "pw") (init_state [])).2
      = 5000 := rfl
  have hs : sample_config.DEFAULT_WIFI_SSID = some (cstr "net") := rfl
  have hp : sample_config.DEFAULT_WIFI_PASSWORD = some (cstr "pw") := rfl
  simp only [cli_boot, hs, hp, hj, hw]

/-- C4 (amended). Whatever the configuration and whatever the wifi and connect
collaborators answer, provided the clock runs during the wait for the network
(`clock_runs`): `cli_boot` returns, its wait loop making at most
`DEFAULT_WIFI_JOIN_TIMEOUT + 1` rounds, and what it returns does not depend on the number
of rounds allowed. It has called `tvipt_proto_connect` at most once and returns true
exactly when such a call answered true; otherwise its last call is the one
`term_write("> ")` of `print_prompt`, and no other call writes that text unless the
configured SSID or host is that very text. `cmd_boot` turns true into `CMD_IO` and false
into `CMD_OK`. -/
theorem cli_boot_contract (cfg : Config) (env : Env) (tok : Nat) (st : State)
    (hclock : ∀ ssid pass, cfg.DEFAULT_WIFI_SSID = some ssid →
      cfg.DEFAULT_WIFI_PASSWORD = some pass →
      clock_runs env (boot_join_start cfg ssid pass st) cfg.DEFAULT_WIFI_JOIN_TIMEOUT) :
    ∃ r st' body,
      (∀ fuel, cfg.DEFAULT_WIFI_JOIN_TIMEOUT < fuel →
        cli_boot cfg env fuel st = some (r, st') ∧
        cmd_boot cfg env fuel tok st = some (if r then CMD_IO else CMD_OK, st')) ∧
      (∀ fuel r2 st2, cli_boot cfg env fuel st = some (r2, st2) → r2 = r ∧ st2 = st') ∧
      st'.trace = st.trace ++ body ++ (if r then [] else [prompt]) ∧
      body.countP is_proto_connect ≤ 1 ∧
      (r = true ↔ ∃ host port, Event.tvipt_proto_connect host port true ∈ body) ∧
      (cfg.DEFAULT_WIFI_SSID ≠ some (cstr "> ") → cfg.DEFAULT_HOST ≠ some (cstr "> ") →
        (body ++ (if r then [] else [prompt])).count prompt = if r then 0 else 1) := by
  have hret : ∃ x, cli_boot cfg env (cfg.DEFAULT_WIFI_JOIN_TIMEOUT + 1) st = some x := by
    cases hs : cfg.DEFAULT_WIFI_SSID with
    | none => exact ⟨(false, print_prompt st), by simp [cli_boot, hs]⟩
    | some ssid =>
      cases hp : cfg.DEFAULT_WIFI_PASSWORD with
      | none => exact ⟨(false, print_prompt st), by simp [cli_boot, hs, hp]⟩
      | some pass =>
        obtain ⟨hj1, hj2⟩ := boot_join_clock cfg env ssid pass st
        obtain ⟨tr, htr⟩ := boot_wait_returns env _ _ (hclock ssid pass hs hp)
          cfg.DEFAULT_WIFI_JOIN_TIMEOUT
          [Event.millis (env.millis (boot_join_start cfg ssid pass st) % 4294967296)]
          (by simp [List.count_cons]) (cfg.DEFAULT_WIFI_JOIN_TIMEOUT + 1) (by omega)
        rw [← hj1, ← hj2] at htr
        simp only [cli_boot, hs, hp, htr]
        split
        · exact ⟨_, rfl⟩
        · exact ⟨_, rfl⟩
  obtain ⟨⟨r, st'⟩, hx⟩ := hret
  have hall : ∀ fuel, cfg.DEFAULT_WIFI_JOIN_TIMEOUT < fuel →
      cli_boot cfg env fuel st = some (r, st') := by
    intro fuel hf
    obtain ⟨k, rfl⟩ : ∃ k, fuel = cfg.DEFAULT_WIFI_JOIN_TIMEOUT + 1 + k :=
      ⟨fuel - (cfg.DEFAULT_WIFI_JOIN_TIMEOUT + 1), by omega⟩
    exact cli_boot_mono cfg env st _ k _ hx
  obtain ⟨body, h1, h2, h3, h4⟩ := cli_boot_calls cfg env st _ r st' hx
  refine ⟨r, st', body, ?_, ?_, h1, h2, h3, ?_⟩
  · intro fuel hf
    refine ⟨hall fuel hf, ?_⟩
    simp only [cmd_boot, hall fuel hf]
  · intro fuel r2 st2 h
    have e1 := cli_boot_mono cfg env st fuel (cfg.DEFAULT_WIFI_JOIN_TIMEOUT + 1) _ h
    have e2 := hall (fuel + (cfg.DEFAULT_WIFI_JOIN_TIMEOUT + 1)) (by omega)
    rw [e1] at e2
    simp only [Option.some.injEq, Prod.mk.injEq] at e2
    exact e2
  · intro hne1 hne2
    rw [List.count_append, h4 hne1 hne2]
    cases r <;> simp [prompt]

theorem clock_env_runs (env : Env) (tr : List Event)
    (hm : env.millis = fun tr => 1000 + tr.count (Event.delay 1))
    (htr : tr.count (Event.delay 1) = 0) : clock_runs env tr 5000 := by
  intro w
  rw [hm]
  simp only [List.count_append, htr]
  omega

/-- Witness for `cli_boot_contract`: auto-join and auto-connect switched on, with a
network joined after nine calls and a connection that succeeds, and with a network that
is never joined. -/
theorem cli_boot_contract_witness :
    (∃ st', (∀ fuel, 5000 < fuel →
        cli_boot sample_config (clock_env 9) fuel (init_state []) = some (true, st')) ∧
      cli_boot sample_config (clock_env 9) 2 (init_state []) = some (true, st') ∧
      cmd_boot sample_config (clock_env 9) 2 0 (init_state []) = some ( CMD_IO, st') ∧
      ∃ host port, Event.tvipt_proto_connect host port true ∈ st'.trace) ∧
    (∃ r st', ∀ fuel, 5000 < fuel →
      cli_boot sample_config no_network_env fuel (init_state []) = some (r, st')) := by
  have hc1 := cli_boot_contract sample_config (clock_env 9) 0 (init_state [])
    (fun ssid pass _ _ => clock_env_runs _ _ rfl (by
      simp [boot_join_start, init_state, cli_init, clear_command, List.count_cons]))
  have hc2 := cli_boot_contract sample_config no_network_env 0 (init_state [])
    (fun ssid pass _ _ => clock_env_runs _ _ rfl (by
      simp [boot_join_start, init_state, cli_init, clear_command, List.count_cons]))
  obtain ⟨r, st', body, h1, h2, h3, -, h5, -⟩ := hc1
  obtain ⟨r2, st2, -, g1, -⟩ := hc2
  have e : ∃ s, cli_boot sample_config (clock_env 9) 2 (init_state []) = some (true, s) :=
    ⟨_, rfl⟩
  obtain ⟨s, hs⟩ := e
  obtain ⟨hr, hst⟩ := h2 2 true s hs
  subst hr hst
  refine ⟨⟨s, fun fuel hf => (h1 fuel hf).1, hs, by simp only [cmd_boot, hs]; rfl, ?_⟩,
    ⟨r2, st2, fun fuel hf => (g1 fuel hf).1⟩⟩
  obtain ⟨host, port, hm⟩ := h5.mp rfl
  exact ⟨host, port, by rw [h3]; simp [hm]⟩

/-! ### `strtok_r` on the command buffer -/

theorem cstr_blank : cstr " " = [32] := rfl

theorem dropWhile_all {p : Nat → Bool} (pre l : List Nat) (h : ∀ c ∈ pre, p c = true) :
    (pre ++ l).dropWhile p = l.dropWhile p := by
  induction pre with
  | nil => rfl
  | cons a pre ih =>
    have ha : p a = true := h a (by simp)
    simp only [List.cons_append, List.dropWhile_cons, ha, if_true]
    exact ih (fun c hc => h c (by simp [hc]))

theorem takeWhile_token {p : Nat → Bool} (t rest : List Nat) (h : ∀ c ∈ t, p c = true)
    (hrest : ∀ c, rest.head? = some c → p c = false) :
    (t ++ rest).takeWhile p = t ∧ (t ++ rest).dropWhile p = rest := by
  induction t with
  | nil =>
    cases rest with
    | nil => simp
    | cons a rest => simp [List.takeWhile_cons, List.dropWhile_cons, hrest a rfl]
  | cons a t ih =>
    have ha : p a = true := h a (by simp)
    have := ih (fun c hc => h c (by simp [hc]))
    simp [List.takeWhile_cons, List.dropWhile_cons, ha, this]

theorem c_str_append (s z : List Nat) (h0 : 0 ∉ s) (hz : z = [] ∨ z.head? = some 0) :
    c_str (s ++ z) = s := by
  have h := (takeWhile_token (p := fun b => decide (b ≠ 0)) s z
    (by intro c hc; have : c ≠ 0 := fun h => h0 (h ▸ hc); simp [this])
    (by
      intro c hc
      rcases hz with h | h
      · simp [h] at hc
      · rw [h] at hc
        cases hc
        simp)).1
  simpa [c_str] using h

theorem c_str_split (l : List Nat) :
    ∃ z, l = c_str l ++ z ∧ (z = [] ∨ z.head? = some 0) ∧ 0 ∉ c_str l := by
  induction l with
  | nil => exact ⟨[], by simp [c_str], Or.inl rfl, by simp [c_str]⟩
  | cons a l ih =>
    by_cases ha : a = 0
    · subst ha
      exact ⟨0 :: l, by simp [c_str], Or.inr rfl, by simp [c_str]⟩
    · obtain ⟨z, h1, h2, h3⟩ := ih
      refine ⟨z, ?_, h2, ?_⟩
      · have : c_str (a :: l) = a :: c_str l := by simp [c_str, List.takeWhile_cons, ha]
        rw [this, List.cons_append, ← h1]
      · have : c_str (a :: l) = a :: c_str l := by simp [c_str, List.takeWhile_cons, ha]
        rw [this]
        simp only [List.mem_cons, not_or]
        exact ⟨fun h => ha h.symm, h3⟩

/-- A buffer whose text at offset `pos` is the nonempty `s`: what precedes `pos`, the text,
and what follows it, which is empty or begins with the NUL that ends the text. -/
theorem text_at (buf : List Nat) (pos : Nat) (s : List Nat) (h : c_str (buf.drop pos) = s)
    (hs : s ≠ []) :
    ∃ a z, buf = a ++ (s ++ z) ∧ a.length = pos ∧ (z = [] ∨ z.head? = some 0) ∧ 0 ∉ s := by
  obtain ⟨z, h1, h2, h3⟩ := c_str_split (buf.drop pos)
  rw [h] at h1 h3
  have hlt : pos < buf.length := by
    by_contra hge
    rw [List.drop_eq_nil_of_le (by omega)] at h1
    cases s with
    | nil => exact hs rfl
    | cons x xs => simp at h1
  refine ⟨buf.take pos, z, ?_, ?_, h2, h3⟩
  · rw [← h1, List.take_append_drop]
  · rw [List.length_take]; omega

theorem strtok_r_blank (buf : List Nat) (pos : Nat) (s : List Nat)
    (htext : c_str (buf.drop pos) = s) (h : ∀ c ∈ s, c = 32) :
    strtok_r buf pos (cstr " ") = (none, pos + s.length, buf) := by
  have : s.dropWhile (fun c => decide (c ∈ cstr " ")) = [] := by
    rw [List.dropWhile_eq_nil_iff]
    intro c hc
    simp [cstr_blank, h c hc]
  simp [strtok_r, htext, this]

/-- The effect of `strtok_r` on an explicit memory layout: `a` precedes the scan, the text
scanned is `pre ++ t ++ rest`, and `z` follows it. -/
theorem strtok_r_layout (a pre t rest z : List Nat) (hpre : ∀ c ∈ pre, c = 32) (ht : t ≠ [])
    (hts : 32 ∉ t) (hrest : rest = [] ∨ rest.head? = some 32)
    (h0 : 0 ∉ pre ++ t ++ rest) (hz : z = [] ∨ z.head? = some 0) :
    strtok_r (a ++ (pre ++ t ++ rest ++ z)) a.length (cstr " ") =
      (some t, a.length + pre.length + t.length + (if rest = [] then 0 else 1),
        (a ++ (pre ++ t ++ rest ++ z)).set (a.length + pre.length + t.length) 0) ∧
    (a ++ (pre ++ t ++ rest ++ z)).set (a.length + pre.length + t.length) 0 =
      a ++ (pre ++ t ++ (if rest ++ z = [] then [] else 0 :: (rest ++ z).tail)) := by
  have hset : (a ++ (pre ++ t ++ rest ++ z)).set (a.length + pre.length + t.length) 0 =
      a ++ (pre ++ t ++ (if rest ++ z = [] then [] else 0 :: (rest ++ z).tail)) := by
    rw [List.set_append_right _ _ (by omega),
      show a.length + pre.length + t.length - a.length = (pre ++ t).length by simp; omega,
      List.append_assoc (pre ++ t) rest z, List.set_append_right _ _ (le_refl _), Nat.sub_self]
    cases hrz : rest ++ z with
    | nil => simp
    | cons x l => simp
  refine ⟨?_, hset⟩
  have htxt : c_str ((a ++ (pre ++ t ++ rest ++ z)).drop a.length) = pre ++ t ++ rest := by
    rw [List.drop_left]
    exact c_str_append _ _ h0 hz
  have h1 : (pre ++ (t ++ rest)).dropWhile (fun c => decide (c ∈ cstr " ")) = t ++ rest := by
    rw [dropWhile_all pre _ (by intro c hc; simp [cstr_blank, hpre c hc])]
    cases t with
    | nil => exact absurd rfl ht
    | cons x t =>
      have : x ≠ 32 := fun h => hts (by simp [h])
      simp [List.dropWhile_cons, cstr_blank, this]
  have h1' : (pre ++ (t ++ rest)).takeWhile (fun c => decide (c ∈ cstr " ")) = pre := by
    have := (takeWhile_token (p := fun c => decide (c ∈ cstr " ")) pre (t ++ rest)
      (by intro c hc; simp [cstr_blank, hpre c hc])
      (by
        intro c hc
        cases t with
        | nil => exact absurd rfl ht
        | cons x t =>
          simp only [List.cons_append, List.head?_cons, Option.some.injEq] at hc
          subst hc
          have : x ≠ 32 := fun h => hts (by simp [h])
          simp [cstr_blank, this])).1
    exact this
  have h2 := takeWhile_token (p := fun c => !decide (c ∈ cstr " ")) t rest
    (by intro c hc; have : c ≠ 32 := fun h => hts (h ▸ hc); simp [cstr_blank, this])
    (by
      intro c hc
      rcases hrest with h | h
      · simp [h] at hc
      · rw [h] at hc
        cases hc
        simp [cstr_blank])
  have h3 : t ++ rest ≠ [] := by simp [ht]
  unfold strtok_r
  simp only [htxt]
  simp only [List.append_assoc, h1, h1', h2.1, h3, if_false]
  by_cases hr : rest = []
  · subst hr
    have hnop : (a ++ (pre ++ (t ++ ([] ++ z)))).set (a.length + pre.length + t.length) 0 =
        a ++ (pre ++ (t ++ ([] ++ z))) := by
      have := hset
      simp only [List.append_assoc, List.nil_append, List.append_nil] at this ⊢
      rw [this]
      rcases hz with hz | hz
      · simp [hz]
      · cases z with
        | nil => simp
        | cons x z =>
          simp only [List.head?_cons, Option.some.injEq] at hz
          subst hz
          simp
    simp only [List.append_nil, lt_self_iff_false, if_false, if_true, Nat.add_zero]
    simp only [List.nil_append] at hnop ⊢
    rw [hnop]
  · have hlt : t.length < (t ++ rest).length := by
      have : 0 < rest.length := List.length_pos.mpr hr
      simp; omega
    simp only [hlt, if_true, hr, if_false]

theorem strtok_r_token (buf : List Nat) (pos : Nat) (pre t rest : List Nat)
    (htext : c_str (buf.drop pos) = pre ++ t ++ rest)
    (hpre : ∀ c ∈ pre, c = 32) (ht : t ≠ []) (hts : 32 ∉ t)
    (hrest : rest = [] ∨ rest.head? = some 32) :
    strtok_r buf pos (cstr " ") =
      (some t, pos + pre.length + t.length + (if rest = [] then 0 else 1),
        buf.set (pos + pre.length + t.length) 0) ∧
    c_str ((buf.set (pos + pre.length + t.length) 0).drop pos) = pre ++ t ∧
    c_str ((buf.set (pos + pre.length + t.length) 0).drop
      (pos + pre.length + t.length + (if rest = [] then 0 else 1))) = rest.tail := by
  obtain ⟨a, z, rfl, rfl, hz, h0⟩ := text_at buf pos _ htext (by simp [ht])
  obtain ⟨h1, h2⟩ := strtok_r_layout a pre t rest z hpre ht hts hrest h0 hz
  have h0' : 0 ∉ pre ++ t := fun h => h0 (by simp at h ⊢; tauto)
  have h0r : 0 ∉ rest.tail := fun h => h0 (by
    have := List.mem_of_mem_tail h
    simp [this])
  refine ⟨h1, ?_, ?_⟩
  · rw [h2, List.drop_left]
    apply c_str_append _ _ h0'
    by_cases hrz : rest ++ z = []
    · simp [hrz]
    · simp [hrz]
  · rw [h2]
    by_cases hr : rest = []
    · subst hr
      simp only [if_true, Nat.add_zero, List.nil_append, List.tail_nil]
      have e : ∀ X : List Nat, a ++ (pre ++ t ++ X) = (a ++ (pre ++ t)) ++ X := by
        intro X; simp
      rw [show a.length + pre.length + t.length = (a ++ (pre ++ t)).length by simp; omega,
        e, List.drop_left]
      rcases hz with hz | hz
      · simp [hz, c_str]
      · cases z with
        | nil => simp [c_str]
        | cons x z => simp [c_str]
    · obtain ⟨x, r, rfl⟩ := List.exists_cons_of_ne_nil hr
      simp only [List.cons_append, reduceCtorEq, if_false, List.tail_cons]
      rw [show a.length + pre.length + t.length + 1 = (a ++ (pre ++ t ++ [0])).length by
          simp; omega,
        show a ++ (pre ++ t ++ 0 :: (r ++ z)) = (a ++ (pre ++ t ++ [0])) ++ (r ++ z) by simp,
        List.drop_left]
      exact c_str_append _ _ h0r hz

/-! ### `cmd_connect` and `cmd_tcp_connect` -/

theorem dispatch_c (cfg : Config) (env : Env) (fuel : Nat) (tok : Nat) (st : State) :
    dispatch cfg env fuel (cstr "c") tok st _commands = cmd_connect env tok st := rfl

theorem dispatch_tcp (cfg : Config) (env : Env) (fuel : Nat) (tok : Nat) (st : State) :
    dispatch cfg env fuel (cstr "tcp") tok st _commands = cmd_tcp_connect env tok st := rfl

theorem blank_tail (s : List Nat) (h : ∀ c ∈ s, c = 32) :
    (s = [] ∨ s.head? = some 32) ∧ ∀ c ∈ s.tail, c = 32 := by
  cases s with
  | nil => simp
  | cons a s =>
    have := h a (by simp)
    subst this
    exact ⟨Or.inr rfl, fun c hc => h c (by simp [List.tail_cons] at hc; simp [hc])⟩

/-- C9. For the table rows `c` (syntax `c host port`) and `tcp` (syntax `tcp host port`),
which run `cmd_connect` and `cmd_tcp_connect` on the text of `_command` at the offset `tok`:
when that text is nothing but blanks the one call made is `term_writeln("missing host")`
and `_command` is left as it is; when it is a host token followed by nothing but blanks the
one call made is `term_writeln("missing port")`, `strtok_r` having ended the host token
with a NUL. Both return `CMD_ERR`, and neither `tvipt_proto_connect` nor `tcp_connect` is
called. -/
theorem connect_missing_argument (cfg : Config) (env : Env) (fuel : Nat) (st : State)
    (tok : Nat) (blanks blanks' host : List Nat)
    (hb : ∀ c ∈ blanks, c = 32) (hb' : ∀ c ∈ blanks', c = 32)
    (hh : host ≠ []) (hhs : 32 ∉ host) :
    (cstr "c", cstr "c host port") ∈ _commands.map (fun c => (c.name, c.syntax_text)) ∧
    (cstr "tcp", cstr "tcp host port") ∈ _commands.map (fun c => (c.name, c.syntax_text)) ∧
    (c_str (st._command.drop tok) = blanks →
      dispatch cfg env fuel (cstr "c") tok st _commands =
        some (CMD_ERR, { st with trace := st.trace ++ [Event.term_writeln (cstr "missing host")] }) ∧
      dispatch cfg env fuel (cstr "tcp") tok st _commands =
        some (CMD_ERR, { st with trace := st.trace ++ [Event.term_writeln (cstr "missing host")] }) ∧
      cmd_connect env tok st =
        some (CMD_ERR, { st with trace := st.trace ++ [Event.term_writeln (cstr "missing host")] }) ∧
      cmd_tcp_connect env tok st =
        some (CMD_ERR, { st with trace := st.trace ++ [Event.term_writeln (cstr "missing host")] })) ∧
    (c_str (st._command.drop tok) = blanks ++ host ++ blanks' →
      dispatch cfg env fuel (cstr "c") tok st _commands =
        some (CMD_ERR, { st with
          _command := st._command.set (tok + blanks.length + host.length) 0
          trace := st.trace ++ [Event.term_writeln (cstr "missing port")] }) ∧
      dispatch cfg env fuel (cstr "tcp") tok st _commands =
        some (CMD_ERR, { st with
          _command := st._command.set (tok + blanks.length + host.length) 0
          trace := st.trace ++ [Event.term_writeln (cstr "missing port")] }) ∧
      cmd_connect env tok st =
        some (CMD_ERR, { st with
          _command := st._command.set (tok + blanks.length + host.length) 0
          trace := st.trace ++ [Event.term_writeln (cstr "missing port")] }) ∧
      cmd_tcp_connect env tok st =
        some (CMD_ERR, { st with
          _command := st._command.set (tok + blanks.length + host.length) 0
          trace := st.trace ++ [Event.term_writeln (cstr "missing port")] })) := by
  refine ⟨by decide, by decide, ?_, ?_⟩
  · intro htext
    have t1 := strtok_r_blank st._command tok blanks htext hb
    have c1 : cmd_connect env tok st =
        some (CMD_ERR, { st with trace := st.trace ++ [Event.term_writeln (cstr "missing host")] }) := by
      simp only [cmd_connect, t1, term_writeln, emit, _e_missing_host]
    have c2 : cmd_tcp_connect env tok st =
        some (CMD_ERR, { st with trace := st.trace ++ [Event.term_writeln (cstr "missing host")] }) := by
      simp only [cmd_tcp_connect, t1, term_writeln, emit, _e_missing_host]
    refine ⟨?_, ?_, c1, c2⟩
    · rw [dispatch_c, c1]
    · rw [dispatch_tcp, c2]
  · intro htext
    obtain ⟨t2, -, t2text⟩ := strtok_r_token st._command tok blanks host blanks' htext hb hh hhs
      (blank_tail blanks' hb').1
    have t3 := strtok_r_blank _ _ blanks'.tail t2text (blank_tail blanks' hb').2
    have c3 : cmd_connect env tok st =
        some (CMD_ERR, { st with
          _command := st._command.set (tok + blanks.length + host.length) 0
          trace := st.trace ++ [Event.term_writeln (cstr "missing port")] }) := by
      simp only [cmd_connect, t2, t3, term_writeln, emit, _e_missing_port]
    have c4 : cmd_tcp_connect env tok st =
        some (CMD_ERR, { st with
          _command := st._command.set (tok + blanks.length + host.length) 0
          trace := st.trace ++ [Event.term_writeln (cstr "missing port")] }) := by
      simp only [cmd_tcp_connect, t2, t3, term_writeln, emit, _e_missing_port]
    refine ⟨?_, ?_, c3, c4⟩
    · rw [dispatch_c, c3]
    · rw [dispatch_tcp, c4]

/-- Witness for `connect_missing_argument`: the lines `c` followed by two blanks, and
`tcp  example.org ` with the scan started after the name. -/
theorem connect_missing_argument_witness :
    cmd_connect (sample_env false true false 0) 1 (state_with_command (cstr "c  ")) =
      some (CMD_ERR, { state_with_command (cstr "c  ") with
        trace := [Event.term_writeln (cstr "missing host")] }) ∧
    cmd_tcp_connect (sample_env false true false 0) 3
        (state_with_command (cstr "tcp  example.org ")) =
      some (CMD_ERR, { state_with_command (cstr "tcp  example.org ") with
        _command := (state_with_command (cstr "tcp  example.org "))._command.set 16 0
        trace := [Event.term_writeln (cstr "missing port")] }) := by
  have h1 := connect_missing_argument config_h (sample_env false true false 0) 0
    (state_with_command (cstr "c  ")) 1
    (cstr "  ") (cstr " ") (cstr "example.org") (by decide) (by decide) (by decide) (by decide)
  have h2 := connect_missing_argument config_h (sample_env false true false 0) 0
    (state_with_command (cstr "tcp  example.org ")) 3
    (cstr "  ") (cstr " ") (cstr "example.org") (by decide) (by decide) (by decide) (by decide)
  exact ⟨(h1.2.2.1 (by decide)).2.2.1, (h2.2.2.2 (by decide)).2.2.2⟩

theorem cmd_connect_tokens (env : Env) (st : State) (tok : Nat)
    (b1 b2 host port rest : List Nat)
    (hb1 : ∀ c ∈ b1, c = 32) (hb2 : ∀ c ∈ b2, c = 32) (hh : host ≠ []) (hhs : 32 ∉ host)
    (hp : port ≠ []) (hps : 32 ∉ port) (hrest : rest = [] ∨ rest.head? = some 32)
    (htext : c_str (st._command.drop tok) = b1 ++ host ++ 32 :: (b2 ++ port ++ rest)) :
    cmd_connect env tok st =
      some (if env.tvipt_proto_connect st.trace host (to_uint16 (atoi port)) then CMD_IO
          else CMD_ERR,
        { st with
          _command := (st._command.set (tok + b1.length + host.length) 0).set
            (tok + b1.length + host.length + 1 + b2.length + port.length) 0
          trace := st.trace ++
            ([Event.tvipt_proto_connect host (to_uint16 (atoi port))
                (env.tvipt_proto_connect st.trace host (to_uint16 (atoi port)))] ++
              (if env.tvipt_proto_connect st.trace host (to_uint16 (atoi port)) then []
                else [Event.term_writeln (cstr "connection failed")])) }) := by
  obtain ⟨t1, -, t1text⟩ := strtok_r_token st._command tok b1 host (32 :: (b2 ++ port ++ rest))
    htext hb1 hh hhs (Or.inr rfl)
  simp only [reduceCtorEq, if_false, List.tail_cons] at t1 t1text
  obtain ⟨t2, -, -⟩ := strtok_r_token _ _ b2 port rest t1text hb2 hp hps hrest
  simp only [cmd_connect, t1, t2]
  cases env.tvipt_proto_connect st.trace host (to_uint16 (atoi port)) <;>
    simp [emit, term_writeln]

theorem scan_digits_value (ds rest : List Nat) (hds : ∀ d ∈ ds, d < 10)
    (hrest : ∀ c, rest.head? = some c → isdigit c = false) :
    ∀ acc, scan_digits (ds.map (fun d => d + 48) ++ rest) acc =
      (Nat.ofDigits 10 ds.reverse + acc * 10 ^ ds.length, rest) := by
  induction ds with
  | nil =>
    intro acc
    cases rest with
    | nil => simp [scan_digits]
    | cons c rest => simp [scan_digits, hrest c rfl]
  | cons d ds ih =>
    intro acc
    have hd : d < 10 := hds d (by simp)
    have hdig : isdigit (d + 48) = true := by simp [isdigit]; omega
    simp only [List.map_cons, List.cons_append]
    rw [scan_digits, if_pos hdig, ih (fun x hx => hds x (by simp [hx]))]
    simp only [List.reverse_cons, Nat.ofDigits_append, Nat.ofDigits_singleton, List.length_reverse,
      List.length_cons, Nat.add_sub_cancel]
    congr 1
    ring

theorem head_dropWhile (p : Nat → Bool) :
    ∀ (l : List Nat) (c : Nat), (l.dropWhile p).head? = some c → p c = false := by
  intro l
  induction l with
  | nil => intro c h; simp at h
  | cons a l ih =>
    intro c h
    by_cases ha : p a = true
    · simp only [List.dropWhile_cons, ha, if_true] at h
      exact ih c h
    · simp only [List.dropWhile_cons, ha] at h
      simp only [Bool.false_eq_true, if_false, List.head?_cons, Option.some.injEq] at h
      subst h
      simpa using ha

/-- The value of `atoi` on a token read as white space, an optional sign, decimal digits
and a remainder: the digits' value with its sign, kept within the range of a 32-bit `int`,
and 0 when no digit follows the sign. -/
theorem atoi_shape (ws sign ds tail : List Nat)
    (hws : ∀ c ∈ ws, isspace c = true)
    (hsign : sign = [] ∨ sign = [43] ∨ sign = [45])
    (hds : ∀ d ∈ ds, d < 10)
    (htail : ∀ c, tail.head? = some c → isdigit c = false)
    (hmax : sign = [] → ds = [] →
      ∀ c, tail.head? = some c → isspace c = false ∧ c ≠ 43 ∧ c ≠ 45) :
    atoi (ws ++ sign ++ ds.map (fun d => d + 48) ++ tail) =
      if ds = [] then 0
      else if sign = [45] then max (-((Nat.ofDigits 10 ds.reverse : Nat) : Int)) (-2147483648)
      else min ((Nat.ofDigits 10 ds.reverse : Nat) : Int) 2147483647 := by
  have hdig : ∀ d, d < 10 → isdigit (d + 48) = true ∧ isspace (d + 48) = false ∧
      d + 48 ≠ 43 ∧ d + 48 ≠ 45 := by
    intro d hd
    refine ⟨by simp [isdigit]; omega, by simp [isspace], by omega, by omega⟩
  have hbody : ∀ c, (ds.map (fun d => d + 48) ++ tail).head? = some c → ds = [] →
      isdigit c = false := by
    intro c hc hnil
    subst hnil
    exact htail c (by simpa using hc)
  have hX : ∀ c, (sign ++ (ds.map (fun d => d + 48) ++ tail)).head? = some c →
      isspace c = false := by
    intro c hc
    rcases hsign with rfl | rfl | rfl
    · cases ds with
      | nil => exact (hmax rfl rfl c (by simpa using hc)).1
      | cons d ds =>
        simp only [List.nil_append, List.map_cons, List.cons_append, List.head?_cons,
          Option.some.injEq] at hc
        subst hc
        exact (hdig d (hds d (by simp))).2.1
    · simp only [List.cons_append, List.head?_cons, Option.some.injEq] at hc
      subst hc
      decide
    · simp only [List.cons_append, List.head?_cons, Option.some.injEq] at hc
      subst hc
      decide
  have hdrop : (ws ++ sign ++ ds.map (fun d => d + 48) ++ tail).dropWhile isspace =
      sign ++ (ds.map (fun d => d + 48) ++ tail) := by
    rw [List.append_assoc, List.append_assoc]
    exact (takeWhile_token ws _ hws hX).2
  have hscan := scan_digits_value ds tail hds htail 0
  simp only [zero_mul, add_zero] at hscan
  unfold atoi strtol
  simp only [hdrop]
  cases ds with
  | nil =>
    simp only [List.map_nil, List.nil_append, if_true]
    rcases hsign with rfl | rfl | rfl
    · cases tail with
      | nil => simp
      | cons c tl =>
        obtain ⟨-, h43, h45⟩ := hmax rfl rfl c rfl
        have hd := htail c rfl
        simp [h43, h45, hd]
    · cases tail with
      | nil => simp
      | cons c tl =>
        have hd := htail c rfl
        simp [hd]
    · cases tail with
      | nil => simp
      | cons c tl =>
        have hd := htail c rfl
        simp [hd]
  | cons d ds =>
    obtain ⟨h1, -, h43, h45⟩ := hdig d (hds d (by simp))
    simp only [List.map_cons, List.cons_append] at hscan
    rcases hsign with rfl | rfl | rfl
    · simp [h43, h45, h1, hscan]
    · simp [h1, hscan]
    · simp [h1, hscan]

theorem to_uint16_neg (m : Nat) :
    to_uint16 (-(m : Int)) = (65536 - m % 65536) % 65536 := by
  unfold to_uint16
  omega

theorem to_uint16_nat (m : Nat) : to_uint16 (m : Int) = m % 65536 := by
  unfold to_uint16
  omega

/-- The port `cmd_connect` passes on for a token of the shape of `atoi_shape`. -/
theorem port_of_token (ws sign ds tail : List Nat)
    (hws : ∀ c ∈ ws, isspace c = true)
    (hsign : sign = [] ∨ sign = [43] ∨ sign = [45])
    (hds : ∀ d ∈ ds, d < 10)
    (htail : ∀ c, tail.head? = some c → isdigit c = false)
    (hmax : sign = [] → ds = [] →
      ∀ c, tail.head? = some c → isspace c = false ∧ c ≠ 43 ∧ c ≠ 45) :
    to_uint16 (atoi (ws ++ sign ++ ds.map (fun d => d + 48) ++ tail)) =
      if ds = [] then 0
      else if sign = [45] then (65536 - min (Nat.ofDigits 10 ds.reverse) 2147483648 % 65536) % 65536
      else min (Nat.ofDigits 10 ds.reverse) 2147483647 % 65536 := by
  rw [atoi_shape ws sign ds tail hws hsign hds htail hmax]
  by_cases h1 : ds = []
  · simp only [h1, if_true]
    rfl
  · simp only [h1, if_false]
    by_cases h2 : sign = [45]
    · simp only [h2, if_true]
      have : max (-((Nat.ofDigits 10 ds.reverse : Nat) : Int)) (-2147483648) =
          -((min (Nat.ofDigits 10 ds.reverse) 2147483648 : Nat) : Int) := by omega
      rw [this, to_uint16_neg]
    · simp only [h2, if_false]
      have : min ((Nat.ofDigits 10 ds.reverse : Nat) : Int) 2147483647 =
          ((min (Nat.ofDigits 10 ds.reverse) 2147483647 : Nat) : Int) := by omega
      rw [this, to_uint16_nat]

/-- Every text has the shape of `atoi_shape`, in one way. -/
theorem token_shape (port : List Nat) :
    ∃ ws sign ds tail, port = ws ++ sign ++ ds.map (fun d => d + 48) ++ tail ∧
      (∀ c ∈ ws, isspace c = true) ∧ (sign = [] ∨ sign = [43] ∨ sign = [45]) ∧
      (∀ d ∈ ds, d < 10) ∧ (∀ c, tail.head? = some c → isdigit c = false) ∧
      (sign = [] → ds = [] →
        ∀ c, tail.head? = some c → isspace c = false ∧ c ≠ 43 ∧ c ≠ 45) := by
  have hsp : ∀ c, (port.dropWhile isspace).head? = some c → isspace c = false :=
    head_dropWhile isspace port
  have key : ∀ body : List Nat, ∃ ds tail, body = ds.map (fun d => d + 48) ++ tail ∧
      (∀ d ∈ ds, d < 10) ∧ (∀ c, tail.head? = some c → isdigit c = false) ∧
      (ds = [] → tail = body) := by
    intro body
    refine ⟨(body.takeWhile isdigit).map (fun c => c - 48), body.dropWhile isdigit, ?_, ?_,
      head_dropWhile isdigit body, ?_⟩
    · have : ((body.takeWhile isdigit).map (fun c => c - 48)).map (fun d => d + 48) =
          body.takeWhile isdigit := by
        rw [List.map_map]
        conv => rhs; rw [← List.map_id (body.takeWhile isdigit)]
        apply List.map_congr_left
        intro c hc
        have := List.mem_takeWhile_imp hc
        simp only [isdigit, Bool.and_eq_true, decide_eq_true_eq] at this
        simp only [Function.comp, id]
        omega
      rw [this, List.takeWhile_append_dropWhile]
    · intro d hd
      simp only [List.mem_map] at hd
      obtain ⟨c, hc, rfl⟩ := hd
      have := List.mem_takeWhile_imp hc
      simp only [isdigit, Bool.and_eq_true, decide_eq_true_eq] at this
      omega
    · intro h
      simp only [List.map_eq_nil_iff] at h
      have := List.takeWhile_append_dropWhile isdigit body
      rw [h, List.nil_append] at this
      exact this
  have hport : port = port.takeWhile isspace ++ port.dropWhile isspace :=
    (List.takeWhile_append_dropWhile isspace port).symm
  have hws : ∀ c ∈ port.takeWhile isspace, isspace c = true :=
    fun c hc => List.mem_takeWhile_imp hc
  cases hs : port.dropWhile isspace with
  | nil =>
    refine ⟨port.takeWhile isspace, [], [], [], ?_, hws, Or.inl rfl, by simp, by simp, by simp⟩
    rw [hs, List.append_nil] at hport
    simpa using hport
  | cons x s =>
    rw [hs] at hport hsp
    by_cases h43 : x = 43
    · obtain ⟨ds, tail, hb, h1, h2, -⟩ := key s
      refine ⟨port.takeWhile isspace, [43], ds, tail, ?_, hws, Or.inr (Or.inl rfl), h1, h2,
        by simp⟩
      rw [List.append_assoc, List.append_assoc, ← hb, ← h43]
      exact hport
    · by_cases h45 : x = 45
      · obtain ⟨ds, tail, hb, h1, h2, -⟩ := key s
        refine ⟨port.takeWhile isspace, [45], ds, tail, ?_, hws, Or.inr (Or.inr rfl), h1, h2,
          by simp⟩
        rw [List.append_assoc, List.append_assoc, ← hb, ← h45]
        exact hport
      · obtain ⟨ds, tail, hb, h1, h2, h3⟩ := key (x :: s)
        refine ⟨port.takeWhile isspace, [], ds, tail, ?_, hws, Or.inl rfl, h1, h2, ?_⟩
        · rw [List.append_nil, List.append_assoc, ← hb]
          exact hport
        · intro _ hds c hc
          rw [h3 hds] at hc
          simp only [List.head?_cons, Option.some.injEq] at hc
          subst hc
          exact ⟨hsp x rfl, h43, h45⟩

theorem strtol_of_digit (c : Nat) (cs : List Nat) (hc : isdigit c = true) :
    strtol (c :: cs) =
      (min ((scan_digits (c :: cs) 0).1 : Int) 2147483647, (scan_digits (c :: cs) 0).2) := by
  have hc' : 48 ≤ c ∧ c ≤ 57 := by simpa [isdigit] using hc
  have hsp : isspace c = false := by simp [isspace]; omega
  have h45 : c ≠ 45 := by omega
  have h43 : c ≠ 43 := by omega
  simp [strtol, List.dropWhile_cons, hsp, h45, h43, hc]

theorem atoi_decimal_numeral (n : Nat) (hn : n ≤ 65535) :
    to_uint16 (atoi (decimal_numeral n)) = n ∧ decimal_numeral n ≠ [] ∧
      32 ∉ decimal_numeral n := by
  by_cases h0 : n = 0
  · subst h0
    refine ⟨by decide, by decide, by decide⟩
  · have hds : ∀ d ∈ (Nat.digits 10 n).reverse, d < 10 := by
      intro d hd
      exact Nat.digits_lt_base (by norm_num) (List.mem_reverse.mp hd)
    have hne : (Nat.digits 10 n).reverse ≠ [] := by
      simpa using (Nat.digits_ne_nil_iff_ne_zero.mpr h0)
    obtain ⟨d, ds, hcons⟩ := List.exists_cons_of_ne_nil hne
    have hd : d < 10 := hds d (by rw [hcons]; simp)
    have hval := scan_digits_value (Nat.digits 10 n).reverse [] hds (by simp) 0
    simp only [List.append_nil, List.reverse_reverse, Nat.ofDigits_digits, zero_mul,
      add_zero] at hval
    have hnum : decimal_numeral n = (d + 48) :: ds.map (fun d => d + 48) := by
      simp [decimal_numeral, h0, hcons]
    refine ⟨?_, ?_, ?_⟩
    · have hdig : isdigit (d + 48) = true := by simp [isdigit]; omega
      have hscan : scan_digits ((d + 48) :: ds.map (fun d => d + 48)) 0 = (n, []) := by
        rw [← hval, hcons]; rfl
      have hmin : min (n : Int) 2147483647 = n := min_eq_left (by omega)
      have hmod : (n : Int) % 65536 = n := Int.emod_eq_of_lt (by omega) (by omega)
      rw [hnum, atoi, strtol_of_digit _ _ hdig, hscan]
      simp only [to_uint16, hmin, hmod, Int.toNat_ofNat]
    · simp [hnum]
    · rw [decimal_numeral, if_neg h0]
      intro hmem
      simp only [List.mem_map, List.mem_reverse] at hmem
      obtain ⟨x, -, hx⟩ := hmem
      omega

theorem process_command_c (cfg : Config) (env : Env) (fuel : Nat) (st st' : State)
    (lead args : List Nat) (status : command_status) (hlead : ∀ c ∈ lead, c = 32)
    (hline : c_str st._command = lead ++ cstr "c" ++ 32 :: args)
    (hcmd : cmd_connect env (lead.length + 2)
      { st with _command := st._command.set (lead.length + 1) 0 } = some (status, st'))
    (hs : status = CMD_IO ∨ status = CMD_ERR) :
    process_command cfg env fuel st =
      some (status, if status = CMD_IO then st'
        else { st' with trace := st'.trace ++ [Event.term_writeln (cstr "= err"), Event.term_flush] }) := by
  obtain ⟨t, ttext, -⟩ := strtok_r_token st._command 0 lead (cstr "c") (32 :: args)
    (by simpa using hline) hlead (by decide) (by decide) (Or.inr rfl)
  simp only [Nat.zero_add, show (cstr "c").length = 1 from rfl, reduceCtorEq, if_false,
    List.drop_zero] at t ttext
  have hlen : ¬ (lead ++ cstr "c").length = 0 := by simp [cstr]
  simp only [process_command, t, ttext, hlen, if_false, dispatch_c, hcmd]
  rcases hs with rfl | rfl
  · simp
  · simp [term_flush, term_writeln, emit]

theorem command_text_c (st : State) (lead args : List Nat) (hlead : ∀ c ∈ lead, c = 32)
    (hline : c_str st._command = lead ++ cstr "c" ++ 32 :: args) :
    c_str ((st._command.set (lead.length + 1) 0).drop (lead.length + 2)) = args := by
  obtain ⟨-, -, t⟩ := strtok_r_token st._command 0 lead (cstr "c") (32 :: args)
    (by simpa using hline) hlead (by decide) (by decide) (Or.inr rfl)
  simpa [show (cstr "c").length = 1 from rfl] using t

/-- C2. In a command line `c host port` (blanks may precede the name and the tokens, and
more text may follow the port after a blank) whose port token is the decimal numeral of
some `n ≤ 65535`, `cmd_connect` makes exactly one call of `tvipt_proto_connect`, with the
host token unchanged and port `n`. It returns `CMD_IO` when that call answers true,
making no other call; when the call answers false it calls
`term_writeln("connection failed")` and returns `CMD_ERR`. `process_command` then adds
`term_writeln("= err")` and `term_flush()` for `CMD_ERR`, and nothing for `CMD_IO`. The
state returned is the one entered but for these calls and for the NULs that `strtok_r`
has stored in `_command` at the end of the name, the host and the port. -/
theorem cmd_connect_valid_port (cfg : Config) (env : Env) (fuel : Nat) (st : State)
    (tok : Nat) (lead b1 b2 host rest : List Nat) (n : Nat)
    (hlead : ∀ c ∈ lead, c = 32) (hb1 : ∀ c ∈ b1, c = 32) (hb2 : ∀ c ∈ b2, c = 32)
    (hh : host ≠ []) (hhs : 32 ∉ host) (hn : n ≤ 65535)
    (hrest : rest = [] ∨ rest.head? = some 32) :
    (c_str (st._command.drop tok) = b1 ++ host ++ 32 :: (b2 ++ decimal_numeral n ++ rest) →
      cmd_connect env tok st =
        some (if env.tvipt_proto_connect st.trace host n then CMD_IO else CMD_ERR,
          { st with
            _command := (st._command.set (tok + b1.length + host.length) 0).set
              (tok + b1.length + host.length + 1 + b2.length + (decimal_numeral n).length) 0
            trace := st.trace ++
              ([Event.tvipt_proto_connect host n (env.tvipt_proto_connect st.trace host n)] ++
                (if env.tvipt_proto_connect st.trace host n then []
                  else [Event.term_writeln (cstr "connection failed")])) })) ∧
    (c_str st._command =
        lead ++ cstr "c" ++ 32 :: (b1 ++ host ++ 32 :: (b2 ++ decimal_numeral n ++ rest)) →
      process_command cfg env fuel st =
        some (if env.tvipt_proto_connect st.trace host n then CMD_IO else CMD_ERR,
          { st with
            _command := ((st._command.set (lead.length + 1) 0).set
              (lead.length + 2 + b1.length + host.length) 0).set
              (lead.length + 2 + b1.length + host.length + 1 + b2.length +
                (decimal_numeral n).length) 0
            trace := st.trace ++
              ([Event.tvipt_proto_connect host n (env.tvipt_proto_connect st.trace host n)] ++
                (if env.tvipt_proto_connect st.trace host n then []
                  else [Event.term_writeln (cstr "connection failed"),
                    Event.term_writeln (cstr "= err"), Event.term_flush])) })) := by
  obtain ⟨hv, hne, hns⟩ := atoi_decimal_numeral n hn
  have hc : ∀ (s : State) (k : Nat),
      c_str (s._command.drop k) = b1 ++ host ++ 32 :: (b2 ++ decimal_numeral n ++ rest) →
      cmd_connect env k s =
        some (if env.tvipt_proto_connect s.trace host n then CMD_IO else CMD_ERR,
          { s with
            _command := (s._command.set (k + b1.length + host.length) 0).set
              (k + b1.length + host.length + 1 + b2.length + (decimal_numeral n).length) 0
            trace := s.trace ++
              ([Event.tvipt_proto_connect host n (env.tvipt_proto_connect s.trace host n)] ++
                (if env.tvipt_proto_connect s.trace host n then []
                  else [Event.term_writeln (cstr "connection failed")])) }) := by
    intro s k htext
    have := cmd_connect_tokens env s k b1 b2 host (decimal_numeral n) rest hb1 hb2 hh hhs
      hne hns hrest htext
    rw [hv] at this
    exact this
  refine ⟨hc st tok, ?_⟩
  intro hline
  have hargs := command_text_c st lead _ hlead hline
  have hcmd := hc { st with _command := st._command.set (lead.length + 1) 0 }
    (lead.length + 2) hargs
  rw [process_command_c cfg env fuel st _ lead _ _ hlead hline hcmd
    (by cases env.tvipt_proto_connect st.trace host n <;> simp)]
  cases env.tvipt_proto_connect st.trace host n <;> simp

theorem decimal_numeral_3333 : decimal_numeral 3333 = cstr "3333" := by
  have h : Nat.digits 10 3333 = [3, 3, 3, 3] := by norm_num
  rw [decimal_numeral, if_neg (by norm_num), h]
  rfl

/-- Witness for `cmd_connect_valid_port`: the line `c example.org 3333` with a connection
that fails. The NULs are stored at offsets 1 and 13. -/
theorem cmd_connect_valid_port_witness :
    process_command config_h (sample_env false false false 0) 0
        (state_with_command (cstr "c example.org 3333")) =
      some (CMD_ERR, { state_with_command (cstr "c example.org 3333") with
        _command := cstr "c" ++ [0] ++ cstr "example.org" ++ [0] ++ cstr "3333" ++
          List.replicate 42 0
        trace := [Event.tvipt_proto_connect (cstr "example.org") 3333 false,
          Event.term_writeln (cstr "connection failed"),
          Event.term_writeln (cstr "= err"), Event.term_flush] }) := by
  have h := (cmd_connect_valid_port config_h (sample_env false false false 0) 0
    (state_with_command (cstr "c example.org 3333")) 0 [] [] [] (cstr "example.org") [] 3333
    (by simp) (by simp) (by simp) (by decide) (by decide) (by norm_num) (Or.inl rfl)).2
    (by rw [decimal_numeral_3333]; decide)
  rw [decimal_numeral_3333] at h
  exact h.trans (by decide)

/-- C3 (as the code has it). The port tokens `70000`, `telnet` and `-1` are the decimal
numeral of no unsigned 16-bit value, and `cmd_connect` calls `tvipt_proto_connect` all the
same, with ports 4464 (70000 modulo 65536), 0 and 65535, and returns `CMD_IO` when the
call answers true; typed as the line `c example.org 70000`, `process_command` returns
`CMD_IO` too and prints nothing. -/
theorem cmd_connect_invalid_port_connects :
    (∀ n, n ≤ 65535 → decimal_numeral n ≠ cstr "70000" ∧ decimal_numeral n ≠ cstr "telnet" ∧
      decimal_numeral n ≠ cstr "-1") ∧
    cmd_connect (sample_env false true false 0) 0
        (state_with_command (cstr "example.org 70000")) =
      some ( CMD_IO, { state_with_command (cstr "example.org 70000") with
        _command := cstr "example.org" ++ [0] ++ cstr "70000" ++ List.replicate 43 0
        trace := [Event.tvipt_proto_connect (cstr "example.org") 4464 true] }) ∧
    cmd_connect (sample_env false true false 0) 0
        (state_with_command (cstr "example.org telnet")) =
      some ( CMD_IO, { state_with_command (cstr "example.org telnet") with
        _command := cstr "example.org" ++ [0] ++ cstr "telnet" ++ List.replicate 42 0
        trace := [Event.tvipt_proto_connect (cstr "example.org") 0 true] }) ∧
    cmd_connect (sample_env false true false 0) 0
        (state_with_command (cstr "example.org -1")) =
      some ( CMD_IO, { state_with_command (cstr "example.org -1") with
        _command := cstr "example.org" ++ [0] ++ cstr "-1" ++ List.replicate 46 0
        trace := [Event.tvipt_proto_connect (cstr "example.org") 65535 true] }) ∧
    process_command config_h (sample_env false true false 0) 0
        (state_with_command (cstr "c example.org 70000")) =
      some ( CMD_IO, { state_with_command (cstr "c example.org 70000") with
        _command := cstr "c" ++ [0] ++ cstr "example.org" ++ [0] ++ cstr "70000" ++
          List.replicate 41 0
        trace := [Event.tvipt_proto_connect (cstr "example.org") 4464 true] }) := by
  refine ⟨?_, by decide, by decide, by decide, by decide⟩
  intro n hn
  have hv := (atoi_decimal_numeral n hn).1
  refine ⟨?_, ?_, ?_⟩
  · intro h
    rw [h] at hv
    have h1 : to_uint16 (atoi (cstr "70000")) = 4464 := by decide
    have h2 : decimal_numeral 4464 = cstr "4464" := by
      have h : Nat.digits 10 4464 = [4, 6, 4, 4] := by norm_num
      rw [decimal_numeral, if_neg (by norm_num), h]
      rfl
    rw [h1] at hv
    rw [← hv, h2] at h
    exact absurd h (by decide)
  · intro h
    rw [h] at hv
    have h1 : to_uint16 (atoi (cstr "telnet")) = 0 := by decide
    rw [h1] at hv
    rw [← hv] at h
    exact absurd h (by decide)
  · intro h
    rw [h] at hv
    have h1 : to_uint16 (atoi (cstr "-1")) = 65535 := by decide
    have h2 : decimal_numeral 65535 = cstr "65535" := by
      have h : Nat.digits 10 65535 = [5, 3, 5, 5, 6] := by norm_num
      rw [decimal_numeral, if_neg (by norm_num), h]
      rfl
    rw [h1] at hv
    rw [← hv, h2] at h
    exact absurd h (by decide)

/-- C3 (amended). Whatever the port token is, `cmd_connect` makes exactly one call of
`tvipt_proto_connect`, with the host token and the port `(uint16_t) atoi(token)`. It
returns `CMD_ERR`, after `term_writeln("connection failed")`, only when that call answers
false, and `CMD_IO` when it answers true. Every token reads in one way as white space, an
optional sign, decimal digits of value `v` and a remainder that begins with no digit; the
port is then 0 when there is no digit, `min v 2147483647` modulo 65536 without a minus
sign, and the negative of `min v 2147483648` modulo 65536 with one: `atoi` keeps to the
range of a 32-bit `int` before the cast reduces modulo 65536. -/
theorem cmd_connect_any_port (env : Env) (st : State) (tok : Nat)
    (b1 b2 host port rest : List Nat)
    (hb1 : ∀ c ∈ b1, c = 32) (hb2 : ∀ c ∈ b2, c = 32) (hh : host ≠ []) (hhs : 32 ∉ host)
    (hp : port ≠ []) (hps : 32 ∉ port) (hrest : rest = [] ∨ rest.head? = some 32)
    (htext : c_str (st._command.drop tok) = b1 ++ host ++ 32 :: (b2 ++ port ++ rest)) :
    cmd_connect env tok st =
      some (if env.tvipt_proto_connect st.trace host (to_uint16 (atoi port)) then CMD_IO
          else CMD_ERR,
        { st with
          _command := (st._command.set (tok + b1.length + host.length) 0).set
            (tok + b1.length + host.length + 1 + b2.length + port.length) 0
          trace := st.trace ++
            ([Event.tvipt_proto_connect host (to_uint16 (atoi port))
                (env.tvipt_proto_connect st.trace host (to_uint16 (atoi port)))] ++
              (if env.tvipt_proto_connect st.trace host (to_uint16 (atoi port)) then []
                else [Event.term_writeln (cstr "connection failed")])) }) ∧
    (∃ ws sign ds tail, port = ws ++ sign ++ ds.map (fun d => d + 48) ++ tail ∧
      (∀ c ∈ ws, isspace c = true) ∧ (sign = [] ∨ sign = [43] ∨ sign = [45]) ∧
      (∀ d ∈ ds, d < 10) ∧ (∀ c, tail.head? = some c → isdigit c = false) ∧
      (sign = [] → ds = [] →
        ∀ c, tail.head? = some c → isspace c = false ∧ c ≠ 43 ∧ c ≠ 45)) ∧
    (∀ ws sign ds tail, port = ws ++ sign ++ ds.map (fun d => d + 48) ++ tail →
      (∀ c ∈ ws, isspace c = true) → (sign = [] ∨ sign = [43] ∨ sign = [45]) →
      (∀ d ∈ ds, d < 10) → (∀ c, tail.head? = some c → isdigit c = false) →
      (sign = [] → ds = [] →
        ∀ c, tail.head? = some c → isspace c = false ∧ c ≠ 43 ∧ c ≠ 45) →
      to_uint16 (atoi port) =
        if ds = [] then 0
        else if sign = [45] then
          (65536 - min (Nat.ofDigits 10 ds.reverse) 2147483648 % 65536) % 65536
        else min (Nat.ofDigits 10 ds.reverse) 2147483647 % 65536) := by
  refine ⟨cmd_connect_tokens env st tok b1 b2 host port rest hb1 hb2 hh hhs hp hps hrest htext,
    token_shape port, ?_⟩
  intro ws sign ds tail hport hws hsign hds htail hmax
  rw [hport]
  exact port_of_token ws sign ds tail hws hsign hds htail hmax

/-- Witness for `cmd_connect_any_port`: the port token `4294967297x` saturates to
2147483647, which the cast reduces to 65535. -/
theorem cmd_connect_any_port_witness :
    cmd_connect (sample_env false false false 0) 0
        (state_with_command (cstr "example.org 4294967297x")) =
      some (CMD_ERR, { state_with_command (cstr "example.org 4294967297x") with
        _command := cstr "example.org" ++ [0] ++ cstr "4294967297x" ++ List.replicate 37 0
        trace := [Event.tvipt_proto_connect (cstr "example.org") 65535 false,
          Event.term_writeln (cstr "connection failed")] }) ∧
    to_uint16 (atoi (cstr "4294967297x")) =
      min (Nat.ofDigits 10 [4, 2, 9, 4, 9, 6, 7, 2, 9, 7].reverse) 2147483647 % 65536 := by
  have h := cmd_connect_any_port (sample_env false false false 0)
    (state_with_command (cstr "example.org 4294967297x")) 0 [] []
    (cstr "example.org") (cstr "4294967297x") [] (by simp) (by simp) (by decide) (by decide)
    (by decide) (by decide) (Or.inl rfl) (by decide)
  refine ⟨h.1.trans (by decide), ?_⟩
  exact h.2.2 [] [] [4, 2, 9, 4, 9, 6, 7, 2, 9, 7] (cstr "x") (by decide) (by simp)
    (Or.inl rfl) (by decide) (by decide) (by simp)

/-! ### The commands leave the static variables alone -/

theorem same_statics_refl (st : State) : same_statics st st := ⟨rfl, rfl, rfl, rfl⟩

theorem same_statics_trans {a b c : State} (h1 : same_statics a b) (h2 : same_statics b c) :
    same_statics a c :=
  ⟨h2.1.trans h1.1, h2.2.1.trans h1.2.1, h2.2.2.1.trans h1.2.2.1, h2.2.2.2.trans h1.2.2.2⟩

theorem same_statics_io (st : State) (input : List Nat) (tr : List Event) :
    same_statics st { st with term_in := input, trace := tr } := ⟨rfl, rfl, rfl, rfl⟩

theorem same_statics_command (st : State) (buf : List Nat) :
    same_statics st { st with _command := buf } := ⟨rfl, rfl, rfl, rfl⟩

theorem same_statics_emit (st : State) (e : Event) : same_statics st (emit st e) :=
  ⟨rfl, rfl, rfl, rfl⟩

theorem same_statics_term_read (st : State) : same_statics st (term_read st).2 := by
  unfold term_read
  cases st.term_in <;> simp [same_statics, emit]

theorem boot_join_statics (cfg : Config) (env : Env) (ssid pass : List Nat) (st : State) :
    same_statics st (boot_join cfg env ssid pass st).1 := by
  simp [same_statics, boot_join, term_write, term_writeln, term_print, emit]

theorem boot_connect_statics (cfg : Config) (env : Env) (st : State) :
    same_statics st (boot_connect cfg env st).2 := by
  unfold boot_connect
  split
  · split <;> simp [same_statics, term_write, term_writeln, term_print, emit]
  · exact same_statics_refl st

theorem cli_boot_statics (cfg : Config) (env : Env) (fuel : Nat) (st st' : State) (r : Bool)
    (h : cli_boot cfg env fuel st = some (r, st')) : same_statics st st' := by
  unfold cli_boot at h
  cases hs : cfg.DEFAULT_WIFI_SSID with
  | none =>
    simp [hs] at h
    rw [← h.2]
    exact same_statics_emit _ _
  | some ssid =>
    cases hp : cfg.DEFAULT_WIFI_PASSWORD with
    | none =>
      simp [hs, hp] at h
      rw [← h.2]
      exact same_statics_emit _ _
    | some pass =>
      simp only [hs, hp] at h
      cases hw : boot_wait env (boot_join cfg env ssid pass st).2 fuel
          (boot_join cfg env ssid pass st).1.trace with
      | none => simp [hw] at h
      | some tr =>
        simp only [hw] at h
        have hb := boot_connect_statics cfg env { (boot_join cfg env ssid pass st).1 with trace := tr }
        have hj : same_statics st { (boot_join cfg env ssid pass st).1 with trace := tr } :=
          same_statics_trans (boot_join_statics cfg env ssid pass st)
            (same_statics_io _ (boot_join cfg env ssid pass st).1.term_in tr)
        have hjb := same_statics_trans hj hb
        split at h
        · simp only [Option.some.injEq, Prod.mk.injEq] at h
          rw [← h.2]
          exact same_statics_trans hjb (same_statics_emit _ _)
        · simp only [Option.some.injEq, Prod.mk.injEq] at h
          rw [← h.2]
          exact hjb

theorem cmd_boot_statics (cfg : Config) (env : Env) (fuel : Nat) (tok : Nat)
    (st st' : State) (status : command_status)
    (h : cmd_boot cfg env fuel tok st = some (status, st')) : same_statics st st' := by
  unfold cmd_boot at h
  split at h
  · simp at h
  · rename_i r s hb
    simp only [Option.some.injEq, Prod.mk.injEq] at h
    rw [← h.2]
    exact cli_boot_statics cfg env fuel st s r hb

theorem cmd_connect_statics (env : Env) (tok : Nat) (st st' : State)
    (status : command_status) (h : cmd_connect env tok st = some (status, st')) :
    same_statics st st' := by
  unfold cmd_connect at h
  dsimp only at h
  split at h
  · simp only [Option.some.injEq, Prod.mk.injEq] at h
    rw [← h.2]; simp [same_statics, term_writeln, emit]
  · split at h
    · simp only [Option.some.injEq, Prod.mk.injEq] at h
      rw [← h.2]; simp [same_statics, term_writeln, emit]
    · split at h <;> simp only [Option.some.injEq, Prod.mk.injEq] at h <;> rw [← h.2] <;>
        simp [same_statics, term_writeln, emit]

theorem cmd_tcp_connect_statics (env : Env) (tok : Nat) (st st' : State)
    (status : command_status) (h : cmd_tcp_connect env tok st = some (status, st')) :
    same_statics st st' := by
  unfold cmd_tcp_connect at h
  dsimp only at h
  split at h
  · simp only [Option.some.injEq, Prod.mk.injEq] at h
    rw [← h.2]; simp [same_statics, term_writeln, emit]
  · split at h
    · simp only [Option.some.injEq, Prod.mk.injEq] at h
      rw [← h.2]; simp [same_statics, term_writeln, emit]
    · split at h <;> simp only [Option.some.injEq, Prod.mk.injEq] at h <;> rw [← h.2] <;>
        simp [same_statics, term_writeln, emit]

theorem chars_row_statics (alt : Bool) (c : Nat) :
    ∀ (n col : Nat) (st st' : State), chars_row alt c n col st = some st' →
      same_statics st st' := by
  intro n
  induction n with
  | zero =>
    intro col st st' h
    simp only [chars_row, Option.some.injEq] at h
    rw [← h]; exact same_statics_refl st
  | succ n ih =>
    intro col st st' h
    rw [chars_row] at h
    have hr := same_statics_term_read st
    split at h
    · simp at h
    · rename_i s hflow
      have hs : same_statics st s := by
        split at hflow
        · split at hflow
          · simp at hflow
          · simp only [Option.some.injEq] at hflow
            rw [← hflow]
            exact same_statics_trans hr (same_statics_io _ _ _)
        · simp only [Option.some.injEq] at hflow
          rw [← hflow]; exact hr
      by_cases hgt : (c + col * 12) % 256 > LAST_PRINTABLE
      · simp only [hgt, if_true, Option.some.injEq] at h
        rw [← h]; exact hs
      · simp only [hgt, if_false] at h
        refine same_statics_trans hs (same_statics_trans ?_ (ih _ _ _ h))
        cases alt <;> simp [same_statics, term_write, term_write_char, term_print, emit]

theorem chars_rows_statics (alt : Bool) :
    ∀ (n c : Nat) (st st' : State), chars_rows alt n c st = some st' → same_statics st st' := by
  intro n
  induction n with
  | zero => intro c st st' h; simp [chars_rows] at h
  | succ n ih =>
    intro c st st' h
    rw [chars_rows] at h
    split at h
    · split at h
      · simp at h
      · rename_i s hrow
        exact same_statics_trans (chars_row_statics alt c 8 0 st s hrow)
          (same_statics_trans (same_statics_emit _ _) (ih _ _ _ h))
    · simp only [Option.some.injEq] at h
      rw [← h]; exact same_statics_refl st

theorem cmd_chars_statics (tok : Nat) (st st' : State) (status : command_status)
    (h : cmd_chars tok st = some (status, st')) : same_statics st st' := by
  unfold cmd_chars at h
  dsimp only at h
  split at h
  · split at h
    · simp only [Option.map_eq_some', Prod.mk.injEq] at h
      obtain ⟨s, hs, -, rfl⟩ := h
      exact same_statics_trans (same_statics_command _ _) (chars_rows_statics _ _ _ _ _ hs)
    · simp only [Option.some.injEq, Prod.mk.injEq] at h
      rw [← h.2]; simp [same_statics, term_write, term_writeln, emit]
  · simp only [Option.map_eq_some', Prod.mk.injEq] at h
    obtain ⟨s, hs, -, rfl⟩ := h
    exact same_statics_trans (same_statics_command _ _) (chars_rows_statics _ _ _ _ _ hs)

theorem echo_loop_statics (dbg : Bool) :
    ∀ (fuel : Nat) (st st' : State) (status : command_status),
      echo_loop dbg fuel st = some (status, st') → same_statics st st' := by
  intro fuel
  induction fuel with
  | zero => intro st st' status h; simp [echo_loop] at h
  | succ n ih =>
    intro st st' status h
    rw [echo_loop] at h
    have hr := same_statics_term_read st
    split at h
    · simp only [Option.some.injEq, Prod.mk.injEq] at h
      rw [← h.2]; exact hr
    · split at h
      · split at h
        · exact same_statics_trans hr (same_statics_trans (same_statics_emit _ _) (ih _ _ _ h))
        · exact same_statics_trans hr (same_statics_trans (same_statics_emit _ _) (ih _ _ _ h))
      · exact same_statics_trans hr (ih _ _ _ h)

theorem cmd_echo_statics (env : Env) (fuel : Nat) (tok : Nat) (st st' : State)
    (status : command_status) (h : cmd_echo env fuel tok st = some (status, st')) :
    same_statics st st' := by
  unfold cmd_echo at h
  dsimp only at h
  split at h
  · split at h
    · exact same_statics_trans
        (same_statics_trans (same_statics_command _ _) (same_statics_emit _ _))
        (echo_loop_statics _ _ _ _ _ h)
    · simp only [Option.some.injEq, Prod.mk.injEq] at h
      rw [← h.2]; simp [same_statics, term_write, term_writeln, emit]
  · exact same_statics_trans
      (same_statics_trans (same_statics_command _ _) (same_statics_emit _ _))
      (echo_loop_statics _ _ _ _ _ h)

theorem foldl_statics {α : Type} (f : State → α → State) (hf : ∀ s x, same_statics s (f s x)) :
    ∀ (l : List α) (st : State), same_statics st (l.foldl f st) := by
  intro l
  induction l with
  | nil => intro st; exact same_statics_refl st
  | cons x l ih => intro st; exact same_statics_trans (hf st x) (ih _)

theorem cmd_help_statics (tok : Nat) (st st' : State) (status : command_status)
    (h : cmd_help tok st = some (status, st')) : same_statics st st' := by
  simp only [cmd_help, Option.some.injEq, Prod.mk.injEq] at h
  rw [← h.2]
  apply foldl_statics
  intro s row
  refine same_statics_trans (same_statics_trans (same_statics_emit s _) (foldl_statics _ ?_ _ _))
    (same_statics_trans (same_statics_emit _ _) (same_statics_emit _ _))
  intro s' _
  exact same_statics_emit _ _

theorem print_time_statics (st : State) (t : Nat) : same_statics st (print_time st t) := by
  simp [same_statics, print_time, term_write, term_print, emit]

theorem cmd_info_statics (env : Env) (tok : Nat) (st st' : State) (status : command_status)
    (h : cmd_info env tok st = some (status, st')) : same_statics st st' := by
  simp only [cmd_info, Option.some.injEq, Prod.mk.injEq] at h
  rw [← h.2]
  have hp := print_time_statics (term_write st (cstr "uptime: ")) st._uptime
  have h0 : same_statics st (print_time (term_write st (cstr "uptime: ")) st._uptime) :=
    same_statics_trans (same_statics_emit _ _) hp
  refine same_statics_trans h0 ?_
  simp [same_statics, term_write, term_writeln, term_print, emit]

theorem cmd_keyboard_test_statics (env : Env) (tok : Nat) (st st' : State)
    (status : command_status) (h : cmd_keyboard_test env tok st = some (status, st')) :
    same_statics st st' := by
  unfold cmd_keyboard_test at h
  dsimp only at h
  split at h <;> simp only [Option.some.injEq, Prod.mk.injEq] at h <;> rw [← h.2] <;>
    simp [same_statics, term_writeln, emit]

theorem term_readln_statics (env : Env) (max : Nat) (echo : readln_echo) (st st' : State)
    (line : List Nat) (h : term_readln env max echo st = some (line, st')) :
    same_statics st st' := by
  unfold term_readln at h
  split at h
  · simp at h
  · simp only [Option.some.injEq, Prod.mk.injEq] at h
    rw [← h.2]
    exact same_statics_io _ _ _

theorem cmd_wifi_join_statics (env : Env) (tok : Nat) (st st' : State)
    (status : command_status) (h : cmd_wifi_join env tok st = some (status, st')) :
    same_statics st st' := by
  unfold cmd_wifi_join at h
  dsimp only at h
  split at h
  · simp at h
  · rename_i ssid s1 h1
    have hs1 := same_statics_trans (same_statics_emit st _) (term_readln_statics _ _ _ _ _ _ h1)
    split at h
    · simp only [Option.some.injEq, Prod.mk.injEq] at h
      rw [← h.2]; exact same_statics_trans hs1 (same_statics_emit _ _)
    · split at h
      · simp at h
      · rename_i pass s2 h2
        simp only [Option.some.injEq, Prod.mk.injEq] at h
        rw [← h.2]
        exact same_statics_trans hs1 (same_statics_trans
          (same_statics_trans (same_statics_emit _ _) (same_statics_emit _ _))
          (same_statics_trans (term_readln_statics _ _ _ _ _ _ h2)
            (same_statics_trans (same_statics_emit _ _) (same_statics_emit _ _))))

theorem print_wifi_network_statics (st : State) (net : wifi_network) :
    same_statics st (print_wifi_network st net) := by
  simp [same_statics, print_wifi_network, term_write, term_writeln, term_print, emit]

theorem cmd_wifi_scan_statics (env : Env) (tok : Nat) (st st' : State)
    (status : command_status) (h : cmd_wifi_scan env tok st = some (status, st')) :
    same_statics st st' := by
  unfold cmd_wifi_scan at h
  dsimp only at h
  have h0 := foldl_statics print_wifi_network print_wifi_network_statics
    (env.wifi_scan st.trace).1 st
  split at h <;> simp only [Option.some.injEq, Prod.mk.injEq] at h <;> rw [← h.2]
  · exact same_statics_trans h0 (same_statics_trans (same_statics_emit _ _) (same_statics_emit _ _))
  · exact same_statics_trans h0 (same_statics_trans (same_statics_emit _ _)
      (same_statics_trans (same_statics_emit _ _) (same_statics_emit _ _)))

theorem cmd_weather_statics (env : Env) (tok : Nat) (st st' : State)
    (status : command_status) (h : cmd_weather env tok st = some (status, st')) :
    same_statics st st' := by
  unfold cmd_weather at h
  dsimp only at h
  split at h
  · simp at h
  · rename_i zip s1 h1
    have hs1 := same_statics_trans (same_statics_emit st _) (term_readln_statics _ _ _ _ _ _ h1)
    split at h <;> simp only [Option.some.injEq, Prod.mk.injEq] at h <;> rw [← h.2]
    · exact same_statics_trans hs1 (same_statics_emit _ _)
    · exact same_statics_trans hs1 (same_statics_trans (same_statics_emit _ _)
        (same_statics_emit _ _))

theorem dispatch_statics (cfg : Config) (env : Env) (fuel : Nat) (name : List Nat) (tok : Nat)
    (st st' : State) (status : command_status) :
    ∀ cs : List command,
      (∀ c ∈ cs, ∀ s', ∀ r, c.func cfg env fuel tok st = some (r, s') → same_statics st s') →
      dispatch cfg env fuel name tok st cs = some (status, st') → same_statics st st' := by
  intro cs
  induction cs with
  | nil =>
    intro _ h
    simp only [dispatch, Option.some.injEq, Prod.mk.injEq] at h
    rw [← h.2]; exact same_statics_refl st
  | cons c cs ih =>
    intro hall h
    rw [dispatch] at h
    split at h
    · exact hall c (by simp) _ _ h
    · exact ih (fun c' hc' => hall c' (by simp [hc'])) h

theorem _commands_statics (cfg : Config) (env : Env) (fuel : Nat) (tok : Nat) (st : State) :
    ∀ c ∈ _commands, ∀ s', ∀ r, c.func cfg env fuel tok st = some (r, s') →
      same_statics st s' := by
  intro c hc s' r h
  simp only [_commands, List.mem_cons, List.mem_singleton, List.not_mem_nil, or_false] at hc
  rcases hc with rfl | rfl | rfl | rfl | rfl | rfl | rfl | rfl | rfl | rfl | rfl | rfl
  · exact cmd_boot_statics cfg env fuel tok _ _ _ h
  · exact cmd_connect_statics env tok _ _ _ h
  · exact cmd_chars_statics tok _ _ _ h
  · exact cmd_echo_statics env fuel tok _ _ _ h
  · exact cmd_help_statics tok _ _ _ h
  · exact cmd_info_statics env tok _ _ _ h
  · exact cmd_wifi_join_statics env tok _ _ _ h
  · exact cmd_keyboard_test_statics env tok _ _ _ h
  · simp [cmd_reset] at h
  · exact cmd_wifi_scan_statics env tok _ _ _ h
  · exact cmd_tcp_connect_statics env tok _ _ _ h
  · exact cmd_weather_statics env tok _ _ _ h

theorem process_command_statics (cfg : Config) (env : Env) (fuel : Nat) (st st' : State)
    (status : command_status) (h : process_command cfg env fuel st = some (status, st')) :
    same_statics st st' := by
  unfold process_command at h
  dsimp only at h
  have key : ∀ ran : Option (command_status × State),
      (∀ r s, ran = some (r, s) → same_statics st s) →
      (match ran with
        | none => none
        | some (CMD_OK, st) => some (CMD_OK, term_flush (term_writeln st (cstr "= ok")))
        | some (CMD_ERR, st) => some (CMD_ERR, term_flush (term_writeln st (cstr "= err")))
        | some (status, st) => some (status, st)) = some (status, st') →
      same_statics st st' := by
    intro ran hran hm
    split at hm
    · simp at hm
    · simp only [Option.some.injEq, Prod.mk.injEq] at hm
      rw [← hm.2]
      exact same_statics_trans (hran _ _ rfl)
        (same_statics_trans (same_statics_emit _ _) (same_statics_emit _ _))
    · simp only [Option.some.injEq, Prod.mk.injEq] at hm
      rw [← hm.2]
      exact same_statics_trans (hran _ _ rfl)
        (same_statics_trans (same_statics_emit _ _) (same_statics_emit _ _))
    · simp only [Option.some.injEq, Prod.mk.injEq] at hm
      rw [← hm.2]
      exact hran _ _ rfl
  refine key _ ?_ h
  intro r s hr
  split at hr
  · simp only [Option.some.injEq, Prod.mk.injEq] at hr
    rw [← hr.2]; exact same_statics_command _ _
  · split at hr
    · simp at hr
    · split at hr
      · simp at hr
      · rename_i status1 s1 hd
        have hs1 := same_statics_trans (same_statics_command st _)
          (dispatch_statics cfg env fuel _ _ _ s1 status1 _commands
            (_commands_statics cfg env fuel _ _) hd)
        split at hr <;> simp only [Option.some.injEq, Prod.mk.injEq] at hr <;> rw [← hr.2]
        · exact same_statics_trans hs1
            (same_statics_trans (same_statics_emit _ _) (same_statics_emit _ _))
        · exact hs1

/-! ### `_handling_io` is written by `cli_loop` only -/

@[simp] theorem emit_hio (st : State) (e : Event) : (emit st e)._handling_io = st._handling_io := rfl

@[simp] theorem term_write_hio (st : State) (v : List Nat) :
    (term_write st v)._handling_io = st._handling_io := rfl

@[simp] theorem term_write_char_hio (st : State) (c : Nat) :
    (term_write_char st c)._handling_io = st._handling_io := rfl

@[simp] theorem term_writeln_hio (st : State) (v : List Nat) :
    (term_writeln st v)._handling_io = st._handling_io := rfl

@[simp] theorem print_prompt_hio (st : State) : (print_prompt st)._handling_io = st._handling_io :=
  rfl

@[simp] theorem term_available_hio (st : State) :
    (term_available st).2._handling_io = st._handling_io := rfl

@[simp] theorem term_read_hio (st : State) : (term_read st).2._handling_io = st._handling_io :=
  (same_statics_term_read st).2.2.1

@[simp] theorem store_command_hio (st : State) (i v : Nat) :
    (store_command st i v)._handling_io = st._handling_io := rfl

@[simp] theorem clear_command_hio (st : State) :
    (clear_command st)._handling_io = st._handling_io := rfl

theorem input_step_hio (cfg : Config) (env : Env) (fuel : Nat) (st st' : State)
    (h : input_step cfg env fuel st = some st') : st'._handling_io = st._handling_io := by
  unfold input_step at h
  dsimp only at h
  by_cases h8 : to_uint8 (term_read st).1 = 8
  · simp only [h8, if_true] at h
    by_cases hi : (term_read st).2._command_index > 0
    · simp only [hi, if_true, Option.some.injEq] at h
      rw [← h]
      cases env.ECHO <;> simp
    · simp only [hi, if_false, Option.some.injEq] at h
      rw [← h]; simp
  · simp only [h8, if_false] at h
    generalize hst1 : (if env.ECHO = true then
      term_write_char (term_read st).2 (to_uint8 (term_read st).1) else (term_read st).2) = st1 at h
    have h1 : st1._handling_io = st._handling_io := by
      rw [← hst1]
      cases env.ECHO <;> simp
    by_cases hc : to_uint8 (term_read st).1 ≠ 13 ∧ to_uint8 (term_read st).1 ≠ 10 ∧
        st1._command_index < 60
    · rw [if_pos hc] at h
      simp only [Option.some.injEq] at h
      rw [← h]
      simpa using h1
    · rw [if_neg hc] at h
      split at h
      · simp at h
      · rename_i prompt s hran
        have hs : s._handling_io = st._handling_io := by
          split at hran
          · split at hran
            · simp at hran
            · rename_i status s1 hp
              simp only [Option.some.injEq, Prod.mk.injEq] at hran
              rw [← hran.2, (process_command_statics _ _ _ _ _ _ hp).2.2.1]
              simpa using h1
          · simp only [Option.some.injEq, Prod.mk.injEq] at hran
            rw [← hran.2]
            simpa using h1
        simp only [Option.some.injEq] at h
        rw [← h]
        cases prompt <;> simp [hs]

theorem input_loop_hio (cfg : Config) (env : Env) :
    ∀ (fuel : Nat) (st st' : State), input_loop cfg env fuel st = some st' →
      st'._handling_io = st._handling_io := by
  intro fuel
  induction fuel with
  | zero =>
    intro st st' h
    rw [input_loop] at h
    split at h
    · simp at h
    · simp only [Option.some.injEq] at h
      rw [← h]; simp
  | succ n ih =>
    intro st st' h
    rw [input_loop] at h
    split at h
    · split at h
      · simp at h
      · rename_i s hstep
        rw [ih _ _ h, input_step_hio _ _ _ _ _ hstep]
        simp
    · simp only [Option.some.injEq] at h
      rw [← h]; simp

/-- C8. Ticks of `cli_loop` around the end of an IO-capturing command. (1) A tick at which
`wifi_has_loop_callback()` answers true returns with `_handling_io` set. (2) A tick at which
it answers false and that finds `_handling_io` set clears the flag, makes the one call
`term_write("> ")` of `print_prompt` while the waiting terminal input and the command
buffer are still untouched, and then runs the input loop, which parses what is waiting.
(3) A tick at which it answers false and that finds the flag clear runs the input loop
without printing that prompt. (4) Every tick at which it answers false returns with the
flag clear, so that (3) holds for all later ticks up to the next true one. (5) Before the
callback is queried a tick has made two `millis()` calls and nothing else. -/
theorem cli_loop_resumes_parsing (cfg : Config) (env : Env) (fuel : Nat) :
    (∀ st, env.wifi_has_loop_callback (uptime_update env st).trace = true →
      ∃ st', cli_loop cfg env fuel st = some st' ∧ st'._handling_io = true ∧
        st'.term_in = st.term_in) ∧
    (∀ st, st._handling_io = true →
      env.wifi_has_loop_callback (uptime_update env st).trace = false →
      ∃ s, cli_loop cfg env fuel st = input_loop cfg env fuel s ∧
        s.term_in = st.term_in ∧ s._command = st._command ∧
        s._command_index = st._command_index ∧ s._handling_io = false ∧
        s.trace = (uptime_update env st).trace ++ [Event.wifi_has_loop_callback false, prompt]) ∧
    (∀ st, st._handling_io = false →
      env.wifi_has_loop_callback (uptime_update env st).trace = false →
      ∃ s, cli_loop cfg env fuel st = input_loop cfg env fuel s ∧
        s.term_in = st.term_in ∧ s._command = st._command ∧
        s._command_index = st._command_index ∧ s._handling_io = false ∧
        s.trace = (uptime_update env st).trace ++ [Event.wifi_has_loop_callback false]) ∧
    (∀ st st', env.wifi_has_loop_callback (uptime_update env st).trace = false →
      cli_loop cfg env fuel st = some st' → st'._handling_io = false) ∧
    (∀ st, ∃ now m, (uptime_update env st).trace = st.trace ++ [Event.millis now, Event.millis m]) := by
  have h2 : ∀ st, st._handling_io = true →
      env.wifi_has_loop_callback (uptime_update env st).trace = false →
      ∃ s, cli_loop cfg env fuel st = input_loop cfg env fuel s ∧
        s.term_in = st.term_in ∧ s._command = st._command ∧
        s._command_index = st._command_index ∧ s._handling_io = false ∧
        s.trace = (uptime_update env st).trace ++
          [Event.wifi_has_loop_callback false, prompt] := by
    intro st hio hcb
    refine ⟨print_prompt { emit (uptime_update env st) (Event.wifi_has_loop_callback false) with
      _handling_io := false }, ?_, rfl, rfl, rfl, rfl, ?_⟩
    · have hio' : (uptime_update env st)._handling_io = true := hio
      simp [cli_loop, hcb, emit, hio']
    · simp [print_prompt, term_write, emit, prompt]
  have h3 : ∀ st, st._handling_io = false →
      env.wifi_has_loop_callback (uptime_update env st).trace = false →
      ∃ s, cli_loop cfg env fuel st = input_loop cfg env fuel s ∧
        s.term_in = st.term_in ∧ s._command = st._command ∧
        s._command_index = st._command_index ∧ s._handling_io = false ∧
        s.trace = (uptime_update env st).trace ++ [Event.wifi_has_loop_callback false] := by
    intro st hio hcb
    refine ⟨emit (uptime_update env st) (Event.wifi_has_loop_callback false), ?_, rfl, rfl, rfl,
      hio, rfl⟩
    have hio' : (uptime_update env st)._handling_io = false := hio
    simp [cli_loop, hcb, emit, hio']
  refine ⟨?_, h2, h3, ?_, ?_⟩
  · intro st hcb
    exact ⟨{ emit (uptime_update env st) (Event.wifi_has_loop_callback true) with
      _handling_io := true }, by simp [cli_loop, hcb], rfl, rfl⟩
  · intro st st' hcb h
    cases hio : st._handling_io
    · obtain ⟨s, hs, -, -, -, hf, -⟩ := h3 st hio hcb
      rw [hs] at h
      rw [input_loop_hio cfg env fuel s st' h, hf]
    · obtain ⟨s, hs, -, -, -, hf, -⟩ := h2 st hio hcb
      rw [hs] at h
      rw [input_loop_hio cfg env fuel s st' h, hf]
  · intro st
    exact ⟨env.millis st.trace % 4294967296,
      env.millis (st.trace ++ [Event.millis (env.millis st.trace % 4294967296)]) % 4294967296,
      by simp [uptime_update, emit]⟩

theorem cli_loop_resumes_parsing_witness :
    cli_loop config_h (session_env 3) 2 (init_state []) = some tick1_state ∧
    tick1_state._handling_io = true ∧
    cli_loop config_h (session_env 3) 2 { tick1_state with term_in := [13] } = some tick2_state ∧
    tick2_state._handling_io = false ∧
    (∃ s, cli_loop config_h (session_env 3) 2 tick2_state =
        input_loop config_h (session_env 3) 2 s ∧
      s.trace = tick2_state.trace ++
        [Event.millis 1016, Event.millis 1017, Event.wifi_has_loop_callback false]) := by
  have h := cli_loop_resumes_parsing config_h (session_env 3) 2
  have e1 : cli_loop config_h (session_env 3) 2 (init_state []) = some tick1_state := by decide
  have e2 : cli_loop config_h (session_env 3) 2 { tick1_state with term_in := [13] } =
      some tick2_state := by decide
  refine ⟨e1, ?_, e2, h.2.2.2.1 _ _ (by decide) e2, ?_⟩
  · obtain ⟨st', he, hio, _⟩ := h.1 (init_state []) (by decide)
    rw [e1] at he
    cases he
    exact hio
  · obtain ⟨s, hs, _, _, _, _, ht⟩ := h.2.2.1 tick2_state rfl (by decide)
    exact ⟨s, hs, ht.trans (by decide)⟩

/-! ### `cmd_echo` -/

/-- C10 (as the code has it). With no argument `cmd_echo` never assigns `dbg_target`: the
target is whatever the variable's storage holds. When that is a nonzero byte, the
character `A` typed after `echo` is written to the debug serial port and not to the
terminal; the break that follows ends the command with `CMD_OK`. So it is when the line
`echo` is run by `process_command`. -/
theorem cmd_echo_uninitialized_target :
    (∀ env fuel st tok, (∀ c ∈ c_str (st._command.drop tok), c = 32) →
      cmd_echo env fuel tok st =
        echo_loop (env.dbg_target_garbage st.trace) fuel
          (term_writeln st (cstr "send break to quit"))) ∧
    cmd_echo (sample_env false false true 0) 5 0 (init_state [65, 0, 66]) =
      some (CMD_OK, { init_state [66] with
        trace := [Event.term_writeln (cstr "send break to quit"), Event.term_read 65,
          Event.dbg_serial_write 65, Event.term_read 0] }) ∧
    cmd_echo (sample_env false false false 0) 5 0 (init_state [65, 0, 66]) =
      some (CMD_OK, { init_state [66] with
        trace := [Event.term_writeln (cstr "send break to quit"), Event.term_read 65,
          Event.term_write_char 65, Event.term_read 0] }) ∧
    process_command config_h (sample_env false false true 0) 5
        { state_with_command (cstr "echo") with term_in := [65, 0, 66] } =
      some (CMD_OK, { state_with_command (cstr "echo") with
        term_in := [66]
        trace := [Event.term_writeln (cstr "send break to quit"), Event.term_read 65,
          Event.dbg_serial_write 65, Event.term_read 0, Event.term_writeln (cstr "= ok"),
          Event.term_flush] }) := by
  refine ⟨?_, by decide, by decide, by decide⟩
  intro env fuel st tok h
  simp only [cmd_echo, strtok_r_blank st._command tok _ rfl h]

/-! ### Frame codec -/

theorem apply_length_le (data ks : List Nat) : (apply data ks).length ≤ data.length := by
  simp [apply, List.length_zipWith]

theorem apply_length (data ks : List Nat) (h : data.length ≤ ks.length) :
    (apply data ks).length = data.length := by
  simp [apply, List.length_zipWith, h]

theorem apply_apply (data : List Nat) :
    ∀ ks : List Nat, data.length ≤ ks.length → apply (apply data ks) ks = data := by
  induction data with
  | nil => intro ks _; simp [apply]
  | cons d data ih =>
    intro ks h
    cases ks with
    | nil => simp at h
    | cons k ks =>
      have := ih ks (by simpa using h)
      simp only [apply] at this ⊢
      simp [List.zipWith_cons_cons, this, Nat.xor_cancel_right]

theorem feed_loop_nil (codec : Codec) (fuel : Nat) (rx : CipherState) :
    feed_loop codec fuel rx [] = .ok ([], ⟨rx, []⟩) := by
  cases fuel <;> simp [feed_loop]

theorem feed_loop_partial (codec : Codec) (fuel : Nat) (rx : CipherState)
    (buf more body : List Nat) (hi lo : Nat) (hframe : buf ++ more = hi :: lo :: body)
    (hmore : more ≠ []) (hlen : hi * 256 + lo = body.length)
    (hmax : body.length ≤ codec.max_frame) :
    feed_loop codec fuel rx buf = .ok ([], ⟨rx, buf⟩) := by
  cases fuel with
  | zero => simp [feed_loop]
  | succ n =>
    match buf, hframe with
    | [], _ => simp [feed_loop]
    | [a], _ => simp [feed_loop]
    | a :: b :: rest, hframe =>
      simp only [List.cons_append, List.cons.injEq] at hframe
      obtain ⟨rfl, rfl, hrest⟩ := hframe
      have h1 : rest.length < body.length := by
        rw [← hrest, List.length_append]
        have : 0 < more.length := List.length_pos.mpr hmore
        omega
      have h2 : ¬ a * 256 + b > codec.max_frame := by omega
      have h3 : rest.length < a * 256 + b := by omega
      simp [feed_loop, h2, h3]

theorem feed_loop_frame (codec : Codec) (fuel : Nat) (rx : CipherState)
    (body : List Nat) (hi lo : Nat) (hlen : hi * 256 + lo = body.length)
    (hmax : body.length ≤ codec.max_frame) :
    feed_loop codec (fuel + 1) rx (hi :: lo :: body) =
      .ok ([apply body (codec.keystream rx.key rx.nonce rx.counter body.length)],
        ⟨{ rx with counter := rx.counter + body.length }, []⟩) := by
  simp only [feed_loop, hlen]
  rw [if_neg (by omega), if_neg (by omega)]
  simp only [List.drop_length, List.take_length, feed_loop_nil]

theorem feed_all_empty (codec : Codec) :
    ∀ (chunks : List (List Nat)) (rx : CipherState), chunks.flatten = [] →
      feed_all codec ⟨rx, []⟩ chunks = .ok ([], ⟨rx, []⟩) := by
  intro chunks
  induction chunks with
  | nil => intro rx _; rfl
  | cons c cs ih =>
    intro rx h
    simp only [List.flatten_cons, List.append_eq_nil] at h
    obtain ⟨rfl, hcs⟩ := h
    simp [feed_all, feed, feed_loop_nil, ih rx hcs]

theorem feed_all_frame (codec : Codec) (rx : CipherState) (body : List Nat) (hi lo : Nat)
    (hlen : hi * 256 + lo = body.length) (hmax : body.length ≤ codec.max_frame) :
    ∀ (chunks : List (List Nat)) (staged : List Nat),
      staged ++ chunks.flatten = hi :: lo :: body → staged.length < body.length + 2 →
      ∃ payloads, feed_all codec ⟨rx, staged⟩ chunks =
          .ok (payloads, ⟨{ rx with counter := rx.counter + body.length }, []⟩) ∧
        payloads.flatten = apply body (codec.keystream rx.key rx.nonce rx.counter body.length) := by
  intro chunks
  induction chunks with
  | nil =>
    intro staged h hl
    simp only [List.flatten_nil, List.append_nil] at h
    rw [h] at hl
    simp at hl
  | cons c cs ih =>
    intro staged h hl
    simp only [List.flatten_cons, ← List.append_assoc] at h
    by_cases hcs : cs.flatten = []
    · rw [hcs, List.append_nil] at h
      have hpos : ∃ n, (staged ++ c).length = n + 1 := ⟨body.length + 1, by rw [h]; simp⟩
      obtain ⟨n, hn⟩ := hpos
      refine ⟨[apply body (codec.keystream rx.key rx.nonce rx.counter body.length)], ?_, by simp⟩
      simp only [feed_all, feed, hn]
      rw [h, feed_loop_frame codec n rx body hi lo hlen hmax]
      simp only [feed_all_empty codec cs _ hcs, List.append_nil]
    · have hpart := feed_loop_partial codec (staged ++ c).length rx (staged ++ c) cs.flatten body
        hi lo h hcs hlen hmax
      have hl' : (staged ++ c).length < body.length + 2 := by
        have h1 : (staged ++ c).length + cs.flatten.length = body.length + 2 := by
          rw [← List.length_append, h]; simp
        have : 0 < cs.flatten.length := List.length_pos.mpr hcs
        omega
      obtain ⟨payloads, hp, hj⟩ := ih (staged ++ c) h hl'
      refine ⟨payloads, ?_, hj⟩
      simp only [feed_all, feed, hpart, hp, List.nil_append]

theorem feed_loop_output_bound (codec : Codec) :
    ∀ (fuel : Nat) (rx : CipherState) (buf : List Nat) (payloads : List (List Nat))
      (s : RxState), feed_loop codec fuel rx buf = .ok (payloads, s) →
      payloads.flatten.length + 2 * payloads.length ≤ buf.length := by
  intro fuel
  induction fuel with
  | zero =>
    intro rx buf payloads s h
    simp only [feed_loop, Except.ok.injEq, Prod.mk.injEq] at h
    rw [← h.1]; simp
  | succ n ih =>
    intro rx buf payloads s h
    match buf, h with
    | [], h =>
      simp only [feed_loop, Except.ok.injEq, Prod.mk.injEq] at h
      rw [← h.1]; simp
    | [a], h =>
      simp only [feed_loop, Except.ok.injEq, Prod.mk.injEq] at h
      rw [← h.1]; simp
    | hi :: lo :: rest, h =>
      simp only [feed_loop] at h
      split at h
      · simp at h
      · split at h
        · simp only [Except.ok.injEq, Prod.mk.injEq] at h
          rw [← h.1]; simp
        · rename_i hlt
          split at h
          · simp at h
          · rename_i ps s' hrec
            simp only [Except.ok.injEq, Prod.mk.injEq] at h
            have hb := ih _ _ _ _ hrec
            have hp := apply_length_le (rest.take (hi * 256 + lo))
              (codec.keystream rx.key rx.nonce rx.counter (hi * 256 + lo))
            rw [← h.1]
            simp only [List.flatten_cons, List.length_append, List.length_cons,
              List.length_drop, List.length_take] at hb hp ⊢
            omega

theorem feed_oversized (codec : Codec) (tx : CipherState) (P : List Nat)
    (hmax : codec.max_frame < P.length) (h16 : P.length < 65536) :
    feed_all codec ⟨tx, []⟩ [(encode codec tx P).1] = .error ProtocolError.frame_too_large := by
  have hv : P.length / 256 % 256 * 256 + P.length % 256 = P.length := by omega
  simp only [feed_all, feed, encode, List.nil_append, List.cons_append, List.length_cons,
    feed_loop, hv]
  rw [if_pos hmax]

theorem feed_loop_zero_length (codec : Codec) (n : Nat) (rx : CipherState) (body : List Nat) :
    feed_loop codec (n + 1) rx (0 :: 0 :: body) =
      match feed_loop codec n rx body with
      | .error e => .error e
      | .ok (payloads, s) => .ok ([] :: payloads, s) := by
  rw [feed_loop]
  simp [apply]

theorem feed_wrapped_prefix (codec : Codec) (tx : CipherState) (P : List Nat)
    (hP : P.length = 65536) (payloads : List (List Nat)) (rx' : RxState)
    (hfeed : feed_all codec ⟨tx, []⟩ [(encode codec tx P).1] = .ok (payloads, rx')) :
    payloads.flatten ≠ P := by
  intro hflat
  have hfr : (encode codec tx P).1 =
      0 :: 0 :: apply P (codec.keystream tx.key tx.nonce tx.counter 65536) := by
    simp [encode, hP]
  rw [hfr] at hfeed
  simp only [feed_all, feed, List.nil_append, List.length_cons] at hfeed
  rw [feed_loop_zero_length] at hfeed
  cases hrec : feed_loop codec
      ((apply P (codec.keystream tx.key tx.nonce tx.counter 65536)).length + 1) tx
      (apply P (codec.keystream tx.key tx.nonce tx.counter 65536)) with
  | error e => simp [hrec] at hfeed
  | ok r =>
    obtain ⟨ps, s'⟩ := r
    simp only [hrec, List.append_nil, Except.ok.injEq, Prod.mk.injEq] at hfeed
    have hb := feed_loop_output_bound codec _ _ _ _ _ hrec
    have hal := apply_length_le P (codec.keystream tx.key tx.nonce tx.counter 65536)
    rw [hP] at hal
    have hps : payloads.flatten = ps.flatten := by
      rw [← hfeed.1]
      simp
    rw [hps] at hflat
    have hl : ps.flatten.length = 65536 := by rw [hflat, hP]
    have hz : ps.length = 0 := by omega
    have : ps = [] := List.length_eq_zero.mp hz
    rw [this] at hl
    simp at hl

/-- C7 (as the model has it). The round trip does not hold for plaintexts of arbitrary
length, whatever the codec is configured with: the 65536-byte plaintext has the 16-bit
length prefix 0, and what comes out of its encoding fed in one chunk is not that
plaintext. And with a maximum frame size of 1024, feeding the encoding of a 1025-byte
plaintext fails with `ProtocolError`. -/
theorem frame_round_trip_unbounded_fails :
    (¬ ∃ codec : Codec, ∀ (tx : CipherState) (P : List Nat) (chunks : List (List Nat)),
      chunks.flatten = (encode codec tx P).1 →
      ∃ payloads rx', feed_all codec ⟨tx, []⟩ chunks = .ok (payloads, rx') ∧
        payloads.flatten = P) ∧
    feed_all sample_codec ⟨sample_cipher, []⟩
        [(encode sample_codec sample_cipher (List.replicate 1025 65)).1] =
      .error ProtocolError.frame_too_large := by
  constructor
  · rintro ⟨codec, h⟩
    obtain ⟨payloads, rx', hfeed, hflat⟩ := h sample_cipher (List.replicate 65536 0)
      [(encode codec sample_cipher (List.replicate 65536 0)).1]
      (by simp only [List.flatten_cons, List.flatten_nil, List.append_nil])
    exact feed_wrapped_prefix codec sample_cipher _ (List.length_replicate _ _) payloads rx'
      hfeed hflat
  · apply feed_oversized
    · show 1024 < (List.replicate 1025 65).length
      rw [List.length_replicate]
      norm_num
    · rw [List.length_replicate]
      norm_num

/-- C7 (amended). For a plaintext `P` no longer than the configured maximum frame size
and than the 16-bit length prefix can express, a keystream that has the requested length,
and a receiver that starts with the sender's cipher state and an empty staging buffer:
however the bytes of `encode(P)` are cut into consecutive chunks, feeding the chunks in
order succeeds, the decoded payloads concatenate to exactly `P`, and the receiver ends
with the sender's new cipher state and an empty staging buffer. -/
theorem frame_round_trip (codec : Codec) (tx : CipherState) (P : List Nat)
    (chunks : List (List Nat))
    (hks : ∀ key nonce counter n, (codec.keystream key nonce counter n).length = n)
    (hlen : P.length ≤ codec.max_frame) (h16 : P.length < 65536)
    (hchunks : chunks.flatten = (encode codec tx P).1) :
    ∃ payloads, feed_all codec ⟨tx, []⟩ chunks = .ok (payloads, ⟨(encode codec tx P).2, []⟩) ∧
      payloads.flatten = P := by
  have hbody : (apply P (codec.keystream tx.key tx.nonce tx.counter P.length)).length =
      P.length := apply_length _ _ (by rw [hks])
  have hv : P.length / 256 % 256 * 256 + P.length % 256 =
      (apply P (codec.keystream tx.key tx.nonce tx.counter P.length)).length := by
    rw [hbody]; omega
  obtain ⟨payloads, hp, hj⟩ := feed_all_frame codec tx
    (apply P (codec.keystream tx.key tx.nonce tx.counter P.length))
    (P.length / 256 % 256) (P.length % 256) hv (by rw [hbody]; exact hlen) chunks []
    (by rw [List.nil_append, hchunks]; rfl) (by simp)
  rw [hbody] at hp hj
  exact ⟨payloads, hp, hj.trans (apply_apply P _ (by rw [hks]))⟩

theorem frame_round_trip_witness :
    ∃ payloads, feed_all sample_codec ⟨sample_cipher, []⟩
        [((encode sample_codec sample_cipher (cstr "hello")).1).take 1,
         (((encode sample_codec sample_cipher (cstr "hello")).1).drop 1).take 3, [],
         ((encode sample_codec sample_cipher (cstr "hello")).1).drop 4] =
        .ok (payloads, ⟨{ sample_cipher with counter := 12 }, []⟩) ∧
      payloads.flatten = cstr "hello" :=
  frame_round_trip sample_codec sample_cipher (cstr "hello")
    [((encode sample_codec sample_cipher (cstr "hello")).1).take 1,
     (((encode sample_codec sample_cipher (cstr "hello")).1).drop 1).take 3, [],
     ((encode sample_codec sample_cipher (cstr "hello")).1).drop 4]
    (by intro key nonce counter n; simp [sample_codec]) (by decide) (by decide) (by decide)

/-! ### Line editing in `cli_loop` -/

theorem term_read_cons (st : State) (b : Nat) (rest : List Nat) (h : st.term_in = b :: rest) :
    term_read st =
      ((b : Int), { st with term_in := rest, trace := st.trace ++ [Event.term_read b] }) := by
  simp [term_read, h]

theorem to_uint8_byte (b : Nat) (h : b < 256) : to_uint8 (b : Int) = b := by
  have : (b : Int) % 256 = b := Int.emod_eq_of_lt (by omega) (by omega)
  simp [to_uint8, this]

theorem edit_line_length_le (bound : Nat) :
    ∀ (bytes text : List Nat), line_within bound text bytes = true →
      text.length ≤ bound ∧ (edit_line text bytes).length ≤ bound := by
  intro bytes
  induction bytes with
  | nil => intro text h; simpa [line_within, edit_line] using h
  | cons b bs ih =>
    intro text h
    simp only [line_within, Bool.and_eq_true, decide_eq_true_eq] at h
    refine ⟨h.1, ?_⟩
    have := (ih _ h.2).2
    by_cases h8 : b = 8
    · simpa [edit_line, h8] using this
    · simpa [edit_line, h8] using this

theorem line_within_mono {m n : Nat} (hmn : m ≤ n) :
    ∀ (bytes text : List Nat), line_within m text bytes = true →
      line_within n text bytes = true := by
  intro bytes
  induction bytes with
  | nil =>
    intro text h
    simp only [line_within, decide_eq_true_eq] at h ⊢
    omega
  | cons b bs ih =>
    intro text h
    simp only [line_within, Bool.and_eq_true, decide_eq_true_eq] at h ⊢
    exact ⟨by omega, ih _ h.2⟩

theorem edit_line_mem :
    ∀ (bytes text : List Nat) (x : Nat), x ∈ edit_line text bytes → x ∈ text ∨ x ∈ bytes := by
  intro bytes
  induction bytes with
  | nil => intro text x h; exact Or.inl h
  | cons b bs ih =>
    intro text x h
    by_cases h8 : b = 8
    · simp only [edit_line, h8, if_true] at h
      rcases ih _ x h with h1 | h1
      · exact Or.inl (List.mem_of_mem_dropLast h1)
      · exact Or.inr (List.mem_cons_of_mem _ h1)
    · simp only [edit_line, h8, if_false] at h
      rcases ih _ x h with h1 | h1
      · simp only [List.mem_append, List.mem_singleton] at h1
        rcases h1 with h1 | h1
        · exact Or.inl h1
        · exact Or.inr (by simp [h1])
      · exact Or.inr (List.mem_cons_of_mem _ h1)

theorem set_eq_append (v : Nat) :
    ∀ (l : List Nat) (n : Nat), n < l.length → l.set n v = l.take n ++ v :: l.drop (n + 1) := by
  intro l
  induction l with
  | nil => intro n h; simp at h
  | cons a l ih =>
    intro n h
    cases n with
    | zero => simp
    | succ n =>
      have := ih n (by simpa using h)
      simp [this]

theorem take_set_append (l : List Nat) (n v : Nat) (h : n < l.length) :
    (l.set n v).take (n + 1) = l.take n ++ [v] := by
  rw [set_eq_append v l n h]
  have hl : (l.take n).length = n := by simp; omega
  have : n + 1 = (l.take n ++ [v]).length := by simp [hl]
  rw [show l.take n ++ v :: l.drop (n + 1) = (l.take n ++ [v]) ++ l.drop (n + 1) by simp]
  rw [this, List.take_left]

theorem take_pred_set (l : List Nat) (n v : Nat) (h : n ≤ l.length) :
    (l.set n v).take (n - 1) = (l.take n).dropLast := by
  have h1 : (l.take n).dropLast = l.take (n - 1) := by
    rw [List.dropLast_eq_take, List.take_take, List.length_take]
    congr 1
    omega
  rw [h1]
  cases n with
  | zero => simp
  | succ n => exact List.take_set_of_lt v l (by omega)

theorem c_str_set_zero (l text : List Nat) (n : Nat) (h : n < l.length) (ht : l.take n = text)
    (h0 : 0 ∉ text) : c_str (l.set n 0) = text := by
  rw [set_eq_append 0 l n h, ht, c_str]
  exact (takeWhile_token (p := fun b => decide (b ≠ 0)) text (0 :: l.drop (n + 1))
    (by intro c hc; have : c ≠ 0 := fun h => h0 (h ▸ hc); simp [this])
    (by intro c hc; simp at hc; simp [← hc])).1

theorem input_step_edit (cfg : Config) (env : Env) (st : State) (text : List Nat)
    (b : Nat) (rest : List Nat) (hinv : buffered st text) (hin : st.term_in = b :: rest)
    (hb : b < 256) (h13 : b ≠ 13) (h10 : b ≠ 10)
    (hlen : (if b = 8 then text.dropLast else text ++ [b]).length ≤ 60) :
    ∃ st', (∀ f, input_step cfg env f st = some st') ∧
      buffered st' (if b = 8 then text.dropLast else text ++ [b]) ∧
      st'.term_in = rest ∧ (∃ new, st'.trace = st.trace ++ new) ∧
      (b = 8 → 0 < text.length → Event.store text.length 0 ∈ st'.trace) := by
  obtain ⟨hl, hi, ht⟩ := hinv
  unfold input_step
  rw [term_read_cons st b rest hin]
  simp only [to_uint8_byte b hb]
  by_cases h8 : b = 8
  · subst h8
    simp only [if_true]
    by_cases hpos : text.length > 0
    · have hpos' : st._command_index > 0 := by omega
      simp only [hpos', if_true]
      refine ⟨_, fun _ => rfl, ⟨?_, ?_, ?_⟩, ?_, ?_, ?_⟩
      · cases env.ECHO <;> simp [store_command, term_write_char, term_write, emit, hl]
      · cases env.ECHO <;>
          simp [store_command, term_write_char, term_write, emit, hi, List.length_dropLast]
      · have hle : text.length ≤ st._command.length := by
          rw [← ht, List.length_take] at *
          omega
        have := take_pred_set st._command text.length 0 hle
        rw [ht] at this
        cases env.ECHO <;>
          simp [store_command, term_write_char, term_write, emit, hi, List.length_dropLast, this]
      · cases env.ECHO <;> simp [store_command, term_write_char, term_write, emit]
      · cases env.ECHO
        · exact ⟨_, by simp [store_command, emit]; rfl⟩
        · exact ⟨_, by simp [store_command, term_write_char, term_write, emit]; rfl⟩
      · intro _ _
        cases env.ECHO <;> simp [store_command, term_write_char, term_write, emit, hi]
    · have hz : st._command_index = 0 := by omega
      have htext : text = [] := List.length_eq_zero.mp (by omega)
      subst htext
      simp only [hz, gt_iff_lt, lt_self_iff_false, if_false]
      refine ⟨_, fun _ => rfl, ⟨hl, by simp, by simp⟩, rfl, ⟨_, rfl⟩, ?_⟩
      intro _ h
      simp at h
  · simp only [h8, if_false] at hlen ⊢
    have hlt : text.length < 60 := by simp at hlen; omega
    have hidx : st._command_index < 60 := by omega
    have hcond : ∀ s : State, s._command_index = st._command_index →
        (b ≠ 13 ∧ b ≠ 10 ∧ s._command_index < 60) := fun s hs => ⟨h13, h10, by omega⟩
    cases hE : env.ECHO
    · simp only [Bool.false_eq_true, if_false]
      simp only [if_pos (hcond st rfl)]
      refine ⟨_, fun _ => rfl, ⟨?_, ?_, ?_⟩, ?_, ?_, ?_⟩
      · simp [store_command, hl]
      · simp [store_command, hi]; omega
      · have := take_set_append st._command text.length b (by omega)
        rw [ht] at this
        simp [store_command, hi, this]
      · simp [store_command]
      · exact ⟨_, by simp [store_command]; rfl⟩
      · intro h; exact h.elim
    · simp only [if_true, term_write_char, emit]
      simp only [if_pos (hcond st rfl)]
      refine ⟨_, fun _ => rfl, ⟨?_, ?_, ?_⟩, ?_, ?_, ?_⟩
      · simp [store_command, term_write_char, emit, hl]
      · simp [store_command, term_write_char, emit, hi]; omega
      · have := take_set_append st._command text.length b (by omega)
        rw [ht] at this
        simp [store_command, term_write_char, emit, hi, this]
      · simp [store_command, term_write_char, emit]
      · exact ⟨_, by simp [store_command, term_write_char, emit]; rfl⟩
      · intro h; exact h.elim

theorem buffered_available (st : State) (text : List Nat) (h : buffered st text) :
    buffered (term_available st).2 text := h

theorem input_loop_typing (cfg : Config) (env : Env) (rest : List Nat) :
    ∀ (bytes : List Nat) (st : State) (text : List Nat), buffered st text →
      st.term_in = bytes ++ rest → (∀ b ∈ bytes, b < 256 ∧ b ≠ 13 ∧ b ≠ 10) →
      line_within 60 text bytes = true →
      ∃ st', (∀ f, input_loop cfg env (f + bytes.length) st = input_loop cfg env f st') ∧
        buffered st' (edit_line text bytes) ∧ st'.term_in = rest ∧
        ∃ new, st'.trace = st.trace ++ new := by
  intro bytes
  induction bytes with
  | nil =>
    intro st text hinv hin _ _
    exact ⟨st, fun _ => rfl, hinv, by simpa using hin, [], by simp⟩
  | cons b bs ih =>
    intro st text hinv hin hbytes hfit
    simp only [line_within, Bool.and_eq_true, decide_eq_true_eq] at hfit
    have hb := hbytes b (by simp)
    have hnext := (edit_line_length_le 60 bs _ hfit.2).1
    have hin' : (term_available st).2.term_in = b :: (bs ++ rest) := by
      simpa [term_available, emit] using hin
    obtain ⟨st1, hstep, hinv1, hin1, ⟨new1, htr1⟩, -⟩ :=
      input_step_edit cfg env (term_available st).2 text b (bs ++ rest)
        (buffered_available st text hinv) hin' hb.1 hb.2.1 hb.2.2 hnext
    obtain ⟨st', hloop, hinv', hrest, new2, htr2⟩ :=
      ih st1 _ hinv1 hin1 (fun x hx => hbytes x (by simp [hx])) hfit.2
    have hav : (term_available st).1 = true := by simp [term_available, hin]
    refine ⟨st', ?_, ?_, hrest, Event.term_available true :: (new1 ++ new2), ?_⟩
    · intro f
      rw [show f + (b :: bs).length = (f + bs.length) + 1 by simp; omega, input_loop]
      simp only [hav, if_true, hstep]
      exact hloop f
    · have he : edit_line text (b :: bs) =
          edit_line (if b = 8 then text.dropLast else text ++ [b]) bs := by
        by_cases h8 : b = 8 <;> simp [edit_line, h8]
      rw [he]
      exact hinv'
    · rw [htr2, htr1]
      simp [term_available, emit, hin]

theorem input_loop_return (cfg : Config) (env : Env) (st : State) (text : List Nat)
    (c : Nat) (rest : List Nat) (hinv : buffered st text) (hin : st.term_in = c :: rest)
    (hc : c = 13 ∨ c = 10) :
    ∃ S, (∀ f, input_loop cfg env (f + 1) st =
        resume_input cfg env f (process_command cfg env f S)) ∧
      S.term_in = rest ∧ S._command = st._command.set text.length 0 ∧
      ∃ new, S.trace = st.trace ++ new ++ [Event.store text.length 0] := by
  obtain ⟨-, hi, -⟩ := hinv
  have hav : (term_available st).1 = true := by simp [term_available, hin]
  have hin' : (term_available st).2.term_in = c :: rest := by
    simpa [term_available, emit] using hin
  have hcb : c < 256 := by rcases hc with rfl | rfl <;> norm_num
  have hc8 : c ≠ 8 := by rcases hc with rfl | rfl <;> norm_num
  have hcond : ∀ n : Nat, ¬ (c ≠ 13 ∧ c ≠ 10 ∧ n < 60) := by
    intro n h
    rcases hc with rfl | rfl
    · exact h.1 rfl
    · exact h.2.1 rfl
  cases hE : env.ECHO
  · refine ⟨store_command (term_writeln { (term_available st).2 with
        term_in := rest, trace := (term_available st).2.trace ++ [Event.term_read c] } [])
        text.length 0, ?_, rfl, rfl, ?_⟩
    · intro f
      rw [input_loop]
      simp only [hav, if_true]
      unfold input_step
      rw [term_read_cons _ c rest hin']
      simp only [to_uint8_byte c hcb, hc8, if_false]
      rw [if_neg (hcond _), if_pos hc]
      simp only [hE, Bool.false_eq_true, if_false, term_writeln, emit, term_available, hi]
      cases process_command cfg env f _ with
      | none => rfl
      | some r =>
        obtain ⟨status, s⟩ := r
        cases status <;> simp [resume_input]
    · exact ⟨[Event.term_available (!st.term_in.isEmpty), Event.term_read c,
        Event.term_writeln []], by simp [store_command, term_writeln, emit, term_available]⟩
  · refine ⟨store_command (term_writeln (term_write_char { (term_available st).2 with
        term_in := rest, trace := (term_available st).2.trace ++ [Event.term_read c] } c) [])
        text.length 0, ?_, rfl, rfl, ?_⟩
    · intro f
      rw [input_loop]
      simp only [hav, if_true]
      unfold input_step
      rw [term_read_cons _ c rest hin']
      simp only [to_uint8_byte c hcb, hc8, if_false]
      rw [if_neg (hcond _), if_pos hc]
      simp only [hE, if_true, term_writeln, term_write_char, emit, term_available, hi]
      cases process_command cfg env f _ with
      | none => rfl
      | some r =>
        obtain ⟨status, s⟩ := r
        cases status <;> simp [resume_input]
    · exact ⟨[Event.term_available (!st.term_in.isEmpty), Event.term_read c,
        Event.term_write_char c, Event.term_writeln []],
        by simp [store_command, term_writeln, term_write_char, emit, term_available]⟩

theorem cli_loop_input (cfg : Config) (env : Env) (st : State)
    (hcb : env.wifi_has_loop_callback (uptime_update env st).trace = false) :
    ∃ s, (∀ fuel, cli_loop cfg env fuel st = input_loop cfg env fuel s) ∧
      s.term_in = st.term_in ∧ s._command = st._command ∧
      s._command_index = st._command_index := by
  cases hio : st._handling_io
  · refine ⟨emit (uptime_update env st) (Event.wifi_has_loop_callback false), ?_, rfl, rfl, rfl⟩
    intro fuel
    have hio' : (uptime_update env st)._handling_io = false := hio
    simp [cli_loop, hcb, emit, hio']
  · refine ⟨print_prompt { emit (uptime_update env st) (Event.wifi_has_loop_callback false) with
      _handling_io := false }, ?_, rfl, rfl, rfl⟩
    intro fuel
    have hio' : (uptime_update env st)._handling_io = true := hio
    simp [cli_loop, hcb, emit, hio']

theorem edit_line_append :
    ∀ (xs ys text : List Nat), edit_line text (xs ++ ys) = edit_line (edit_line text xs) ys := by
  intro xs
  induction xs with
  | nil => intro ys text; rfl
  | cons b bs ih =>
    intro ys text
    by_cases h8 : b = 8
    · simp only [List.cons_append, edit_line, h8, if_true]
      exact ih ys _
    · simp only [List.cons_append, edit_line, h8, if_false]
      exact ih ys _

theorem line_within_append (bound : Nat) :
    ∀ (xs ys text : List Nat), line_within bound text (xs ++ ys) = true →
      line_within bound text xs = true ∧ line_within bound (edit_line text xs) ys = true := by
  intro xs
  induction xs with
  | nil =>
    intro ys text h
    refine ⟨?_, h⟩
    have := (edit_line_length_le bound ys text h).1
    simpa [line_within] using this
  | cons b bs ih =>
    intro ys text h
    simp only [List.cons_append, line_within, Bool.and_eq_true, decide_eq_true_eq] at h ⊢
    obtain ⟨h1, h2⟩ := ih ys _ h.2
    refine ⟨⟨h.1, h1⟩, ?_⟩
    by_cases h8 : b = 8
    · simpa [edit_line, h8] using h2
    · simpa [edit_line, h8] using h2

theorem cli_loop_callback (cfg : Config) (env : Env) (st : State)
    (hcb : env.wifi_has_loop_callback (uptime_update env st).trace = true) :
    ∃ s, (∀ fuel, cli_loop cfg env fuel st = some s) ∧ s.term_in = st.term_in ∧
      s._command = st._command ∧ s._command_index = st._command_index :=
  ⟨{ emit (uptime_update env st) (Event.wifi_has_loop_callback true) with
      _handling_io := true }, fun _ => by simp [cli_loop, hcb], rfl, rfl, rfl⟩

theorem input_loop_idle (cfg : Config) (env : Env) (fuel : Nat) (st : State)
    (h : st.term_in = []) : input_loop cfg env fuel st = some (term_available st).2 := by
  have hav : (term_available st).1 = false := by simp [term_available, h]
  cases fuel <;> simp [input_loop, hav]

/-- One tick of `cli_loop` at which the bytes waiting are typed characters and backspaces:
a tick of a running session leaves them waiting, any other tick edits the line with them. -/
theorem cli_loop_typing (cfg : Config) (env : Env) (st : State) (text bytes : List Nat)
    (hbuf : buffered st text) (hin : st.term_in = bytes)
    (hbytes : ∀ b ∈ bytes, b < 256 ∧ b ≠ 13 ∧ b ≠ 10)
    (hfit : line_within 60 text bytes = true) :
    ∃ s, (∀ fuel, bytes.length ≤ fuel → cli_loop cfg env fuel st = some s) ∧
      ((buffered s text ∧ s.term_in = bytes) ∨
        (buffered s (edit_line text bytes) ∧ s.term_in = [])) := by
  cases hcb : env.wifi_has_loop_callback (uptime_update env st).trace
  · obtain ⟨s0, hs0, hs0in, hs0cmd, hs0idx⟩ := cli_loop_input cfg env st hcb
    have hs0buf : buffered s0 text := by
      obtain ⟨h1, h2, h3⟩ := hbuf
      exact ⟨by rw [hs0cmd]; exact h1, by rw [hs0idx]; exact h2, by rw [hs0cmd]; exact h3⟩
    obtain ⟨st', hloop, hinv', hrest', -⟩ := input_loop_typing cfg env [] bytes s0 text hs0buf
      (by rw [hs0in, hin, List.append_nil]) hbytes hfit
    refine ⟨(term_available st').2, ?_, Or.inr ⟨buffered_available st' _ hinv', ?_⟩⟩
    · intro fuel hfuel
      obtain ⟨f, rfl⟩ : ∃ f, fuel = f + bytes.length := ⟨fuel - bytes.length, by omega⟩
      rw [hs0, hloop, input_loop_idle cfg env f st' hrest']
    · simpa [term_available, emit] using hrest'
  · obtain ⟨s, hs, hsin, hscmd, hsidx⟩ := cli_loop_callback cfg env st hcb
    refine ⟨s, fun fuel _ => hs fuel, Or.inl ⟨?_, by rw [hsin, hin]⟩⟩
    obtain ⟨h1, h2, h3⟩ := hbuf
    exact ⟨by rw [hscmd]; exact h1, by rw [hsidx]; exact h2, by rw [hscmd]; exact h3⟩

/-- Ticks of `cli_loop` during which typed characters and backspaces arrive: of the bytes
arrived, a first part `done` has edited the line and the rest `pend` is still waiting. -/
theorem ticks_typing (cfg : Config) (env : Env) :
    ∀ (chunks : List (List Nat)) (st : State) (text pending : List Nat),
      buffered st text → st.term_in = pending →
      (∀ b ∈ pending ++ chunks.flatten, b < 256 ∧ b ≠ 13 ∧ b ≠ 10) →
      line_within 60 text (pending ++ chunks.flatten) = true →
      ∃ s done pend,
        (∀ fuel, (pending ++ chunks.flatten).length ≤ fuel →
          ticks cfg env fuel chunks st = some s) ∧
        pending ++ chunks.flatten = done ++ pend ∧
        buffered s (edit_line text done) ∧ s.term_in = pend := by
  intro chunks
  induction chunks with
  | nil =>
    intro st text pending hbuf hin _ _
    exact ⟨st, [], pending, fun _ _ => rfl, by simp, hbuf, hin⟩
  | cons chunk chunks ih =>
    intro st text pending hbuf hin hbytes hfit
    have hflat : pending ++ (chunk :: chunks).flatten = (pending ++ chunk) ++ chunks.flatten := by
      simp
    rw [hflat] at hbytes hfit
    obtain ⟨hfit1, hfit2⟩ := line_within_append 60 (pending ++ chunk) chunks.flatten text hfit
    have hbuf1 : buffered { st with term_in := st.term_in ++ chunk } text := hbuf
    obtain ⟨s1, hs1, hcase⟩ := cli_loop_typing cfg env
      { st with term_in := st.term_in ++ chunk } text (pending ++ chunk) hbuf1
      (by simp [hin]) (fun b hb => hbytes b (by simp at hb ⊢; tauto)) hfit1
    rcases hcase with ⟨hb1, hin1⟩ | ⟨hb1, hin1⟩
    · obtain ⟨s, done, pend, hs, hsplit, hsbuf, hsin⟩ :=
        ih s1 text (pending ++ chunk) hb1 hin1 hbytes hfit
      refine ⟨s, done, pend, ?_, by rw [hflat]; exact hsplit, hsbuf, hsin⟩
      intro fuel hfuel
      rw [hflat] at hfuel
      rw [ticks, hs1 fuel (by simp at hfuel ⊢; omega)]
      exact hs fuel hfuel
    · obtain ⟨s, done, pend, hs, hsplit, hsbuf, hsin⟩ :=
        ih s1 (edit_line text (pending ++ chunk)) [] hb1 hin1
          (fun b hb => hbytes b (by simp at hb ⊢; tauto)) (by simpa using hfit2)
      refine ⟨s, (pending ++ chunk) ++ done, pend, ?_, ?_, ?_, hsin⟩
      · intro fuel hfuel
        rw [hflat] at hfuel
        rw [ticks, hs1 fuel (by simp at hfuel ⊢; omega)]
        exact hs fuel (by simp at hfuel ⊢; omega)
      · rw [hflat, List.append_assoc (pending ++ chunk), ← hsplit, List.nil_append]
      · rw [edit_line_append]
        exact hsbuf

/-- C12. Line editing in `cli_loop`. The command line holds `text` (nothing, after a
prompt), and the bytes of `chunks` arrive at the terminal over any number of ticks, those
of `last` and a CR (with `rest` behind it) before one more tick; none of the bytes is CR,
LF or NUL, and while they are typed the line never holds more than 59 characters. The
earlier ticks return, in a state `s`, whatever `wifi_has_loop_callback()` answers at them.
If it answers false at the tick of the CR, that tick calls `process_command` in a state
`S`, the same for every fuel, whose command buffer reads, as a C string, exactly
`edit_line text` of all the bytes: each byte other than 0x08 appended, each 0x08 deleting
the most recently buffered character, a 0x08 on an empty line changing nothing. What
follows the CR is still waiting, and the tick goes on from the outcome of that call. -/
theorem cli_loop_line_editing (cfg : Config) (env : Env) (st : State)
    (text : List Nat) (chunks : List (List Nat)) (last rest : List Nat)
    (hbuf : buffered st text) (h0 : 0 ∉ text) (hin : st.term_in = [])
    (hbytes : ∀ b ∈ chunks.flatten ++ last, b < 256 ∧ b ≠ 13 ∧ b ≠ 10 ∧ b ≠ 0)
    (hfit : line_within 59 text (chunks.flatten ++ last) = true) :
    ∃ s, (∀ f, ticks cfg env (f + (chunks.flatten ++ last).length + 1) chunks st = some s) ∧
      (env.wifi_has_loop_callback
          (uptime_update env { s with term_in := s.term_in ++ (last ++ 13 :: rest) }).trace
          = false →
        ∃ S k, c_str S._command = edit_line text (chunks.flatten ++ last) ∧
          S.term_in = rest ∧
          ∀ f, cli_loop cfg env (f + (chunks.flatten ++ last).length + 1)
              { s with term_in := s.term_in ++ (last ++ 13 :: rest) } =
            resume_input cfg env (f + k) (process_command cfg env (f + k) S)) := by
  have hfit60 := line_within_mono (show 59 ≤ 60 by norm_num) _ _ hfit
  obtain ⟨hfitA, hfitB⟩ := line_within_append 60 chunks.flatten last text hfit60
  obtain ⟨s, done, pend, hs, hsplit, hsbuf, hsin⟩ :=
    ticks_typing cfg env chunks st text [] hbuf hin
      (fun b hb => by
        have := hbytes b (List.mem_append_left _ (by simpa using hb))
        exact ⟨this.1, this.2.1, this.2.2.1⟩)
      (by simpa using hfitA)
  simp only [List.nil_append] at hs hsplit
  refine ⟨s, ?_, ?_⟩
  · intro f
    exact hs _ (by simp; omega)
  · intro hcb
    have hall : chunks.flatten ++ last = done ++ (pend ++ last) := by
      rw [hsplit, List.append_assoc]
    rw [hall] at hfit60 hfit hbytes ⊢
    obtain ⟨-, hfitC⟩ := line_within_append 60 done (pend ++ last) text hfit60
    have hsF : buffered { s with term_in := s.term_in ++ (last ++ 13 :: rest) }
        (edit_line text done) := hsbuf
    obtain ⟨s0, hs0, hs0in, hs0cmd, hs0idx⟩ := cli_loop_input cfg env
      { s with term_in := s.term_in ++ (last ++ 13 :: rest) } hcb
    have hs0buf : buffered s0 (edit_line text done) := by
      obtain ⟨h1, h2, h3⟩ := hsF
      exact ⟨by rw [hs0cmd]; exact h1, by rw [hs0idx]; exact h2, by rw [hs0cmd]; exact h3⟩
    obtain ⟨st', hloop, hinv', hrest', -⟩ := input_loop_typing cfg env (13 :: rest)
      (pend ++ last) s0 (edit_line text done) hs0buf
      (by rw [hs0in]; simp [hsin])
      (fun b hb => by
        have := hbytes b (by simp at hb ⊢; tauto)
        exact ⟨this.1, this.2.1, this.2.2.1⟩)
      hfitC
    obtain ⟨S, hret, hSin, hScmd, -⟩ :=
      input_loop_return cfg env st' (edit_line (edit_line text done) (pend ++ last)) 13 rest
        hinv' hrest' (Or.inl rfl)
    refine ⟨S, done.length, ?_, hSin, ?_⟩
    · have hlen := (edit_line_length_le 59 _ text hfit).2
      rw [edit_line_append] at hlen ⊢
      have hz : 0 ∉ edit_line (edit_line text done) (pend ++ last) := by
        intro hmem
        rw [← edit_line_append] at hmem
        rcases edit_line_mem _ text 0 hmem with h | h
        · exact h0 h
        · exact (hbytes 0 h).2.2.2 rfl
      rw [hScmd]
      exact c_str_set_zero _ _ _ (by rw [hinv'.1]; omega) hinv'.2.2 hz
    · intro f
      rw [hs0, show f + (done ++ (pend ++ last)).length + 1 =
          (f + done.length) + 1 + (pend ++ last).length by simp; omega, hloop, hret]

/-- Witness for `cli_loop_line_editing`: backspace, `h`, `x` arrive before a first tick,
backspace, `i` before a second, and `j`, backspace, CR, `h` before a third; the line `hi`
is handed to `process_command`, and the third tick returns. -/
theorem cli_loop_line_editing_witness :
    ∃ s, ticks config_h (sample_env false false false 0) 9 [[8, 104, 120], [8, 105]]
        (init_state []) = some s ∧
      (∃ S k, c_str S._command = cstr "hi" ∧ S.term_in = [104] ∧
        cli_loop config_h (sample_env false false false 0) 9
            { s with term_in := s.term_in ++ ([106, 8] ++ 13 :: [104]) } =
          resume_input config_h (sample_env false false false 0) (1 + k)
            (process_command config_h (sample_env false false false 0) (1 + k) S)) ∧
      (cli_loop config_h (sample_env false false false 0) 9
        { s with term_in := s.term_in ++ ([106, 8] ++ 13 :: [104]) }).isSome = true := by
  obtain ⟨s, h1, h2⟩ := cli_loop_line_editing config_h (sample_env false false false 0)
    (init_state []) [] [[8, 104, 120], [8, 105]] [106, 8] [104]
    ⟨by decide, rfl, rfl⟩ (by simp) rfl (by decide) (by decide)
  obtain ⟨S, k, h3, h4, h5⟩ := h2 rfl
  have hs : ticks config_h (sample_env false false false 0) 9 [[8, 104, 120], [8, 105]]
      (init_state []) = some s := h1 1
  have e : ((ticks config_h (sample_env false false false 0) 9 [[8, 104, 120], [8, 105]]
      (init_state [])).bind fun s' =>
        some (cli_loop config_h (sample_env false false false 0) 9
          { s' with term_in := s'.term_in ++ ([106, 8] ++ 13 :: [104]) }).isSome) =
      some true := by decide
  rw [hs] at e
  exact ⟨s, hs, ⟨S, k, h3.trans (by decide), h4, h5 1⟩, by simpa using e⟩

/-- C13 (as the code has it). When the command line holds 60 characters, the next CR, LF
or backspace makes `cli_loop` store a NUL at `_command[60]`, one past the last element of
the 60-byte buffer: the test `_command_index < sizeof(_command)` lets the index reach 60,
and both `_command[_command_index] = 0` statements then use it. The store is in the trace
of the state `S`, the same for every fuel, from which the tick goes on: with the next
input byte after a backspace, with `process_command` after CR or LF. -/
theorem cli_loop_store_past_buffer (cfg : Config) (env : Env) (st : State)
    (bytes rest : List Nat) (c : Nat)
    (hcb : env.wifi_has_loop_callback (uptime_update env st).trace = false)
    (hbuf : buffered st [])
    (hin : st.term_in = bytes ++ c :: rest)
    (hbytes : ∀ b ∈ bytes, b < 256 ∧ b ≠ 13 ∧ b ≠ 10)
    (hfit : line_within 60 [] bytes = true)
    (hfull : (edit_line [] bytes).length = 60)
    (hc : c = 13 ∨ c = 10 ∨ c = 8) :
    ∃ S, Event.store 60 0 ∈ S.trace ∧ S._command.length = 60 ∧
      ∀ f, cli_loop cfg env (f + bytes.length + 1) st =
        if c = 8 then input_loop cfg env f S
        else resume_input cfg env f (process_command cfg env f S) := by
  obtain ⟨s, hs, hsin, hscmd, hsidx⟩ := cli_loop_input cfg env st hcb
  have hsbuf : buffered s [] := by
    obtain ⟨h1, h2, h3⟩ := hbuf
    exact ⟨by rw [hscmd]; exact h1, by rw [hsidx]; exact h2, by simp⟩
  obtain ⟨st', hloop, hinv', hrest', -⟩ := input_loop_typing cfg env (c :: rest) bytes s []
    hsbuf (by rw [hsin, hin]) hbytes hfit
  by_cases h8 : c = 8
  · subst h8
    have hav : (term_available st').1 = true := by simp [term_available, hrest']
    have hin' : (term_available st').2.term_in = 8 :: rest := by
      simpa [term_available, emit] using hrest'
    obtain ⟨st1, hstep, hinv1, -, -, hstore⟩ := input_step_edit cfg env (term_available st').2
      (edit_line [] bytes) 8 rest (buffered_available st' _ hinv') hin' (by norm_num)
      (by norm_num) (by norm_num) (by simp [hfull])
    refine ⟨st1, ?_, hinv1.1, ?_⟩
    · have := hstore rfl (by omega)
      rwa [hfull] at this
    · intro f
      rw [hs, show f + bytes.length + 1 = f + 1 + bytes.length by omega, hloop, input_loop]
      simp only [hav, if_true, hstep]
  · have hc' : c = 13 ∨ c = 10 := by
      rcases hc with h | h | h
      · exact Or.inl h
      · exact Or.inr h
      · exact absurd h h8
    obtain ⟨S, hret, -, hScmd, new, htr⟩ :=
      input_loop_return cfg env st' (edit_line [] bytes) c rest hinv' hrest' hc'
    refine ⟨S, ?_, ?_, ?_⟩
    · rw [htr, hfull]
      simp
    · rw [hScmd, List.length_set]
      exact hinv'.1
    · intro f
      rw [hs, show f + bytes.length + 1 = f + 1 + bytes.length by omega, hloop, if_neg h8,
        hret]

set_option maxRecDepth 1000000 in
/-- Witness for `cli_loop_store_past_buffer`: 60 times `a` followed by CR. The tick
returns, and the trace of the state it returns holds the store at index 60. -/
theorem cli_loop_store_past_buffer_witness :
    (∃ S, Event.store 60 0 ∈ S.trace ∧ S._command.length = 60 ∧
      cli_loop config_h (sample_env false false false 0) 61
          (init_state (List.replicate 60 97 ++ 13 :: [])) =
        resume_input config_h (sample_env false false false 0) 0
          (process_command config_h (sample_env false false false 0) 0 S)) ∧
    (∃ st', cli_loop config_h (sample_env false false false 0) 61
          (init_state (List.replicate 60 97 ++ 13 :: [])) = some st' ∧
      Event.store 60 0 ∈ st'.trace) := by
  obtain ⟨S, h1, h2, h3⟩ := cli_loop_store_past_buffer config_h (sample_env false false false 0)
    (init_state (List.replicate 60 97 ++ 13 :: [])) (List.replicate 60 97) [] 13
    rfl ⟨by decide, rfl, rfl⟩ rfl (by decide) (by decide) (by decide) (Or.inl rfl)
  exact ⟨⟨S, h1, h2, h3 0⟩, _, rfl, by decide⟩

/-! ### `cmd_chars` -/

set_option maxRecDepth 1000000 in
theorem chars_table_prints_eq (alt : Bool) : table_prints alt 256 FIRST_PRINTABLE =
    chars_table_prints alt := by
  cases alt <;> decide

theorem wait_xon_spec :
    ∀ (input : List Nat) (tr : List Event),
      (wait_xon input tr = none → drop_to_xon input = none) ∧
      (∀ rest tr', wait_xon input tr = some (rest, tr') →
        drop_to_xon input = some rest ∧ ∃ w, tr' = tr ++ w ∧ w.filter is_print = []) := by
  intro input
  induction input with
  | nil =>
    intro tr
    exact ⟨fun _ => rfl, fun rest tr' h => by simp [wait_xon] at h⟩
  | cons b bs ih =>
    intro tr
    by_cases hb : b = TERM_XON
    · simp only [wait_xon, drop_to_xon, hb, if_true]
      refine ⟨fun h => by simp at h, fun rest tr' h => ?_⟩
      simp only [Option.some.injEq, Prod.mk.injEq] at h
      exact ⟨by rw [h.1], [Event.term_serial_read TERM_XON], h.2.symm, rfl⟩
    · simp only [wait_xon, drop_to_xon, hb, if_false]
      refine ⟨(ih _).1, fun rest tr' h => ?_⟩
      obtain ⟨h1, w, hw, hf⟩ := (ih _).2 rest tr' h
      exact ⟨h1, Event.term_serial_read b :: w, by simp [hw], by simp [is_print, hf]⟩

theorem chars_flow_spec (st : State) :
    (chars_flow st = none → cell_input st.term_in = none) ∧
    (∀ st1, chars_flow st = some st1 →
      cell_input st.term_in = some st1.term_in ∧
        ∃ w, st1.trace = st.trace ++ w ∧ w.filter is_print = []) := by
  cases hin : st.term_in with
  | nil =>
    have hr : term_read st = (-1, emit st (Event.term_read (-1))) := by simp [term_read, hin]
    have hne : ¬ ((-1 : Int) = (TERM_XOFF : Int)) := by decide
    simp only [chars_flow, hr, hne, if_false, cell_input]
    refine ⟨fun h => by simp at h, fun st1 h => ?_⟩
    simp only [Option.some.injEq] at h
    rw [← h]
    exact ⟨by simp [emit, hin], [Event.term_read (-1)], rfl, rfl⟩
  | cons b rest =>
    rw [chars_flow, term_read_cons st b rest hin]
    by_cases hb : b = TERM_XOFF
    · have hb' : ((b : Nat) : Int) = (TERM_XOFF : Int) := by rw [hb]
      simp only [hb', if_true, cell_input, hb]
      have hw := wait_xon_spec rest (st.trace ++ [Event.term_read (TERM_XOFF : Nat)])
      constructor
      · intro h
        apply hw.1
        cases hx : wait_xon rest (st.trace ++ [Event.term_read (TERM_XOFF : Nat)]) with
        | none => rfl
        | some r => simp [hb, hx] at h
      · intro st1 h
        cases hx : wait_xon rest (st.trace ++ [Event.term_read (TERM_XOFF : Nat)]) with
        | none => simp [hb, hx] at h
        | some r =>
          obtain ⟨rest', tr'⟩ := r
          simp only [hb, hx, Option.some.injEq] at h
          obtain ⟨h1, w, hw1, hw2⟩ := hw.2 rest' tr' hx
          rw [← h]
          exact ⟨h1, Event.term_read (TERM_XOFF : Nat) :: w, by simp [hw1], by simp [is_print, hw2]⟩
    · have hb' : ¬ (((b : Nat) : Int) = (TERM_XOFF : Int)) := by
        intro h
        exact hb (by exact_mod_cast h)
      simp only [hb', if_false, cell_input, hb]
      refine ⟨fun h => by simp at h, fun st1 h => ?_⟩
      simp only [Option.some.injEq] at h
      rw [← h]
      exact ⟨rfl, [Event.term_read b], rfl, rfl⟩

theorem chars_row_succ (alt : Bool) (c n col : Nat) (st : State) :
    chars_row alt c (n + 1) col st =
      match chars_flow st with
      | none => none
      | some st1 =>
        if (c + col * 12) % 256 > LAST_PRINTABLE then some st1
        else chars_row alt c n (col + 1)
          { st1 with trace := st1.trace ++ chars_cell alt ((c + col * 12) % 256) } := by
  rw [chars_row]
  have hflow : (if (term_read st).1 = (TERM_XOFF : Int) then
      match wait_xon (term_read st).2.term_in (term_read st).2.trace with
      | none => none
      | some (rest, tr) => some { (term_read st).2 with term_in := rest, trace := tr }
      else some (term_read st).2) = chars_flow st := rfl
  simp only [hflow]
  cases chars_flow st with
  | none => rfl
  | some st1 =>
    cases alt <;>
      simp [chars_cell, term_write, term_write_char, term_print, emit]

theorem chars_row_spec (alt : Bool) (c : Nat) :
    ∀ (n col : Nat) (st : State),
      (∀ k, col ≤ k → k + 1 < col + n → (c + k * 12) % 256 ≤ LAST_PRINTABLE) →
      (chars_row alt c n col st = none → cells_input n st.term_in = none) ∧
      (∀ st', chars_row alt c n col st = some st' →
        cells_input n st.term_in = some st'.term_in ∧
          ∃ new, st'.trace = st.trace ++ new ∧
            new.filter is_print = row_prints alt c n col) := by
  intro n
  induction n with
  | zero =>
    intro col st _
    refine ⟨fun h => by simp [chars_row] at h, fun st' h => ?_⟩
    simp only [chars_row, Option.some.injEq] at h
    rw [← h]
    exact ⟨rfl, [], by simp, rfl⟩
  | succ n ih =>
    intro col st hk
    rw [chars_row_succ]
    obtain ⟨hf1, hf2⟩ := chars_flow_spec st
    cases hfl : chars_flow st with
    | none =>
      refine ⟨fun _ => by simp [cells_input, hf1 hfl], fun st' h => by simp at h⟩
    | some st1 =>
      obtain ⟨hin1, w, hw1, hw2⟩ := hf2 st1 hfl
      simp only [cells_input, hin1, Option.some_bind]
      by_cases hgt : (c + col * 12) % 256 > LAST_PRINTABLE
      · have hn : n = 0 := by
          by_contra hne
          have := hk col (le_refl _) (by omega)
          omega
        subst hn
        simp only [hgt, if_true, row_prints, cells_input]
        refine ⟨fun h => by simp at h, fun st' h => ?_⟩
        simp only [Option.some.injEq] at h
        rw [← h]
        exact ⟨rfl, w, hw1, hw2⟩
      · simp only [hgt, if_false, row_prints]
        obtain ⟨ih1, ih2⟩ := ih (col + 1)
          { st1 with trace := st1.trace ++ chars_cell alt ((c + col * 12) % 256) }
          (fun k h1 h2 => hk k (by omega) (by omega))
        refine ⟨ih1, fun st' h => ?_⟩
        obtain ⟨hin', new, hnew1, hnew2⟩ := ih2 st' h
        refine ⟨hin', w ++ chars_cell alt ((c + col * 12) % 256) ++ new, ?_, ?_⟩
        · rw [hnew1, hw1]
          simp
        · have hcell : (chars_cell alt ((c + col * 12) % 256)).filter is_print =
              chars_cell alt ((c + col * 12) % 256) := by
            cases alt <;> simp [chars_cell, is_print]
          simp [List.filter_append, hw2, hcell, hnew2]

theorem cells_input_add (m : Nat) :
    ∀ (n : Nat) (input : List Nat),
      cells_input (n + m) input = (cells_input n input).bind (cells_input m) := by
  intro n
  induction n with
  | zero => intro input; simp [cells_input]
  | succ n ih =>
    intro input
    rw [show n + 1 + m = (n + m) + 1 by omega]
    simp only [cells_input]
    cases cell_input input with
    | none => rfl
    | some i => simp [ih]

theorem chars_rows_spec (alt : Bool) :
    ∀ (m n c : Nat) (st : State), c + m = 44 → m < n →
      (chars_rows alt n c st = none → cells_input (8 * m) st.term_in = none) ∧
      (∀ st', chars_rows alt n c st = some st' →
        cells_input (8 * m) st.term_in = some st'.term_in ∧
          ∃ new, st'.trace = st.trace ++ new ∧ new.filter is_print = table_prints alt n c) := by
  intro m
  induction m with
  | zero =>
    intro n c st hc hn
    obtain ⟨n', rfl⟩ : ∃ n', n = n' + 1 := ⟨n - 1, by omega⟩
    have hcc : ¬ c ≤ FIRST_PRINTABLE + 11 := by simp [FIRST_PRINTABLE]; omega
    simp only [chars_rows, table_prints, hcc, if_false, cells_input]
    refine ⟨fun h => by simp at h, fun st' h => ?_⟩
    simp only [Option.some.injEq] at h
    rw [← h]
    exact ⟨rfl, [], by simp, rfl⟩
  | succ m ih =>
    intro n c st hc hn
    obtain ⟨n', rfl⟩ : ∃ n', n = n' + 1 := ⟨n - 1, by omega⟩
    have hcc : c ≤ FIRST_PRINTABLE + 11 := by simp [FIRST_PRINTABLE]; omega
    have hc1 : (c + 1) % 256 = c + 1 := Nat.mod_eq_of_lt (by omega)
    simp only [chars_rows, table_prints, hcc, if_true, hc1]
    rw [show 8 * (m + 1) = 8 + 8 * m by omega, cells_input_add]
    obtain ⟨hr1, hr2⟩ := chars_row_spec alt c 8 0 st (by
      intro k _ hk
      have : (c + k * 12) % 256 = c + k * 12 := Nat.mod_eq_of_lt (by omega)
      rw [this]
      simp [LAST_PRINTABLE]
      omega)
    cases hrow : chars_row alt c 8 0 st with
    | none =>
      refine ⟨fun _ => by simp [hr1 hrow], fun st' h => by simp at h⟩
    | some st1 =>
      obtain ⟨hin1, new1, hnew1, hp1⟩ := hr2 st1 hrow
      simp only [hin1, Option.some_bind]
      obtain ⟨ih1, ih2⟩ := ih n' (c + 1) (term_writeln st1 []) (by omega) (by omega)
      refine ⟨ih1, fun st' h => ?_⟩
      obtain ⟨hin', new2, hnew2, hp2⟩ := ih2 st' h
      refine ⟨hin', new1 ++ Event.term_writeln [] :: new2, ?_, ?_⟩
      · rw [hnew2]
        simp [term_writeln, emit, hnew1]
      · simp [List.filter_append, hp1, hp2, is_print]

theorem cells_input_no_xoff :
    ∀ (n : Nat) (input : List Nat), TERM_XOFF ∉ input → (cells_input n input).isSome = true := by
  intro n
  induction n with
  | zero => intro input _; rfl
  | succ n ih =>
    intro input h
    cases input with
    | nil => simpa [cells_input, cell_input] using ih [] (by simp)
    | cons b rest =>
      have hb : b ≠ TERM_XOFF := fun hb => h (by simp [hb])
      simpa [cells_input, cell_input, hb] using ih rest (fun hm => h (by simp [hm]))

theorem chars_rows_table (alt : Bool) (st : State)
    (hflow : (cells_input 96 st.term_in).isSome = true) :
    ∃ st', chars_rows alt 256 FIRST_PRINTABLE st = some st' ∧
      cells_input 96 st.term_in = some st'.term_in ∧
      ∃ new, st'.trace = st.trace ++ new ∧ new.filter is_print = chars_table_prints alt := by
  obtain ⟨h1, h2⟩ := chars_rows_spec alt 12 256 FIRST_PRINTABLE st (by decide) (by decide)
  cases hr : chars_rows alt 256 FIRST_PRINTABLE st with
  | none =>
    have := h1 hr
    rw [show 8 * 12 = 96 by rfl] at this
    rw [this] at hflow
    simp at hflow
  | some st' =>
    obtain ⟨hin, new, hnew, hp⟩ := h2 st' hr
    exact ⟨st', rfl, hin, new, hnew, by rw [hp, chars_table_prints_eq]⟩

/-- C11 (as the code has it). With an XOFF waiting at the terminal and no XON after it,
`cmd_chars` does not return, with or without the argument `alt`: the per-cell flow-control
check reads the XOFF and then waits for an XON. -/
theorem cmd_chars_waits_for_xon :
    cmd_chars 0 (init_state [0x13]) = none ∧
    cmd_chars 0 { state_with_command (cstr "alt") with term_in := [0x13, 65] } = none ∧
    process_command config_h (sample_env false false false 0) 0
      { state_with_command (cstr "chars alt") with term_in := [0x13, 65] } = none := by
  decide

set_option maxRecDepth 1000000 in
/-- C11 (amended). With no argument or the argument `alt` (blanks around it allowed) as
the text of `_command` at the offset `tok`, `cmd_chars` returns `CMD_OK` provided every XOFF met by one of its 96 per-cell flow-control
reads is followed by an XON in the waiting input, which holds in particular when no XOFF is
waiting. What it prints is then exactly `chars_table_prints`: 12 lines, each ended by one
`term_writeln`, of at most 8 cells; the cell in row `r` and column `k` holds code
`0x20 + r + 12 * k`, and only the cell of row 11, column 7 is absent; the codes printed are
those from `FIRST_PRINTABLE` to `LAST_PRINTABLE`, each exactly once; a cell is 10 characters
wide, to which `alt` adds the 4 bytes of the two escape sequences around the character. -/
theorem cmd_chars_table (alt : Bool) (st : State) (tok : Nat) (blanks rest : List Nat)
    (hb : ∀ c ∈ blanks, c = 32) (hrest : rest = [] ∨ rest.head? = some 32)
    (hflow : (cells_input 96 st.term_in).isSome = true)
    (htext : c_str (st._command.drop tok) =
      if alt then blanks ++ cstr "alt" ++ rest else blanks) :
    (∃ st', cmd_chars tok st = some ( CMD_OK, st') ∧
        cells_input 96 st.term_in = some st'.term_in ∧
        ∃ new, st'.trace = st.trace ++ new ∧
          new.filter is_print = chars_table_prints alt) ∧
    (∀ input, TERM_XOFF ∉ input → (cells_input 96 input).isSome = true) ∧
    (chars_table_prints alt).count (Event.term_writeln []) = 12 ∧
    chars_table.length = 12 ∧
    (∀ row ∈ chars_table, row.length ≤ 8) ∧
    (∀ r, r < 12 → ∀ k, k < 8 →
      (0x20 + r + 12 * k ≤ LAST_PRINTABLE →
        (chars_table.getD r []).getD k 0 = 0x20 + r + 12 * k) ∧
      (LAST_PRINTABLE < 0x20 + r + 12 * k ↔ r = 11 ∧ k = 7)) ∧
    chars_table.flatten.Perm (List.range' FIRST_PRINTABLE 95) ∧
    (∀ ch ∈ chars_table.flatten,
      ((chars_cell false ch).map printed_chars).sum = 10 ∧
      ((chars_cell true ch).map printed_chars).sum = 14) := by
  refine ⟨?_, cells_input_no_xoff 96, by cases alt <;> decide, by decide, by decide,
    by decide, by decide, by decide⟩
  cases alt with
  | false =>
    simp only [Bool.false_eq_true, if_false] at htext
    obtain ⟨st', hr, hin, hnew⟩ := chars_rows_table false st hflow
    refine ⟨st', ?_, hin, hnew⟩
    simp only [cmd_chars, strtok_r_blank st._command tok blanks htext hb, hr,
      Option.map_some']
  | true =>
    simp only [if_true] at htext
    obtain ⟨t, -, -⟩ := strtok_r_token st._command tok blanks (cstr "alt") rest htext hb
      (by decide) (by decide) hrest
    obtain ⟨st', hr, hin, hnew⟩ := chars_rows_table true
      { st with _command := st._command.set (tok + blanks.length + (cstr "alt").length) 0 }
      hflow
    refine ⟨st', ?_, hin, hnew⟩
    simp only [cmd_chars, t, if_true, hr, Option.map_some']

/-- Witness for `cmd_chars_table`: the command ` alt` with the bytes XOFF, `A`, XON, `B`
waiting at the terminal. -/
theorem cmd_chars_table_witness :
    ∃ st', cmd_chars 0
          { state_with_command (cstr " alt") with term_in := [0x13, 65, 0x11, 66] }
          = some ( CMD_OK, st') ∧
      st'.term_in = [] ∧
      (st'.trace.filter is_print) = chars_table_prints true := by
  obtain ⟨⟨st', h1, h2, new, h3, h4⟩, _⟩ :=
    cmd_chars_table true
      { state_with_command (cstr " alt") with term_in := [0x13, 65, 0x11, 66] } 0 [32] []
      (by decide) (Or.inl rfl) (by decide) (by decide)
  refine ⟨st', h1, ?_, ?_⟩
  · have h5 : cells_input 96 [0x13, 65, 0x11, 66] = some [] := by decide
    have h2' : cells_input 96 [0x13, 65, 0x11, 66] = some st'.term_in := h2
    rw [h5] at h2'
    exact (Option.some.inj h2').symm
  · have h3' : st'.trace = [] ++ new := h3
    rw [h3', List.nil_append, h4]

end Tvipt
